import Mathlib

/-!
SCMPusher: controller and deployer agent.

A shallow embedding of the parts of the controller (`controller_src`) and of the
deployer agent (`deployer_src`) that the specification's contract sentences are
about, followed by the theorems that settle them.

Conventions of the embedding

* a Go `string` that is text (a path, a host name, a config line) is a `List Char`;
  a Go `[]byte` (and a string obtained from one) is a `List Byte`;
* a Go function with an `error` result returns `Outcome`: `ok` for a nil error,
  `error` for a non-nil one, and `panic` where the Go runtime would panic
  (index or slice bound out of range);
* a Go `map` that is only iterated is a list of key/value pairs, visited in list
  order (Go's order is unspecified; the theorems hold for every order);
* logging and printing are left out.
-/

namespace SCMPusher

/-! ## Basic types -/

/-- One octet. -/
abbrev Byte := Fin 256

/-- Go text strings. -/
abbrev Str := List Char

/-- Conversion `byte(n)` of a non-negative integer: the low eight bits. -/
def toByte (n : Nat) : Byte := ⟨n % 256, Nat.mod_lt _ (by decide)⟩

/-- Result of a Go call: a value with nil error, a non-nil error, or a runtime panic. -/
inductive Outcome (α : Type) where
  | ok (value : α)
  | error (msg : String)
  | panic
  deriving DecidableEq, Repr

namespace Outcome

/-- The call returned a non-nil error (it did not panic and produced no value). -/
def isError {α : Type} : Outcome α → Bool
  | error _ => true
  | _ => false

/-- The call returned normally with a nil error. -/
def isOk {α : Type} : Outcome α → Bool
  | ok _ => true
  | _ => false

end Outcome

/-! ## Go library functions used by the modelled code -/

/-- Position-wise cut of `s` at the first occurrence of the one-character separator:
`none` when the separator does not occur. -/
def cutAt (sep : Char) : Str → Option (Str × Str)
  | [] => none
  | c :: cs =>
    if c = sep then some ([], cs)
    else match cutAt sep cs with
      | none => none
      | some (a, b) => some (c :: a, b)

/-- Go `strings.SplitN(s, sep, n)` for a one-character `sep` and `n ≥ 0`: at most `n`
fields, the last one holding the unsplit remainder; `n = 0` gives no field. -/
def SplitN (s : Str) (sep : Char) : Nat → List Str
  | 0 => []
  | 1 => [s]
  | n + 2 =>
    match cutAt sep s with
    | none => [s]
    | some (a, rest) => a :: SplitN rest sep (n + 1)

/-- Go `strings.Split(s, sep)` for a one-character `sep`: all fields. -/
def Split (s : Str) (sep : Char) : List Str :=
  SplitN s sep (s.length + 1)

/-- Go `strings.ReplaceAll(s, old, new)` for one-character `old` and `new`. -/
def ReplaceAll (s : Str) (old new : Char) : Str :=
  s.map (fun c => if c = old then new else c)

/-- Assignment `m[k] = v` on a Go map kept as a list of pairs: the value of an existing
key is replaced, a new key is added. -/
def mapSet {β : Type} (m : List (Str × β)) (k : Str) (v : β) : List (Str × β) :=
  match m with
  | [] => [(k, v)]
  | (k', v') :: rest => if k' = k then (k, v) :: rest else (k', v') :: mapSet rest k v

/-- The text `s` without its leading `literal`; `none` when `s` does not start with it. -/
def dropLiteral : Str → Str → Option Str
  | [], s => some s
  | _ :: _, [] => none
  | l :: literal, c :: s => if l = c then dropLiteral literal s else none

/-! ## Deployer agent: `deployer.go` -/

/-- The `SSHServer` section of the agent's configuration, as far as authentication
reads it. -/
structure SSHServerConfig where
  AuthorizedUser : Str
  AuthorizedKeys : List Str

/-- Loop body of the key check in `PublicKeyCallback` (deployer.go 195-205): the flag
after visiting the remaining lines, starting from the flag `UserIsAuthorized`.
`AuthPubKey[1]` panics when the line has fewer than two fields. -/
def authorizedKeysLoop (ClientKey : Str) : List Str → Bool → Option Bool
  | [], UserIsAuthorized => some UserIsAuthorized
  | AuthorizedKey :: rest, _ =>
    let AuthPubKey := SplitN AuthorizedKey ' ' 3
    match AuthPubKey[1]? with
    | none => none
    | some AuthKey =>
      -- the flag is reset for every line, then set when this line matches
      let UserIsAuthorized := false
      let UserIsAuthorized := if ClientKey = AuthKey then true else UserIsAuthorized
      authorizedKeysLoop ClientKey rest UserIsAuthorized

/-- The function `sshConfig.PublicKeyCallback` of `RunSSHServer` (deployer.go 186-215).
`user` is `conn.User()`, `key` the marshalled client key and `b64` stands for
`base64.StdEncoding.EncodeToString`. `ok ()` is the `nil, nil` return that authorizes
the connection. -/
def PublicKeyCallback (b64 : List Byte → Str) (config : SSHServerConfig)
    (user : Str) (key : List Byte) : Outcome Unit :=
  if user ≠ config.AuthorizedUser then
    .error "username is not authorized to log in"
  else
    let ClientKey := b64 key
    match authorizedKeysLoop ClientKey config.AuthorizedKeys false with
    | none => .panic
    | some UserIsAuthorized =>
      if !UserIsAuthorized then
        .error "client key is not authorized to log in"
      else
        .ok ()

/-- Go `StripPayloadHeader` (deployer.go 494-513). `int` is 64 bits wide, so the four
shifted octets combine without overflow. -/
def StripPayloadHeader (request : List Byte) : Outcome (List Byte) :=
  match request with
  | b0 :: b1 :: b2 :: b3 :: _ =>
    let payloadLength := b0.val <<< 24 ||| b1.val <<< 16 ||| b2.val <<< 8 ||| b3.val
    if payloadLength + 4 ≠ request.length then
      .error "payload length does not match header metadata"
    else
      .ok (request.drop 4)
  | _ => .error "invalid payload length (did the client send anything?)"

/-! ## Controller: request framing (`ssh_helpers.go`, `updater_client.go`) -/

/-- Go `binary.BigEndian.PutUint32` into a fresh 4-byte slice. -/
def PutUint32 (v : Nat) : List Byte :=
  [toByte (v >>> 24), toByte (v >>> 16), toByte (v >>> 8), toByte v]

/-- Conversion `uint32(n)` of a non-negative `int`. -/
def uint32 (n : Nat) : Nat := n % 2 ^ 32

/-- The `requestPayload` that `sendCustomSSHRequest` builds (ssh_helpers.go 417-427). -/
def sendCustomSSHRequest_requestPayload (payloadString : List Byte) : List Byte :=
  let requestPayload : List Byte := []
  let payload := payloadString
  let lengthBytes := PutUint32 (uint32 payload.length)
  let requestPayload := requestPayload ++ lengthBytes
  requestPayload ++ payload

/-- The `requestPayload` that `deployerClient` builds for its `update` request from
`endpointInfo.RemoteTransferBuffer` (updater_client.go 149-159). -/
def deployerClient_requestPayload (RemoteTransferBuffer : List Byte) : List Byte :=
  let requestPayload : List Byte := []
  let payload := RemoteTransferBuffer
  let lengthBytes := PutUint32 (uint32 payload.length)
  let requestPayload := requestPayload ++ lengthBytes
  requestPayload ++ payload

/-- Value of an octet string read as a big-endian unsigned number. -/
def bigEndianValue (bs : List Byte) : Nat :=
  bs.foldl (fun acc b => acc * 256 + b.val) 0

/-! ## Deployer agent: command execution (`deployer.go`) -/

/-- Characters that Go's `unicode.IsSpace` accepts; `strings.Fields` and
`strings.TrimSpace` split and trim on them. -/
def isSpace (c : Char) : Bool :=
  let n := c.toNat
  (9 ≤ n && n ≤ 13) || n = 32 || n = 0x85 || n = 0xA0 || n = 0x1680 ||
  (0x2000 ≤ n && n ≤ 0x200A) || n = 0x2028 || n = 0x2029 || n = 0x202F || n = 0x205F ||
  n = 0x3000

/-- The scan of `strings.Fields`: `word` is the field read so far. -/
def fieldsScan : Str → Str → List Str
  | [], word => if word = [] then [] else [word]
  | c :: cs, word =>
    if isSpace c = true then
      if word = [] then fieldsScan cs [] else word :: fieldsScan cs []
    else fieldsScan cs (word ++ [c])

/-- Go `strings.Fields`: the maximal runs of characters that are not white space. -/
def Fields (s : Str) : List Str := fieldsScan s []

/-- Go `strings.Contains`. -/
def Contains : Str → Str → Bool
  | [], substr => decide (substr = [])
  | c :: cs, substr => (dropLiteral substr (c :: cs)).isSome || Contains cs substr

/-- Go `strings.Contains(err.Error(), substr)` on the text of an error. -/
def errorContains (err substr : String) : Bool := Contains err.toList substr.toList

/-- Conversion `uint32(n)` of an `int`. -/
def uint32OfInt (n : Int) : Nat := (n % 2 ^ 32).toNat

/-- What `cmd.Wait()` returns: nil, an `*exec.ExitError` carrying the exit code of the
child, or another error. -/
inductive WaitResult where
  | success
  | exitError (code : Int) (msg : String)
  | otherError (msg : String)
  deriving DecidableEq, Repr

/-- What `executeCommand` meets when it runs a command, taken as parameters: the error
(if any) of reading the client's input, of `cmd.StdinPipe`, of `cmd.Start` and of
`stdin.Write`, the result of `cmd.Wait`, and the output the child wrote. -/
structure ExecEnv where
  copyError : Option String
  stdinPipeError : Option String
  startError : Option String
  writeError : Option String
  waitResult : WaitResult
  stdout : List Byte
  stderr : List Byte

/-- What `executeCommand` sends on the channel. -/
inductive ChannelEvent where
  | stdout (data : List Byte)
  | stderr (data : List Byte)
  | request (name : String) (payload : List Byte)
  deriving DecidableEq, Repr

/-- Bytes of a Go error text written to the child's captured standard error. -/
def errorBytes (msg : String) : List Byte := msg.toList.map (fun c => toByte c.toNat)

/-- Go `executeCommand` (deployer.go 360-437): the returned error (`none` for nil) and
what was sent on the channel, in order; `panic` where `commandArray[0]` is out of
range. -/
def executeCommand (env : ExecEnv) (receivedCommand : Str) :
    Outcome (Option String × List ChannelEvent) :=
  let commandArray := Fields receivedCommand
  match commandArray[0]? with
  | none => .panic
  | some _commandBinary =>
    match env.copyError with
    | some err => .ok (some err, [])
    | none =>
      match env.stdinPipeError with
      | some err => .ok (some err, [])
      | none =>
        match env.startError with
        | some err => .ok (some err, [])
        | none =>
          match env.writeError with
          | some err => .ok (some err, [])
          | none =>
            let (exitCode, stderr, err) : Int × List Byte × Option String :=
              match env.waitResult with
              | .exitError code msg => (code, env.stderr ++ errorBytes msg, some msg)
              | .otherError msg =>
                if errorContains msg "executable file not found in " = true then
                  (127, env.stderr ++ errorBytes msg, some msg)
                else
                  (126, env.stderr ++ errorBytes "Command exists but cannot execute\n", some msg)
              | .success => (0, [], none)
            let exitStatus := PutUint32 (uint32OfInt exitCode)
            .ok (err, [.stdout env.stdout, .stderr stderr, .request "exit-status" exitStatus])

/-- The text of a request payload, `string(payload)`, read byte by byte; this is the Go
text for payloads of ASCII bytes. -/
def bytesToStr (payload : List Byte) : Str := payload.map (fun b => Char.ofNat b.val)

/-- An `ssh.Request` as `handleChannel` reads it; `ReqType` is the field `Type`. -/
structure Request where
  ReqType : Str
  WantReply : Bool
  Payload : List Byte
  deriving DecidableEq, Repr

/-- What the channel handler does that a client can observe: a call of
`request.Reply`, a call of `executeCommand` that ran to its end (with what it sent on
the channel), a call of `HandleSFTP`, bytes written to the channel's standard error, a
call of `channel.Close`, and the recovery from a panic. -/
inductive HandlerEvent where
  | reply (ok : Bool)
  | executeCommand (command : Str) (sent : List ChannelEvent)
  | HandleSFTP
  | stderr (data : List Byte)
  | channelClose
  | recoveredPanic
  deriving DecidableEq, Repr

/-- How the handling of one request ends: the events so far, the error that is logged
or returned (`none` for nil), and whether a panic is unwinding. -/
structure Handled where
  events : List HandlerEvent
  err : Option String
  panicked : Bool
  deriving DecidableEq, Repr

/-- Go `HandleUpdate` (deployer.go 457-490); `UpdaterProgram` is the global of that
name. -/
def HandleUpdate (env : ExecEnv) (UpdaterProgram : Str) (request : Request) : Handled :=
  match StripPayloadHeader request.Payload with
  | .error msg => ⟨[], some ("failed to strip request payload header: " ++ msg), false⟩
  | .panic => ⟨[], none, true⟩
  | .ok updateSourceFile =>
    let replied := if request.WantReply = true then [HandlerEvent.reply true] else []
    let command := UpdaterProgram ++ (" -src ".toList ++ bytesToStr updateSourceFile)
    match executeCommand env command with
    | .panic => ⟨replied, none, true⟩
    | .error msg =>
      ⟨replied ++ [.stderr (errorBytes ("failed updater execution: " ++ msg))],
        some ("failed updater execution: " ++ msg), false⟩
    | .ok (some msg, sent) =>
      ⟨replied ++ [.executeCommand command sent,
          .stderr (errorBytes ("failed updater execution: " ++ msg))],
        some ("failed updater execution: " ++ msg), false⟩
    | .ok (none, sent) => ⟨replied ++ [.executeCommand command sent], none, false⟩

/-- Body of the request loop of `handleChannel` (deployer.go 306-351) up to the call
of `channel.Close` that ends it: the `switch` on the request type. The error of
`HandleSFTP` is only logged. -/
def handleRequest (env : ExecEnv) (UpdaterProgram : Str) (request : Request) : Handled :=
  if request.ReqType = "exec".toList then
    match StripPayloadHeader request.Payload with
    | .error msg => ⟨[], some ("exec: failed to strip request payload header: " ++ msg), false⟩
    | .panic => ⟨[], none, true⟩
    | .ok command =>
      let replied := if request.WantReply = true then [HandlerEvent.reply true] else []
      match executeCommand env (bytesToStr command) with
      | .panic => ⟨replied, none, true⟩
      | .error msg => ⟨replied, some ("failed command execution: " ++ msg), false⟩
      | .ok (some msg, sent) =>
        ⟨replied ++ [.executeCommand (bytesToStr command) sent],
          some ("failed command execution: " ++ msg), false⟩
      | .ok (none, sent) => ⟨replied ++ [.executeCommand (bytesToStr command) sent], none, false⟩
  else if request.ReqType = "subsystem".toList then
    match StripPayloadHeader request.Payload with
    | .error msg =>
      ⟨[], some ("subsystem: failed to strip request payload header: " ++ msg), false⟩
    | .panic => ⟨[], none, true⟩
    | .ok subsystem =>
      if bytesToStr subsystem ≠ "sftp".toList then
        ⟨[.reply false],
          some ("received unauthorized subsystem " ++ String.mk (bytesToStr subsystem)), false⟩
      else
        let replied := if request.WantReply = true then [HandlerEvent.reply true] else []
        ⟨replied ++ [.HandleSFTP], none, false⟩
  else if request.ReqType = "update".toList then
    HandleUpdate env UpdaterProgram request
  else
    ⟨[.reply false],
      some ("unauthorized request type " ++ String.mk request.ReqType ++ " received"), false⟩

/-- The request loop of `handleChannel` (deployer.go 305-353) with the deferred calls
that run when it ends: `channel.Close` after every request; when a panic unwinds, the
deferred `channel.Close` and then the deferred recovery. -/
def handleChannelLoop (env : ExecEnv) (UpdaterProgram : Str) : List Request → List HandlerEvent
  | [] => [.channelClose]
  | request :: rest =>
    let handled := handleRequest env UpdaterProgram request
    if handled.panicked = true then
      handled.events ++ [.channelClose, .recoveredPanic]
    else
      handled.events ++ (.channelClose :: handleChannelLoop env UpdaterProgram rest)

/-- Go `handleChannel` (deployer.go 288-354). `acceptError` is the error of
`newChannel.Accept` (`none` for nil) and `requests` what the client sends on the
channel. -/
def handleChannel (env : ExecEnv) (UpdaterProgram : Str) (acceptError : Option String)
    (requests : List Request) : List HandlerEvent :=
  match acceptError with
  | some _ => []
  | none => handleChannelLoop env UpdaterProgram requests

/-! ## Controller: SSH transport (`ssh_helpers.go`) -/

/-- Go's pair `(client, err)` as `ssh.Dial` and `connectToSSH` return it. -/
structure DialResult (Client : Type) where
  client : Option Client
  err : Option String
  deriving DecidableEq, Repr

/-- The retry loop of `connectToSSH` (ssh_helpers.go 220-241), from the loop variable
`attempts`, the current `(client, err)` and the number of calls of `ssh.Dial` made so
far; `dial n` is what the call number `n` of `ssh.Dial` returns. `fuel` bounds the
unfolding and is never exhausted when it exceeds `maxConnectionAttempts + 1`. -/
def connectToSSH_loop {Client : Type} (dial : Nat → DialResult Client)
    (maxConnectionAttempts : Nat) :
    Nat → Nat → DialResult Client → Nat → DialResult Client × Nat
  | 0, _, current, dials => (current, dials)
  | fuel + 1, attempts, current, dials =>
    if attempts ≤ maxConnectionAttempts then
      let result := dial dials
      match result.err with
      | some err =>
        if errorContains err "no route to host" = true then
          connectToSSH_loop dial maxConnectionAttempts fuel (attempts + 1) result (dials + 1)
        else
          (result, dials + 1)
      | none => (result, dials + 1)
    else
      (current, dials)

/-- Go `connectToSSH` (ssh_helpers.go 200-244): the returned `(client, err)` and the
number of calls of `ssh.Dial` it made. -/
def connectToSSH {Client : Type} (dial : Nat → DialResult Client) : DialResult Client × Nat :=
  let maxConnectionAttempts := 3
  connectToSSH_loop dial maxConnectionAttempts (maxConnectionAttempts + 2) 0 ⟨none, none⟩ 0

/-- Go `strings.TrimPrefix(s, p)` for a one-character `p`. -/
def trimLeading (s : Str) (p : Char) : Str :=
  match s with
  | c :: cs => if c = p then cs else s
  | [] => []

/-- Go `strings.TrimSuffix(s, p)` for a one-character `p`. -/
def trimTrailing (s : Str) (p : Char) : Str :=
  if s.getLast? = some p then s.dropLast else s

/-- Go `strings.TrimSpace`. -/
def TrimSpace (s : Str) : Str :=
  ((s.dropWhile isSpace).reverse.dropWhile isSpace).reverse

/-- Go `strings.ToLower`, letter by letter on `A` to `Z`. Characters outside ASCII are
left as they are; none of them lowers to a letter of `all` or `y`, the only texts the
result is compared with. -/
def ToLower (s : Str) : Str := s.map Char.toLower

/-- Go `strings.Join(parts, " ")`. -/
def JoinSpace (parts : List Str) : Str := [' '].intercalate parts

/-- What `hostKeyCallback` and `writeKnownHost` use from outside, taken as parameters:
base64 encoding and decoding (`none` for a decoding error), HMAC-SHA1 of a text under a
key, the global snapshot `knownhosts`, the salt read from the random source, the errors
of opening and of writing the known-hosts file, if any, and the line the operator
types. -/
structure KnownHostsEnv where
  b64encode : List Byte → Str
  b64decode : Str → Option (List Byte)
  hmacSHA1 : List Byte → Str → List Byte
  knownhosts : List Str
  saltRead : Option (List Byte)
  openFileError : Option String
  writeError : Option String
  userInput : Except String Str

/-- The process state that `hostKeyCallback` reads and writes: the global
`addAllUnknownHosts`, the text of the known-hosts file, and a counter of the prompts
shown, kept for the statements below. -/
structure KnownHostsState where
  addAllUnknownHosts : Bool
  knownHostsFile : Str
  prompts : Nat
  deriving DecidableEq, Repr

/-- The line `newKnownHost` that `writeKnownHost` builds (ssh_helpers.go 379-385). -/
def newKnownHostLine (env : KnownHostsEnv) (salt : List Byte)
    (cleanHost pubKeyType remotePubKey : Str) : Str :=
  let hashedHost := env.hmacSHA1 salt cleanHost
  "|1|".toList ++ env.b64encode salt ++ "|".toList ++ env.b64encode hashedHost ++ " ".toList ++
    pubKeyType ++ " ".toList ++ remotePubKey

/-- Go `writeKnownHost` (ssh_helpers.go 368-408): the returned error (`none` for nil)
and the state after the call. -/
def writeKnownHost (env : KnownHostsEnv) (cleanHost pubKeyType remotePubKey : Str)
    (st : KnownHostsState) : Option String × KnownHostsState :=
  match env.saltRead with
  | none => (some "rand: read failed", st)
  | some salt =>
    let newKnownHost := newKnownHostLine env salt cleanHost pubKeyType remotePubKey
    match env.openFileError with
    | some msg => (some ("failed to open known_hosts file: " ++ msg), st)
    | none =>
      match env.writeError with
      | some msg => (some ("failed to write new known host to known_hosts file: " ++ msg), st)
      | none => (none, { st with knownHostsFile := st.knownHostsFile ++ (newKnownHost ++ ['\n']) })

/-- The parsing of one known-hosts line (ssh_helpers.go 270-290): the salt text, the
hashed host text and the fields of the key section; `none` where the loop goes on to
the next line. The length tests guard the indexings. -/
def parseKnownHost (knownhostkey : Str) : Option (Str × Str × List Str) :=
  let knownhostkey := trimLeading knownhostkey '|'
  let knownhost := SplitN knownhostkey ' ' 2
  if knownhost.length < 2 then none
  else
    let knownHostsPart := Split (knownhost.getD 0 []) '|'
    if knownHostsPart.length < 3 ∨ knownHostsPart.getD 0 [] ≠ "1".toList then none
    else
      let salt := knownHostsPart.getD 1 []
      let hashedKnownHost := knownHostsPart.getD 2 []
      let knownkeysPart := Fields (knownhost.getD 1 [])
      if knownkeysPart.length < 2 then none
      else some (salt, hashedKnownHost, knownkeysPart)

/-- How the loop over the known-hosts lines ends: a line matched host and key, no line
matched, or a salt could not be decoded. -/
inductive KnownHostsScan where
  | matched
  | noMatch
  | saltError
  deriving DecidableEq, Repr

/-- The loop over the snapshot `knownhosts` (ssh_helpers.go 269-318). -/
def knownHostsLoop (env : KnownHostsEnv) (cleanHost remotePubKey : Str) :
    List Str → KnownHostsScan
  | [] => .noMatch
  | knownhostkey :: rest =>
    match parseKnownHost knownhostkey with
    | none => knownHostsLoop env cleanHost remotePubKey rest
    | some (salt, hashedKnownHost, knownkeysPart) =>
      match env.b64decode salt with
      | none => .saltError
      | some saltBytes =>
        let hashed := env.hmacSHA1 saltBytes cleanHost
        let hashedHost := env.b64encode hashed
        if hashedHost = hashedKnownHost then
          let localPubKey := JoinSpace (knownkeysPart.drop 1)
          if localPubKey = remotePubKey then .matched
          else knownHostsLoop env cleanHost remotePubKey rest
        else knownHostsLoop env cleanHost remotePubKey rest

/-- The host text used for known-hosts entries (ssh_helpers.go 256-260). -/
def cleanHostOf (host : Str) : Str :=
  if Contains host "]".toList = true then trimTrailing (trimLeading host '[') ']' else host

/-- Go `hostKeyCallback` (ssh_helpers.go 248-365): the returned error (`none` for nil,
which lets the handshake go on) and the state after the call. `remote` is the outcome
of `net.SplitHostPort(remote.String())`, `PubKeyMarshal` and `pubKeyType` are
`PubKey.Marshal()` and `PubKey.Type()`. -/
def hostKeyCallback (env : KnownHostsEnv) (_hostname : Str) (remote : Except String (Str × Str))
    (PubKeyMarshal : List Byte) (pubKeyType : Str) (st : KnownHostsState) :
    Option String × KnownHostsState :=
  match remote with
  | .error msg =>
    (some ("error with ssh server key check: unable to determine hostname in address: " ++ msg),
      st)
  | .ok (host, _) =>
    let cleanHost := cleanHostOf host
    let remotePubKey := env.b64encode PubKeyMarshal
    match knownHostsLoop env cleanHost remotePubKey env.knownhosts with
    | .matched => (none, st)
    | .saltError => (some "error decoding salt", st)
    | .noMatch =>
      if st.addAllUnknownHosts = true then
        writeKnownHost env cleanHost pubKeyType remotePubKey st
      else
        let st := { st with prompts := st.prompts + 1 }
        match env.userInput with
        | .error msg =>
          (some ("failed to read user choice for known_hosts entry: " ++ msg), st)
        | .ok input =>
          let input := TrimSpace input
          let trustAll := decide (ToLower input = "all".toList)
          let st := if trustAll = true then { st with addAllUnknownHosts := true } else st
          let input := if trustAll = true then "y".toList else input
          if ToLower input ≠ "y".toList then
            (some ("not continuing with connection to " ++ String.mk cleanHost), st)
          else
            writeKnownHost env cleanHost pubKeyType remotePubKey st

/-- Two hex digits for a byte; with `sampleDecode` a stand-in for base64 when the model
is evaluated. -/
def sampleEncode (bytes : List Byte) : Str :=
  (bytes.map fun b =>
    [Char.ofNat (if b.val / 16 < 10 then 48 + b.val / 16 else 87 + b.val / 16),
     Char.ofNat (if b.val % 16 < 10 then 48 + b.val % 16 else 87 + b.val % 16)]).flatten

/-- The value of a hex digit. -/
def hexValue (c : Char) : Option Nat :=
  if 48 ≤ c.toNat ∧ c.toNat ≤ 57 then some (c.toNat - 48)
  else if 97 ≤ c.toNat ∧ c.toNat ≤ 102 then some (c.toNat - 87)
  else none

/-- Inverse of `sampleEncode`; `none` for a text that is not made of hex digit pairs. -/
def sampleDecode : Str → Option (List Byte)
  | [] => some []
  | [_] => none
  | a :: b :: rest =>
    match hexValue a, hexValue b, sampleDecode rest with
    | some x, some y, some bytes => some (toByte (16 * x + y) :: bytes)
    | _, _, _ => none

/-- A known-hosts environment for evaluating the model: the hex stand-in for base64, a
keyed hash that puts the host bytes before the key, the given snapshot, a fixed
20-byte salt, a writable file and the given operator input. -/
def sampleKnownHostsEnv (knownhosts : List Str) (userInput : Except String Str) :
    KnownHostsEnv where
  b64encode := sampleEncode
  b64decode := sampleDecode
  hmacSHA1 := fun key text => text.map (fun c => toByte c.toNat) ++ key
  knownhosts := knownhosts
  saltRead := some (List.replicate 20 171)
  openFileError := none
  writeError := none
  userInput := userInput

/-- What `ssh.ParsePrivateKey` returns: a signer, a `PassphraseMissingError`, or
another error. -/
inductive PrivateKeyParse (Signer : Type) where
  | signer (key : Signer)
  | passphraseMissing
  | failed (msg : String)

/-- What `SSHIdentityToKey` calls, taken as parameters: reading the identity file, the
key parsers of the ssh library, the environment variable `SSH_AUTH_SOCK`, the agent
(connecting, `List`, reported as the number of keys, and `Signers`), the public key of
a signer, marshalling and type of a public key, and the passphrase line read from the
terminal. -/
structure IdentityEnv (Signer PubKey : Type) where
  readFile : Except String (List Byte)
  ParsePrivateKey : List Byte → PrivateKeyParse Signer
  ParseAuthorizedKey : List Byte → Except String PubKey
  ParsePrivateKeyWithPassphrase : List Byte → Str → Except String Signer
  SSH_AUTH_SOCK : Str
  agentDial : Option String
  agentList : Except String Nat
  agentSigners : Except String (List Signer)
  PublicKey : Signer → PubKey
  Marshal : PubKey → List Byte
  keyType : PubKey → Str
  readPassphrase : Except String Str

/-- Go's triple `(PrivateKey, KeyAlgo, err)` as `SSHIdentityToKey` returns it. -/
structure IdentityResult (Signer : Type) where
  PrivateKey : Option Signer
  KeyAlgo : Str
  err : Option String
  deriving DecidableEq, Repr

/-- The search for the agent signer of the identity's public key (ssh_helpers.go
118-127): the value of `PrivateKey` after the loop. -/
def findAgentSigner {Signer PubKey : Type} (env : IdentityEnv Signer PubKey)
    (PublicKey : PubKey) : List Signer → Option Signer
  | [] => none
  | sshAgentKey :: rest =>
    let sshAgentPubKey := env.PublicKey sshAgentKey
    if env.Marshal sshAgentPubKey = env.Marshal PublicKey then some sshAgentKey
    else findAgentSigner env PublicKey rest

/-- The classification of the identity file (ssh_helpers.go 45-56): the value of
`SSHKeyType` after both parse attempts. -/
def identityKeyType {Signer PubKey : Type} (env : IdentityEnv Signer PubKey)
    (SSHIdentity : List Byte) : Str :=
  let SSHKeyType : Str :=
    match env.ParsePrivateKey SSHIdentity with
    | .signer _ => "private".toList
    | .passphraseMissing => "encrypted".toList
    | .failed _ => []
  match env.ParseAuthorizedKey SSHIdentity with
  | .ok _ => "public".toList
  | .error _ => SSHKeyType

/-- Go `SSHIdentityToKey` (ssh_helpers.go 33-168). -/
def SSHIdentityToKey {Signer PubKey : Type} (env : IdentityEnv Signer PubKey)
    (UseSSHAgent : Bool) : IdentityResult Signer :=
  match env.readFile with
  | .error msg => ⟨none, [], some ("ssh identity file: " ++ msg)⟩
  | .ok SSHIdentity =>
    let SSHKeyType := identityKeyType env SSHIdentity
    if UseSSHAgent = true then
      if SSHKeyType ≠ "public".toList then
        ⟨none, [], some "identity file is not a public key, cannot use agent without public key"⟩
      else if env.SSH_AUTH_SOCK = [] then
        ⟨none, [], some "cannot use agent, '' environment variable is not set"⟩
      else
        match env.agentDial with
        | some msg => ⟨none, [], some ("ssh agent: " ++ msg)⟩
        | none =>
          match env.agentList with
          | .error msg => ⟨none, [], some ("ssh agent key list: " ++ msg)⟩
          | .ok sshAgentKeys =>
            if sshAgentKeys = 0 then
              ⟨none, [], some "no keys found in agent (Did you forget something?)"⟩
            else
              match env.ParseAuthorizedKey SSHIdentity with
              | .error msg => ⟨none, [], some ("invalid public key in identity file: " ++ msg)⟩
              | .ok PublicKey =>
                let KeyAlgo := env.keyType PublicKey
                match env.agentSigners with
                | .error msg => ⟨none, KeyAlgo, some ("ssh agent signers: " ++ msg)⟩
                | .ok signers => ⟨findAgentSigner env PublicKey signers, KeyAlgo, none⟩
    else if SSHKeyType = "private".toList then
      match env.ParsePrivateKey SSHIdentity with
      | .signer PrivateKey => ⟨some PrivateKey, env.keyType (env.PublicKey PrivateKey), none⟩
      | .passphraseMissing =>
        ⟨none, [], some "invalid private key in identity file: passphrase missing"⟩
      | .failed msg => ⟨none, [], some ("invalid private key in identity file: " ++ msg)⟩
    else if SSHKeyType = "encrypted".toList then
      match env.readPassphrase with
      | .error msg => ⟨none, [], some msg⟩
      | .ok passphrase =>
        let passphrase := passphrase.take (passphrase.length - 1)
        match env.ParsePrivateKeyWithPassphrase SSHIdentity passphrase with
        | .error msg =>
          ⟨none, [], some ("invalid encrypted private key in identity file: " ++ msg)⟩
        | .ok PrivateKey => ⟨some PrivateKey, env.keyType (env.PublicKey PrivateKey), none⟩
    else
      ⟨none, [], some "unknown identity file format"⟩

/-- An identity environment for evaluating the model: signers and public keys are
numbers, signer `n` has public key `n`, the identity file parses as the private key 1
when its first byte is 1 or 3 and as the public key 1 when its first byte is 2 or 3,
and the agent holds the given signers. -/
def sampleIdentityEnv (file : List Byte) (agentKeys : List Nat) : IdentityEnv Nat Nat where
  readFile := .ok file
  ParsePrivateKey := fun id =>
    if id.head? = some 1 ∨ id.head? = some 3 then .signer 1 else .failed "ssh: no key found"
  ParseAuthorizedKey := fun id =>
    if id.head? = some 2 ∨ id.head? = some 3 then .ok 1 else .error "ssh: no key found"
  ParsePrivateKeyWithPassphrase := fun _ _ => .error "ssh: not an encrypted key"
  SSH_AUTH_SOCK := "/run/user/1000/agent.sock".toList
  agentDial := none
  agentList := .ok agentKeys.length
  agentSigners := .ok agentKeys
  PublicKey := fun signer => signer
  Marshal := fun key => [toByte key]
  keyType := fun _ => "ssh-ed25519".toList
  readPassphrase := .error "EOF"

/-! ## Controller: vault encryption (`crypto.go`) -/

/-- The library primitives `encrypt` and `decrypt` call, taken as parameters:
`deriveKey` is `argon2.IDKey` with the constants of `deriveKey` (crypto.go 211-221),
`aeadSeal` and `aeadOpen` are `Seal` and `Open` of the ChaCha20-Poly1305 AEAD created from a
key (`aeadOpen` gives `none` when authentication fails), `b64encode` and `b64decode`
are `base64.StdEncoding.EncodeToString` and `DecodeString` (`none` on a decoding
error). -/
structure CryptoPrimitives where
  deriveKey : Str → List Byte → List Byte
  aeadSeal : List Byte → List Byte → List Byte → List Byte
  aeadOpen : List Byte → List Byte → List Byte → Option (List Byte)
  b64encode : List Byte → List Byte
  b64decode : List Byte → Option (List Byte)

/-- What the round trip assumes of the primitives: derived keys have the requested
32 bytes, opening a sealed text under the same key and nonce gives the text back, and
decoding an encoding gives the bytes back. -/
structure CryptoPrimitives.Laws (P : CryptoPrimitives) : Prop where
  deriveKey_length : ∀ password salt, (P.deriveKey password salt).length = 32
  open_seal : ∀ key nonce plain, P.aeadOpen key nonce (P.aeadSeal key nonce plain) = some plain
  decode_encode : ∀ bytes, P.b64decode (P.b64encode bytes) = some bytes

/-- Go `chacha20poly1305.KeySize`; `chacha20poly1305.New` fails on any other key length. -/
def chacha20poly1305_KeySize : Nat := 32

/-- Go `encrypt` (crypto.go 224-270). `saltRead` and `nonceRead` are the outcomes of the
two `io.ReadFull(rand.Reader, _)` calls: `none` when the read fails, otherwise the 16
(respectively 12) bytes read. -/
def encrypt (P : CryptoPrimitives) (saltRead nonceRead : Option (List Byte))
    (plainTextBytes : List Byte) (decryptPassword : Str) : Outcome (List Byte) :=
  match saltRead with
  | none => .error "rand.Reader: read failed"
  | some salt =>
    let key := P.deriveKey decryptPassword salt
    if key.length ≠ chacha20poly1305_KeySize then
      .error "chacha20poly1305: bad key length"
    else
      match nonceRead with
      | none => .error "rand.Reader: read failed"
      | some nonce =>
        let ciphertext := P.aeadSeal key nonce plainTextBytes
        let cipherTextSaltNonce := salt ++ (nonce ++ ciphertext)
        let encodedCipherText := P.b64encode cipherTextSaltNonce
        .ok encodedCipherText

/-- The three slice expressions of `decrypt` (crypto.go 287-289):
`salt := c[:16]`, `nonce := c[16:28]`, `cipherTextBytes := c[28:]`. Go checks the upper
bounds 16 and 28 of the first two against the capacity of `c` and the lower bound 28 of
the third against its length, so the three statements together panic exactly when
`len(c) < 28` (nothing observable happens between them); `none` is that panic. -/
def splitSaltNonce (c : List Byte) : Option (List Byte × List Byte × List Byte) :=
  if c.length < 28 then none
  else some (c.take 16, (c.drop 16).take 12, c.drop 28)

/-- Go `decrypt` (crypto.go 273-314); the returned string is the plaintext bytes. -/
def decrypt (P : CryptoPrimitives) (cipherTextSaltNonce : List Byte)
    (encryptPassword : Str) : Outcome (List Byte) :=
  match P.b64decode cipherTextSaltNonce with
  | none => .error "failed to decode cipher text from base64"
  | some cipherTextSaltNonce =>
    match splitSaltNonce cipherTextSaltNonce with
    | none => .panic
    | some (salt, nonce, cipherTextBytes) =>
      let key := P.deriveKey encryptPassword salt
      if key.length ≠ chacha20poly1305_KeySize then
        .error "chacha20poly1305: bad key length"
      else
        match P.aeadOpen key nonce cipherTextBytes with
        | none => .error "chacha20poly1305: message authentication failed"
        | some plainTextBytes => .ok plainTextBytes

/-- A small instance of the primitive interface, for evaluating the model: the
encoding is the identity, every key is 32 zero bytes, sealing appends a 16-byte zero
tag and opening checks and removes it. -/
def toyPrimitives : CryptoPrimitives where
  deriveKey := fun _ _ => List.replicate 32 0
  aeadSeal := fun _ _ plain => plain ++ List.replicate 16 0
  aeadOpen := fun _ _ c =>
    if c.drop (c.length - 16) = List.replicate 16 0 ∧ 16 ≤ c.length
    then some (c.take (c.length - 16)) else none
  b64encode := fun bytes => bytes
  b64decode := fun text => some text

/-! ## Controller: vault (`crypto.go`) -/

/-- Modelled from the spec: the declaration of `Credential` is not in the sources; this
is the field the sources read and write. -/
structure Credential where
  LoginUserPassword : Str
  deriving DecidableEq, Repr

/-- The process and its surroundings as the vault functions see them: the global
`config.Vault`, the file at `config.VaultFilePath` (`none` when it does not exist), the
answers the operator will still type, and two counters kept for the statements below:
how often the vault password was prompted for and how often `decrypt` was called. -/
structure VaultState where
  Vault : List (Str × Credential)
  vaultFile : Option (List Byte)
  answers : List Str
  vaultPrompts : Nat
  decryptCalls : Nat
  deriving DecidableEq, Repr

/-- What the vault functions call besides `encrypt` and `decrypt`, taken as parameters:
the cipher primitives, `json.Marshal` of the vault, `json.Unmarshal` into the current
vault map (given as second argument, since unmarshalling into a map keeps its entries),
the two reads of the random source made by `encrypt`, and the error of `os.WriteFile`,
if any. -/
structure VaultEnv where
  P : CryptoPrimitives
  jsonMarshalVault : List (Str × Credential) → Option (List Byte)
  jsonUnmarshalVault : List Byte → List (Str × Credential) → Outcome (List (Str × Credential))
  saltRead : Option (List Byte)
  nonceRead : Option (List Byte)
  writeFileError : Option String

/-- Modelled from the spec: `promptUserForSecret` and `promptUser` are not in the
sources. A prompt returns the operator's next answer, or an error when the input has
ended. -/
def promptUser (st : VaultState) : Outcome Str × VaultState :=
  match st.answers with
  | [] => (.error "EOF", st)
  | answer :: rest => (.ok answer, { st with answers := rest })

/-- Go `delete(m, k)` on a map kept as a list of pairs. -/
def mapDelete {β : Type} (m : List (Str × β)) (k : Str) : List (Str × β) :=
  m.filter (fun entry => decide (entry.1 ≠ k))

/-- Go `lockVault` (crypto.go 119-135). -/
def lockVault (env : VaultEnv) (vaultPassword : Str) (st : VaultState) :
    Outcome Unit × VaultState :=
  match env.jsonMarshalVault st.Vault with
  | none => (.error "json: unsupported value", st)
  | some unlockedVault =>
    match encrypt env.P env.saltRead env.nonceRead unlockedVault vaultPassword with
    | .error msg => (.error msg, st)
    | .panic => (.panic, st)
    | .ok lockedVault =>
      match env.writeFileError with
      | some msg => (.error msg, st)
      | none => (.ok (), { st with vaultFile := some lockedVault })

/-- The block of `unlockVault` that opens the vault (crypto.go 142-174). -/
def unlockVault_open (env : VaultEnv) (st : VaultState) : Outcome Unit × VaultState :=
  if st.Vault.length = 0 then
    match st.vaultFile with
    | none => (.error "failed to retrieve vault file", st)
    | some lockedVaultFile =>
      match promptUser { st with vaultPrompts := st.vaultPrompts + 1 } with
      | (.error msg, st) => (.error msg, st)
      | (.panic, st) => (.panic, st)
      | (.ok vaultPassword, st) =>
        let st := { st with decryptCalls := st.decryptCalls + 1 }
        match decrypt env.P lockedVaultFile vaultPassword with
        | .error msg => (.error msg, st)
        | .panic => (.panic, st)
        | .ok unlockedVault =>
          match env.jsonUnmarshalVault unlockedVault st.Vault with
          | .error msg => (.error msg, st)
          | .panic => (.panic, st)
          | .ok vault => (.ok (), { st with Vault := vault })
  else
    (.ok (), st)

/-- Go `unlockVault` (crypto.go 138-188). -/
def unlockVault (env : VaultEnv) (endpointName : Str) (st : VaultState) :
    Outcome Str × VaultState :=
  match unlockVault_open env st with
  | (.error msg, st) => (.error msg, st)
  | (.panic, st) => (.panic, st)
  | (.ok (), st) =>
    match st.Vault.lookup endpointName with
    | none => (.error "host does not have an entry in the vault", st)
    | some credential => (.ok credential.LoginUserPassword, st)

/-- The part of `modifyVault` after the vault has been read (crypto.go 64-116). -/
def modifyVault_entry (env : VaultEnv) (endpointName vaultPassword : Str) (st : VaultState) :
    Outcome Unit × VaultState :=
  match promptUser st with
  | (.error msg, st) => (.error msg, st)
  | (.panic, st) => (.panic, st)
  | (.ok hostPassword, st) =>
    if hostPassword = [] then
      let hostExistsinVault := (st.Vault.lookup endpointName).isSome
      if !hostExistsinVault then
        (.ok (), st)
      else
        match promptUser st with
        | (.error msg, st) => (.error msg, st)
        | (.panic, st) => (.panic, st)
        | (.ok userResponse, st) =>
          if userResponse = "y".toList then
            (.ok (), { st with Vault := mapDelete st.Vault endpointName })
          else
            (.ok (), st)
    else
      match promptUser st with
      | (.error msg, st) => (.error msg, st)
      | (.panic, st) => (.panic, st)
      | (.ok hostPasswordConfirm, st) =>
        if hostPassword ≠ hostPasswordConfirm then
          (.error "passwords do not match", st)
        else
          let credential : Credential := ⟨hostPassword⟩
          lockVault env vaultPassword
            { st with Vault := mapSet st.Vault endpointName credential }

/-- Go `modifyVault` (crypto.go 18-116). A missing vault file is created empty; other
failures of `os.Stat` and `os.Create`, which return before anything else is done, are
left out. -/
def modifyVault (env : VaultEnv) (endpointName : Str) (st : VaultState) :
    Outcome Unit × VaultState :=
  let st := match st.vaultFile with
    | none => { st with vaultFile := some [] }
    | some _ => st
  let vaultFileSize := (st.vaultFile.getD []).length
  match promptUser { st with vaultPrompts := st.vaultPrompts + 1 } with
  | (.error msg, st) => (.error msg, st)
  | (.panic, st) => (.panic, st)
  | (.ok vaultPassword, st) =>
    if vaultFileSize > 28 then
      match st.vaultFile with
      | none => (.error "failed to retrieve vault file", st)
      | some lockedVaultFile =>
        let st := { st with decryptCalls := st.decryptCalls + 1 }
        match decrypt env.P lockedVaultFile vaultPassword with
        | .error msg => (.error msg, st)
        | .panic => (.panic, st)
        | .ok unlockedVault =>
          match env.jsonUnmarshalVault unlockedVault st.Vault with
          | .error msg => (.error msg, st)
          | .panic => (.panic, st)
          | .ok vault => modifyVault_entry env endpointName vaultPassword { st with Vault := vault }
    else
      modifyVault_entry env endpointName vaultPassword st

/-- A stand-in for `json.Marshal` of the vault, for evaluating the model: between two
brace bytes, each entry as the name, a zero byte, the password and a one byte. -/
def sampleVaultMarshal (vault : List (Str × Credential)) : Option (List Byte) :=
  some ([123] ++ (vault.map fun entry =>
    entry.1.map (fun c => toByte c.toNat) ++ [0] ++
      entry.2.LoginUserPassword.map (fun c => toByte c.toNat) ++ [1]).flatten ++ [125])

/-- A stand-in for `json.Unmarshal` into the vault map that knows the texts of the
given vaults. -/
def sampleVaultUnmarshal (known : List (List (Str × Credential))) (text : List Byte)
    (current : List (Str × Credential)) : Outcome (List (Str × Credential)) :=
  match known.find? (fun vault => sampleVaultMarshal vault = some text) with
  | some vault => .ok (vault.foldl (fun m entry => mapSet m entry.1 entry.2) current)
  | none => .error "invalid character"

/-- An environment for evaluating the vault functions: the small cipher instance, the
stand-in codec for the given vaults, fixed salt and nonce, and a disk that accepts
writes. -/
def sampleVaultEnv (known : List (List (Str × Credential))) : VaultEnv where
  P := toyPrimitives
  jsonMarshalVault := sampleVaultMarshal
  jsonUnmarshalVault := sampleVaultUnmarshal known
  saltRead := some (List.replicate 16 7)
  nonceRead := some (List.replicate 12 9)
  writeFileError := none

/-- The vault file that `lockVault` writes in `sampleVaultEnv` for the given vault and
any password. -/
def sampleVaultFile (vault : List (Str × Credential)) : List Byte :=
  List.replicate 16 7 ++ (List.replicate 12 9 ++
    ((sampleVaultMarshal vault).getD [] ++ List.replicate 16 0))

/-! ## Controller: host and file filter (`parsing.go`) -/

/-- Modelled from the spec: the declaration of the `DeployerEndpoints` config entry is
not in the sources; these are the fields the sources read (`Endpoint`, `HostState`,
`IgnoreUniversalConfs`). -/
structure DeployerEndpoints where
  Endpoint : Str
  HostState : Str
  IgnoreUniversalConfs : Bool
  deriving DecidableEq, Repr

/-- Modelled from the spec: the declaration of `EndpointInfo` is not in the sources;
these are the fields the sources read or write. -/
structure EndpointInfo where
  DeploymentFiles : List Str
  EndpointName : Str
  Endpoint : Str
  EndpointUser : Str
  KeyAlgo : Str
  RemoteTransferBuffer : Str
  SudoPassword : Str
  deriving DecidableEq, Repr

/-- Globals and helpers that `filterHostsAndFiles` uses and whose declarations are not
in the sources, taken as parameters: the build constant `OSPathSeparator`, the globals
`UniversalDirectory` and `UniversalGroups` (group directory name to member hosts), and
the functions `mapAllRepoFiles`, `findDeniedUniversalFiles` (applied to the maps that
`mapAllRepoFiles` returned; its result is a set, kept as a list), `checkForOverride`
and `retrieveEndpointInfo` (applied to `SSHClientDefault`). -/
structure FilterEnv (Tree Maps : Type) where
  OSPathSeparator : Char
  UniversalDirectory : Str
  UniversalGroups : List (Str × List Str)
  mapAllRepoFiles : Tree → Outcome Maps
  findDeniedUniversalFiles : Str → Maps → List Str
  checkForOverride : Str → Str → Bool
  retrieveEndpointInfo : DeployerEndpoints → Outcome EndpointInfo

/-- The host part of a committed file path: `strings.SplitN(commitFile,
OSPathSeparator, 2)[0]` (parsing.go 253-254). `SplitN` with `n = 2` always yields a
first field. -/
def commitHostOf (OSPathSeparator : Char) (commitFile : Str) : Str :=
  let HostAndPath := SplitN commitFile OSPathSeparator 2
  HostAndPath.headD []

/-- The search through the member hosts of a universal group (parsing.go 268-278): the
value of `hostIsNotInUniversalGroup` after the loop, starting from the given value. -/
def hostIsNotInUniversalGroupLoop (endpointName : Str) : List Str → Bool → Bool
  | [], hostIsNotInUniversalGroup => hostIsNotInUniversalGroup
  | host :: rest, _ =>
    if endpointName = host then false
    else hostIsNotInUniversalGroupLoop endpointName rest true

/-- Body of the loop over the committed files (parsing.go 249-305) for one file: `none`
when the file is skipped (`continue`), otherwise the wire `filePath` that is recorded. -/
def filterCommitFile {Tree Maps : Type} (env : FilterEnv Tree Maps) (endpointName : Str)
    (endpointInfo : DeployerEndpoints) (deniedUniversalFiles : List Str)
    (commitFile : Str) : Option Str :=
  let commitHost := commitHostOf env.OSPathSeparator commitFile
  let filePath := ReplaceAll commitFile env.OSPathSeparator '/'
  let group := env.UniversalGroups.lookup commitHost
  let fileIsPartOfGroup := group.isSome
  if commitHost ≠ endpointName ∧ commitHost ≠ env.UniversalDirectory ∧ fileIsPartOfGroup = false then
    none
  else if fileIsPartOfGroup = true ∧
      hostIsNotInUniversalGroupLoop endpointName (group.getD []) false = true then
    none
  else if endpointInfo.IgnoreUniversalConfs = true ∧ commitHost = env.UniversalDirectory then
    none
  else if commitFile ∈ deniedUniversalFiles then
    none
  else
    some filePath

/-- The loop over the committed files for one host (parsing.go 248-305): the updated
`allDeploymentFiles` and `filteredCommitFiles`. -/
def filterCommitFilesLoop {Tree Maps : Type} (env : FilterEnv Tree Maps) (endpointName : Str)
    (endpointInfo : DeployerEndpoints) (deniedUniversalFiles : List Str) :
    List (Str × Str) → List (Str × Str) → List Str → List (Str × Str) × List Str
  | [], allDeploymentFiles, filteredCommitFiles => (allDeploymentFiles, filteredCommitFiles)
  | (commitFile, commitFileAction) :: rest, allDeploymentFiles, filteredCommitFiles =>
    match filterCommitFile env endpointName endpointInfo deniedUniversalFiles commitFile with
    | none =>
      filterCommitFilesLoop env endpointName endpointInfo deniedUniversalFiles rest
        allDeploymentFiles filteredCommitFiles
    | some filePath =>
      filterCommitFilesLoop env endpointName endpointInfo deniedUniversalFiles rest
        (mapSet allDeploymentFiles filePath commitFileAction) (filteredCommitFiles ++ [filePath])

/-- The loop over the configured hosts (parsing.go 229-326). -/
def filterHostsLoop {Tree Maps : Type} (env : FilterEnv Tree Maps) (maps : Maps)
    (hostOverride : Str) (commitFiles : List (Str × Str)) :
    List (Str × DeployerEndpoints) → List (Str × EndpointInfo) → List (Str × Str) →
      Outcome (List (Str × EndpointInfo) × List (Str × Str))
  | [], hostsAndEndpointInfo, allDeploymentFiles => .ok (hostsAndEndpointInfo, allDeploymentFiles)
  | (endpointName, endpointInfo) :: rest, hostsAndEndpointInfo, allDeploymentFiles =>
    if env.checkForOverride hostOverride endpointName = true then
      filterHostsLoop env maps hostOverride commitFiles rest hostsAndEndpointInfo allDeploymentFiles
    else if endpointInfo.HostState = "offline".toList then
      filterHostsLoop env maps hostOverride commitFiles rest hostsAndEndpointInfo allDeploymentFiles
    else
      let deniedUniversalFiles := env.findDeniedUniversalFiles endpointName maps
      let files := filterCommitFilesLoop env endpointName endpointInfo deniedUniversalFiles
        commitFiles allDeploymentFiles []
      if files.2.length = 0 then
        filterHostsLoop env maps hostOverride commitFiles rest hostsAndEndpointInfo files.1
      else
        match env.retrieveEndpointInfo endpointInfo with
        | .error msg => .error ("failed to retrieve endpoint information: " ++ msg)
        | .panic => .panic
        | .ok newInfo =>
          let newInfo := { newInfo with DeploymentFiles := files.2, EndpointName := endpointName }
          filterHostsLoop env maps hostOverride commitFiles rest
            (mapSet hostsAndEndpointInfo endpointName newInfo) files.1

/-- Go `filterHostsAndFiles` (parsing.go 212-329). The parameter `commitHosts` is not
read by the body. -/
def filterHostsAndFiles {Tree Maps : Type} (env : FilterEnv Tree Maps) (tree : Tree)
    (commitFiles : List (Str × Str)) (_commitHosts : List Str)
    (DeployerEndpoints : List (Str × DeployerEndpoints)) (hostOverride : Str) :
    Outcome (List (Str × EndpointInfo) × List (Str × Str)) :=
  match env.mapAllRepoFiles tree with
  | .error msg => .error msg
  | .panic => .panic
  | .ok maps => filterHostsLoop env maps hostOverride commitFiles DeployerEndpoints [] []

/-- A filter environment for evaluating the model on a Linux build: separator `/`,
universal directory `UniversalConfs`, the given universal groups, no host override in
effect, no denied universal file, and endpoint information that copies the address. -/
def sampleFilterEnv (groups : List (Str × List Str)) : FilterEnv Unit Unit where
  OSPathSeparator := '/'
  UniversalDirectory := "UniversalConfs".toList
  UniversalGroups := groups
  mapAllRepoFiles := fun _ => .ok ()
  findDeniedUniversalFiles := fun _ _ => []
  checkForOverride := fun _ _ => false
  retrieveEndpointInfo := fun e =>
    .ok ⟨[], [], e.Endpoint, "deployer".toList, "ssh-ed25519".toList, "/tmp/buf".toList, []⟩

/-! ## Controller: repository scanner (`parsing.go`) -/

/-- Go map read `m[k]` on a string-valued map: the empty string for a missing key. -/
def mapGet (m : List (Str × Str)) (k : Str) : Str :=
  (m.lookup k).getD []

/-- What one call of `validateCommittedFiles` returns (path, file type, skip flag) and
the `commitHosts` set after the call, which receives the map by reference. -/
structure ValidateResult where
  path : Str
  fileType : Str
  SkipFile : Bool
  commitHosts : List Str
  deriving DecidableEq, Repr

/-- Helpers of `getCommitFiles` whose declarations are not in the sources, taken as
parameters: `validateCommittedFiles`, the test `os.IsNotExist` on the error of
`os.Stat(path)`, and `ResolveLinkToTarget`. `File` is go-git's `diff.File`. -/
structure CommitEnv (File : Type) where
  validateCommittedFiles :
    List Str → List (Str × DeployerEndpoints) → Option File → Outcome ValidateResult
  statIsNotExist : Str → Bool
  ResolveLinkToTarget : Str → Outcome Str

/-- Outcome of the two git calls that open `getCommitFiles` (parsing.go 23-35): no
parent commit, a failed patch computation, or the file patches as `(from, to)` pairs (`fromFile`, `toFile` below)
with `none` for a nil side. -/
inductive CommitDiff (File : Type) where
  | noParent (msg : String)
  | patchFailed (msg : String)
  | filePatches (patches : List (Option File × Option File))

/-- The loop over the override entries (parsing.go 77-83): the value of
`fileNotRequested` after the loop, starting from the given value. -/
def fileNotRequestedLoop (fromPath toPath : Str) : List Str → Bool → Bool
  | [], fileNotRequested => fileNotRequested
  | overrideFile :: rest, fileNotRequested =>
    if fromPath = overrideFile ∨ toPath = overrideFile then
      fileNotRequestedLoop fromPath toPath rest fileNotRequested
    else
      fileNotRequestedLoop fromPath toPath rest true

/-- The action recorded for one patch (parsing.go 89-114). -/
def recordPatchAction {File : Type} (env : CommitEnv File) (fromFile toFile : Option File)
    (fromPath toPath : Str) (commitFiles : List (Str × Str)) : List (Str × Str) :=
  if fromFile.isNone then
    mapSet commitFiles toPath "create".toList
  else if toFile.isNone then
    mapSet commitFiles fromPath "delete".toList
  else if fromPath ≠ toPath then
    let commitFiles :=
      if env.statIsNotExist fromPath = true ∧ toPath = [] then
        mapSet commitFiles fromPath "delete".toList
      else commitFiles
    mapSet commitFiles toPath "create".toList
  else if fromPath = toPath then
    mapSet commitFiles toPath "create".toList
  else
    mapSet commitFiles fromPath "unsupported".toList

/-- Body of the loop over the file patches (parsing.go 50-129) for one patch, from the
maps `commitFiles` and `commitHosts` before it to the maps after it. -/
def getCommitFilesPatch {File : Type} (env : CommitEnv File)
    (DeployerEndpoints : List (Str × DeployerEndpoints)) (fileOverrides : List Str)
    (fromFile toFile : Option File) (commitFiles : List (Str × Str)) (commitHosts : List Str) :
    Outcome (List (Str × Str) × List Str) :=
  match env.validateCommittedFiles commitHosts DeployerEndpoints fromFile with
  | .error msg => .error msg
  | .panic => .panic
  | .ok validFrom =>
    match env.validateCommittedFiles validFrom.commitHosts DeployerEndpoints toFile with
    | .error msg => .error msg
    | .panic => .panic
    | .ok validTo =>
      let fromPath := validFrom.path
      let toPath := validTo.path
      let commitFileToType := validTo.fileType
      let commitHosts := validTo.commitHosts
      if validFrom.SkipFile = true ∨ validTo.SkipFile = true then
        .ok (commitFiles, commitHosts)
      else if fileOverrides.length > 0 ∧
          fileNotRequestedLoop fromPath toPath fileOverrides false = true then
        .ok (commitFiles, commitHosts)
      else
        let commitFiles := recordPatchAction env fromFile toFile fromPath toPath commitFiles
        if commitFileToType = "symlink".toList ∧ mapGet commitFiles toPath = "create".toList then
          match env.ResolveLinkToTarget toPath with
          | .error _ => .error "failed resolving symbolic link"
          | .panic => .panic
          | .ok targetPath =>
            .ok (mapSet commitFiles toPath ("symlinkcreate to target ".toList ++ targetPath),
              commitHosts)
        else
          .ok (commitFiles, commitHosts)

/-- The loop over the file patches (parsing.go 50-129). -/
def getCommitFilesLoop {File : Type} (env : CommitEnv File)
    (DeployerEndpoints : List (Str × DeployerEndpoints)) (fileOverrides : List Str) :
    List (Option File × Option File) → List (Str × Str) → List Str →
      Outcome (List (Str × Str) × List Str)
  | [], commitFiles, commitHosts => .ok (commitFiles, commitHosts)
  | (fromFile, toFile) :: rest, commitFiles, commitHosts =>
    match getCommitFilesPatch env DeployerEndpoints fileOverrides fromFile toFile commitFiles
        commitHosts with
    | .error msg => .error msg
    | .panic => .panic
    | .ok (commitFiles, commitHosts) =>
      getCommitFilesLoop env DeployerEndpoints fileOverrides rest commitFiles commitHosts

/-- Go `getCommitFiles` (parsing.go 19-132); `diff` stands for the commit and what git
reports of it. The result is `(commitFiles, commitHosts)`. -/
def getCommitFiles {File : Type} (env : CommitEnv File) (diff : CommitDiff File)
    (DeployerEndpoints : List (Str × DeployerEndpoints)) (fileOverride : Str) :
    Outcome (List (Str × Str) × List Str) :=
  match diff with
  | .noParent msg => .error ("failed retrieving parent commit: " ++ msg)
  | .patchFailed msg => .error ("failed retrieving difference between commits: " ++ msg)
  | .filePatches patches =>
    let fileOverrides : List Str :=
      if fileOverride.length > 0 then Split fileOverride ',' else []
    getCommitFilesLoop env DeployerEndpoints fileOverrides patches [] []

/-- A committed file as `validateCommittedFiles` reads it: its path and whether its
mode is that of a symbolic link. -/
structure DiffFile where
  Path : Str
  Symlink : Bool
  deriving DecidableEq, Repr

/-- Modelled from the spec: `validateCommittedFiles` is not in the sources. A nil side
needs no validation (empty path, not skipped). A present side is valid when the first
component of its path names a configured endpoint, the universal directory or a
universal group; its host is then added to `commitHosts`. Any other side is skipped. -/
def validateCommittedFiles (OSPathSeparator : Char) (UniversalDirectory : Str)
    (UniversalGroups : List (Str × List Str)) (commitHosts : List Str)
    (DeployerEndpoints : List (Str × DeployerEndpoints)) (rawFile : Option DiffFile) :
    Outcome ValidateResult :=
  match rawFile with
  | none => .ok ⟨[], [], false, commitHosts⟩
  | some file =>
    let commitHost := commitHostOf OSPathSeparator file.Path
    let fileType := if file.Symlink = true then "symlink".toList else "regular".toList
    if (DeployerEndpoints.lookup commitHost).isSome = true ∨ commitHost = UniversalDirectory ∨
        (UniversalGroups.lookup commitHost).isSome = true then
      .ok ⟨file.Path, fileType, false,
        if commitHost ∈ commitHosts then commitHosts else commitHosts ++ [commitHost]⟩
    else
      .ok ⟨file.Path, fileType, true, commitHosts⟩

/-- A scanner environment for evaluating the model on a Linux build: the validation
above with universal directory `UniversalConfs` and no group, the given test for paths
that no longer exist in the working tree, and no resolvable link. -/
def sampleCommitEnv (statIsNotExist : Str → Bool) : CommitEnv DiffFile where
  validateCommittedFiles := validateCommittedFiles '/' "UniversalConfs".toList []
  statIsNotExist := statIsNotExist
  ResolveLinkToTarget := fun _ => .error "not a link"

/-! ## Controller: file loader (`parsing.go`) -/

/-- Modelled from the spec: the declaration of `ErrorInfo` is not in the sources; these
are the fields `recordDeploymentFailure` sets. -/
structure ErrorInfo where
  EndpointName : Str
  Files : List Str
  ErrorMessage : Str
  deriving DecidableEq, Repr

/-- The choice of the failed files (exception_handling.go 120-133): all files for index
0, otherwise the file at `index - 1`; `none` is the index-out-of-range panic. -/
def failedFileArray (allFileArray : List Str) (index : Int) : Option (List Str) :=
  if index = 0 then
    some allFileArray
  else
    let fileIndex := index - 1
    if fileIndex < 0 then none
    else
      match allFileArray[fileIndex.toNat]? with
      | none => none
      | some file => some ([] ++ [file])

/-- Go `recordDeploymentFailure` (exception_handling.go 106-154), from the global
`FailTracker` before the call to its value after it. `errorMessage` is the text of the
error, `jsonMarshal` stands for `json.Marshal` (`none` when it fails, in which case
nothing is appended). The journald entry is left out. -/
def recordDeploymentFailure (jsonMarshal : ErrorInfo → Option Str) (FailTracker : Str)
    (endpointName : Str) (allFileArray : List Str) (index : Int) (errorMessage : Str) :
    Outcome Str :=
  let Message := errorMessage
  let Message := ReplaceAll Message '\n' ' '
  let Message := ReplaceAll Message '\r' ' '
  match failedFileArray allFileArray index with
  | none => .panic
  | some fileArray =>
    let info : ErrorInfo := ⟨endpointName, fileArray, Message⟩
    match jsonMarshal info with
    | none => .ok FailTracker
    | some FailedInfo => .ok (FailTracker ++ (FailedInfo ++ ['\n']))

/-- The arguments of one call of `recordDeploymentFailure`. -/
structure FailureCall where
  endpointName : Str
  allFileArray : List Str
  index : Int
  errorMessage : Str
  deriving DecidableEq, Repr

/-- Successive calls of `recordDeploymentFailure` on the global `FailTracker`. -/
def recordDeploymentFailures (jsonMarshal : ErrorInfo → Option Str) :
    List FailureCall → Str → Outcome Str
  | [], FailTracker => .ok FailTracker
  | call :: rest, FailTracker =>
    match recordDeploymentFailure jsonMarshal FailTracker call.endpointName call.allFileArray
        call.index call.errorMessage with
    | .error msg => .error msg
    | .panic => .panic
    | .ok FailTracker => recordDeploymentFailures jsonMarshal rest FailTracker

/-! ## Controller: failure tracker replay (`parsing.go`) -/

/-- The character class `[0-9a-fA-F]`. -/
def isHexDigit (c : Char) : Bool :=
  ('0'.toNat ≤ c.toNat && c.toNat ≤ '9'.toNat) ||
  ('a'.toNat ≤ c.toNat && c.toNat ≤ 'f'.toNat) ||
  ('A'.toNat ≤ c.toNat && c.toNat ≤ 'F'.toNat)

/-- A match of `failCommitRegEx`, the expression `commitid:([0-9a-fA-F]+)\n`
(parsing.go 444), at the very start of `s`: the submatch and the text after the match.
The greedy run of hex digits is the only candidate, since the character after it must be
the newline. -/
def failCommitRegEx_matchAtStart (s : Str) : Option (Str × Str) :=
  match dropLiteral "commitid:".toList s with
  | none => none
  | some rest =>
    let hex := rest.takeWhile isHexDigit
    if hex = [] then none
    else
      match rest.dropWhile isHexDigit with
      | '\n' :: tail => some (hex, tail)
      | _ => none

/-- Go `failCommitRegEx.FindStringSubmatch`: the leftmost match and its submatch, or
no element at all when nothing matches. -/
def failCommitRegEx_FindStringSubmatch : Str → List Str
  | [] => []
  | c :: cs =>
    match failCommitRegEx_matchAtStart (c :: cs) with
    | some (hex, _) => ["commitid:".toList ++ hex ++ ['\n'], hex]
    | none => failCommitRegEx_FindStringSubmatch cs

/-- Go `failCommitRegEx.ReplaceAllString(s, "")`: every match, found left to right
without overlap, is removed. `skip` counts the characters of the current match that are
still to be dropped. -/
def failCommitRegEx_removeAll : Nat → Str → Str
  | _, [] => []
  | skip + 1, _ :: cs => failCommitRegEx_removeAll skip cs
  | 0, c :: cs =>
    match failCommitRegEx_matchAtStart (c :: cs) with
    | some (hex, _) => failCommitRegEx_removeAll ("commitid:".length + hex.length) cs
    | none => c :: failCommitRegEx_removeAll 0 cs

/-- Go `getFailTrackerCommit` (parsing.go 440-475). `failTrackerPath` is
`filepath.Join(RepositoryPath, FailTrackerFile)` and `readFile` the outcome of
`os.ReadFile(failTrackerPath)`. The result is `(commitID, failTrackerPath, failures)`. -/
def getFailTrackerCommit (failTrackerPath : Str) (readFile : Outcome Str) :
    Outcome (Str × Str × List Str) :=
  match readFile with
  | .error msg => .error msg
  | .panic => .panic
  | .ok lastFailTracker =>
    let commitRegexMatches := failCommitRegEx_FindStringSubmatch lastFailTracker
    if commitRegexMatches.length < 2 then
      .error "commitid missing from failtracker file"
    else
      match commitRegexMatches[1]? with
      | none => .panic
      | some commitID =>
        let lastFailTracker := failCommitRegEx_removeAll 0 lastFailTracker
        let failures := Split lastFailTracker '\n'
        .ok (commitID, failTrackerPath, failures)

/-- Assignment `set[k] = struct{}{}` on a Go set kept as a list. -/
def setAdd (set : List Str) (k : Str) : List Str :=
  if k ∈ set then set else set ++ [k]

/-- The loop over the files of one failure (parsing.go 520-532). -/
def failedFilesLoop (checkForOverride : Str → Str → Bool) (fileOverride : Str) :
    List Str → List (Str × Str) → List (Str × Str)
  | [], commitFiles => commitFiles
  | failedFile :: rest, commitFiles =>
    if checkForOverride fileOverride failedFile = true then
      failedFilesLoop checkForOverride fileOverride rest commitFiles
    else
      failedFilesLoop checkForOverride fileOverride rest
        (mapSet commitFiles failedFile "create".toList)

/-- The loop over the failure lines (parsing.go 486-533). `jsonUnmarshal` stands for
`json.Unmarshal` into a fresh `ErrorInfo`. -/
def getFailedFilesLoop (jsonUnmarshal : Str → Outcome ErrorInfo)
    (checkForOverride : Str → Str → Bool) (fileOverride : Str) :
    List Str → List (Str × Str) → List Str → Outcome (List (Str × Str) × List Str)
  | [], commitFiles, commitHosts => .ok (commitFiles, commitHosts)
  | fail :: rest, commitFiles, commitHosts =>
    if fail = [] then
      getFailedFilesLoop jsonUnmarshal checkForOverride fileOverride rest commitFiles commitHosts
    else
      match jsonUnmarshal fail with
      | .error msg => .error ("issue unmarshaling json: " ++ msg)
      | .panic => .panic
      | .ok errorInfo =>
        if errorInfo.EndpointName = [] then
          .error "hostname is empty: failtracker line"
        else
          let commitHosts := setAdd commitHosts errorInfo.EndpointName
          if errorInfo.Files.length = 0 then
            .error "no files in failtracker line"
          else
            getFailedFilesLoop jsonUnmarshal checkForOverride fileOverride rest
              (failedFilesLoop checkForOverride fileOverride errorInfo.Files commitFiles)
              commitHosts

/-- Go `getFailedFiles` (parsing.go 478-536); the result is `(commitFiles, commitHosts)`.
`checkForOverride`, whose declaration is not in the sources, is a parameter. -/
def getFailedFiles (jsonUnmarshal : Str → Outcome ErrorInfo)
    (checkForOverride : Str → Str → Bool) (failures : List Str) (fileOverride : Str) :
    Outcome (List (Str × Str) × List Str) :=
  getFailedFilesLoop jsonUnmarshal checkForOverride fileOverride failures [] []

/-- A stand-in for `json.Marshal` on `ErrorInfo`, for evaluating the model: an object on
one line, with the strings copied as they are (no escaping). -/
def sampleMarshal (info : ErrorInfo) : Option Str :=
  some ("\x7b\"EndpointName\":\"".toList ++ info.EndpointName ++ "\",\"Files\":[\"".toList ++
    "\",\"".toList.intercalate info.Files ++ "\"],\"ErrorMessage\":\"".toList ++
    info.ErrorMessage ++ "\"\x7d".toList)

/-- A stand-in for `json.Unmarshal` that knows the lines of the given records. -/
def sampleUnmarshal (known : List ErrorInfo) (line : Str) : Outcome ErrorInfo :=
  match known.find? (fun info => sampleMarshal info = some line) with
  | some info => .ok info
  | none => .error "invalid character"

/-- The record that one call of `recordDeploymentFailure` hands to `json.Marshal`
(exception_handling.go 108-140); `none` when the call panics. -/
def FailureCall.record (call : FailureCall) : Option ErrorInfo :=
  (failedFileArray call.allFileArray call.index).map fun fileArray =>
    ⟨call.endpointName, fileArray,
      ReplaceAll (ReplaceAll call.errorMessage '\n' ' ') '\r' ' '⟩

/-- What the replay assumes of `json.Marshal` and `json.Unmarshal` for one record:
marshalling succeeds with a text `line` that holds no newline and ends in a character
that is not a hex digit (Go's output for a struct is a one-line object closed by a
brace), and unmarshalling that text gives the record back. -/
structure JsonLine (jsonMarshal : ErrorInfo → Option Str)
    (jsonUnmarshal : Str → Outcome ErrorInfo) (info : ErrorInfo) (line : Str) : Prop where
  marshal : jsonMarshal info = some line
  oneLine : '\n' ∉ line
  lastChar : ∃ body z, line = body ++ [z] ∧ isHexDigit z = false
  unmarshal : jsonUnmarshal line = .ok info

/-- The text of a list of lines, each closed by a newline. -/
def linesText : List Str → Str
  | [] => []
  | line :: rest => line ++ '\n' :: linesText rest

/-- The files one recorded call names: all files for index 0, else the single file. -/
def FailureCall.files (call : FailureCall) : List Str :=
  (failedFileArray call.allFileArray call.index).getD []

/-- The host set after replaying the records of the given calls, from `commitHosts`. -/
def replayHosts (calls : List FailureCall) (commitHosts : List Str) : List Str :=
  calls.foldl (fun hosts call => setAdd hosts call.endpointName) commitHosts

/-- The file map after replaying the records of the given calls with no file override,
from `commitFiles`. -/
def replayFiles (calls : List FailureCall) (commitFiles : List (Str × Str)) :
    List (Str × Str) :=
  calls.foldl (fun files call => failedFilesLoop (fun _ _ => false) [] call.files files)
    commitFiles

/-- A recorded failure for evaluating the model: the second of two files of `hostA`
failed with a two-line message. -/
def sampleFailure : FailureCall :=
  ⟨"hostA".toList, ["etc/first".toList, "etc/second".toList], 2, "time\nout".toList⟩

/-- The record of `sampleFailure`. -/
def sampleFailureInfo : ErrorInfo :=
  ⟨"hostA".toList, ["etc/second".toList], "time out".toList⟩

/-! ## Controller: repository seeding (`seed_repository.go`) -/

/-- Go `strconv.Itoa` on a non-negative `int`. -/
def Itoa (n : Nat) : Str := Nat.toDigits 10 n

/-- The value of a decimal digit. -/
def digitValue (c : Char) : Option Nat :=
  if 48 ≤ c.toNat ∧ c.toNat ≤ 57 then some (c.toNat - 48) else none

/-- The digits of `strconv.Atoi`, read left to right onto the value `acc`; `none` for a
character that is not a decimal digit. -/
def atoiDigits : Str → Nat → Option Nat
  | [], acc => some acc
  | c :: cs, acc =>
    match digitValue c with
    | none => none
    | some d => atoiDigits cs (acc * 10 + d)

/-- Go `strconv.Atoi` on texts whose value fits an `int`: an optional sign and at least
one decimal digit; `none` for a syntax error. -/
def Atoi (s : Str) : Option Int :=
  match s with
  | [] => none
  | '-' :: rest => if rest = [] then none else (atoiDigits rest 0).map (fun n => -(n : Int))
  | '+' :: rest => if rest = [] then none else (atoiDigits rest 0).map (fun n => (n : Int))
  | _ => (atoiDigits s 0).map (fun n => (n : Int))

/-- The value `bit` computed for one permission field (seed_repository.go 494-507). -/
def permissionFieldBit (field : Str) : Nat :=
  let bit := 0
  let bit := if Contains field "r".toList = true then bit + 4 else bit
  let bit := if Contains field "w".toList = true then bit + 2 else bit
  let bit := if Contains field "x".toList = true then bit + 1 else bit
  bit

/-- Go `permissionsSymbolicToNumeric` (seed_repository.go 490-514). The three slice
expressions `permissions[:3]`, `permissions[3:6]`, `permissions[6:]` panic when the
text has fewer than 6 bytes; the error of `strconv.Atoi` is dropped, which leaves 0.
Characters stand for bytes, as they are in the ASCII text of `ls -l`. -/
def permissionsSymbolicToNumeric (permissions : Str) : Outcome Int :=
  if permissions.length < 6 then .panic
  else
    let fields := [permissions.take 3, (permissions.drop 3).take 3, permissions.drop 6]
    let bits := fields.foldl (fun bits field => bits ++ Itoa (permissionFieldBit field)) []
    .ok ((Atoi bits).getD 0)

/-- The letter at a permission position: `letter` when the bit is set, else `-`. -/
def permissionLetter (letter : Char) (set : Bool) : Char := if set = true then letter else '-'

/-- The value of a permission triplet: 4 for read, 2 for write, 1 for execute. -/
def tripletValue (read write execute : Bool) : Nat :=
  4 * read.toNat + 2 * write.toNat + execute.toNat

/-! ## Lemmas: library functions -/

theorem orShift_eq_add (a b c d : Nat) (hb : b < 256) (hc : c < 256) (hd : d < 256) :
    a <<< 24 ||| b <<< 16 ||| c <<< 8 ||| d = a * 2 ^ 24 + b * 2 ^ 16 + c * 2 ^ 8 + d := by
  have h1 : c <<< 8 ||| d = 2 ^ 8 * c + d := by
    rw [Nat.shiftLeft_eq, Nat.mul_comm]
    exact (Nat.mul_add_lt_is_or (by omega) c).symm
  have h2 : b <<< 16 ||| (2 ^ 8 * c + d) = 2 ^ 16 * b + (2 ^ 8 * c + d) := by
    rw [Nat.shiftLeft_eq, Nat.mul_comm]
    exact (Nat.mul_add_lt_is_or (by omega) b).symm
  have h3 : a <<< 24 ||| (2 ^ 16 * b + (2 ^ 8 * c + d)) = 2 ^ 24 * a + (2 ^ 16 * b + (2 ^ 8 * c + d)) := by
    rw [Nat.shiftLeft_eq, Nat.mul_comm]
    exact (Nat.mul_add_lt_is_or (by omega) a).symm
  rw [Nat.lor_assoc, Nat.lor_assoc, h1, h2, h3]
  omega

theorem bigEndianValue_four (b0 b1 b2 b3 : Byte) :
    bigEndianValue [b0, b1, b2, b3]
      = b0.val * 2 ^ 24 + b1.val * 2 ^ 16 + b2.val * 2 ^ 8 + b3.val := by
  simp only [bigEndianValue, List.foldl]
  omega

theorem StripPayloadHeader_cons4 (b0 b1 b2 b3 : Byte) (rest : List Byte) :
    StripPayloadHeader (b0 :: b1 :: b2 :: b3 :: rest)
      = if bigEndianValue [b0, b1, b2, b3] ≠ rest.length
        then .error "payload length does not match header metadata"
        else .ok rest := by
  have hv := orShift_eq_add b0.val b1.val b2.val b3.val b1.isLt b2.isLt b3.isLt
  simp only [StripPayloadHeader, hv, bigEndianValue_four, List.length_cons, List.drop_succ_cons,
    List.drop_zero]
  by_cases h : b0.val * 2 ^ 24 + b1.val * 2 ^ 16 + b2.val * 2 ^ 8 + b3.val = rest.length
  · simp [h]
  · have h2 : ¬ (b0.val * 2 ^ 24 + b1.val * 2 ^ 16 + b2.val * 2 ^ 8 + b3.val + 4
        = rest.length + 1 + 1 + 1 + 1) := by omega
    simp [h, h2]

theorem PutUint32_value (n : Nat) (h : n < 2 ^ 32) :
    bigEndianValue (PutUint32 (uint32 n)) = n := by
  simp only [PutUint32, bigEndianValue, List.foldl, uint32, toByte, Nat.shiftRight_eq_div_pow]
  omega

/-- Flag computed by the key loop when every line has a second field: the last line
alone decides. -/
theorem authorizedKeysLoop_last (ClientKey : Str) (lines : List Str) (flag : Bool)
    (hwf : ∀ l ∈ lines, ((SplitN l ' ' 3)[1]?).isSome = true) :
    authorizedKeysLoop ClientKey lines flag
      = some (match lines.getLast? with
              | none => flag
              | some l => decide (some ClientKey = (SplitN l ' ' 3)[1]?)) := by
  induction lines generalizing flag with
  | nil => simp [authorizedKeysLoop]
  | cons l rest ih =>
    have hl := hwf l (List.mem_cons_self _ _)
    obtain ⟨k, hk⟩ := Option.isSome_iff_exists.mp hl
    have hrest : ∀ l ∈ rest, ((SplitN l ' ' 3)[1]?).isSome = true :=
      fun x hx => hwf x (List.mem_cons_of_mem _ hx)
    simp only [authorizedKeysLoop, hk]
    rw [ih _ hrest]
    cases rest with
    | nil =>
      simp [hk]
    | cons r rs =>
      rw [List.getLast?_cons_cons]
      cases hlast : (r :: rs).getLast? with
      | none => simp at hlast
      | some x => rfl

/-- What the callback computes on well-formed lines: it authorizes exactly when the
user is the authorized one and the second field of the last configured line is the
encoded client key. -/
theorem PublicKeyCallback_ok_iff_last_line (b64 : List Byte → Str) (config : SSHServerConfig)
    (user : Str) (key : List Byte)
    (hwf : ∀ l ∈ config.AuthorizedKeys, ((SplitN l ' ' 3)[1]?).isSome = true) :
    PublicKeyCallback b64 config user key = .ok () ↔
      user = config.AuthorizedUser ∧
      ∃ l, config.AuthorizedKeys.getLast? = some l ∧
        (SplitN l ' ' 3)[1]? = some (b64 key) := by
  unfold PublicKeyCallback
  by_cases hu : user = config.AuthorizedUser
  · simp only [hu, ne_eq, not_true_eq_false, if_false, true_and]
    rw [authorizedKeysLoop_last _ _ _ hwf]
    cases hlast : config.AuthorizedKeys.getLast? with
    | none => simp
    | some l =>
      simp only [ite_not, Option.some.injEq, exists_eq_left']
      constructor
      · intro h
        by_cases hk : some (b64 key) = (SplitN l ' ' 3)[1]?
        · exact hk.symm
        · simp [hk] at h
      · intro h
        simp [h]
  · simp [hu]

/-! ## Theorems: deployer agent and framing -/

/-- C1 (the code departs from the claim): with two well-formed lines configured, the
authorized user presenting the key of the first line is refused, although the key is
the second field of a configured line; only the last line is honoured. -/
theorem PublicKeyCallback_refuses_key_of_first_line :
    (SplitN "ssh-ed25519 AAAA one".toList ' ' 3)[1]? = some "AAAA".toList ∧
    PublicKeyCallback (fun _ => "AAAA".toList)
      ⟨"deployer".toList, ["ssh-ed25519 AAAA one".toList, "ssh-ed25519 BBBB two".toList]⟩
      "deployer".toList [] = .error "client key is not authorized to log in" := by
  decide

/-- C2: `StripPayloadHeader` returns an error exactly when the request has fewer than 4
bytes or the big-endian value of its first four bytes differs from the length minus 4,
and in every other case returns the bytes after the 4-byte header with no error. -/
theorem StripPayloadHeader_error_iff (request : List Byte) :
    ((StripPayloadHeader request).isError = true ↔
        (request.length < 4 ∨ bigEndianValue (request.take 4) ≠ request.length - 4)) ∧
    StripPayloadHeader request
      = if request.length < 4 then
          .error "invalid payload length (did the client send anything?)"
        else if bigEndianValue (request.take 4) ≠ request.length - 4 then
          .error "payload length does not match header metadata"
        else .ok (request.drop 4) := by
  match request with
  | [] => simp [StripPayloadHeader, Outcome.isError]
  | [_] => simp [StripPayloadHeader, Outcome.isError]
  | [_, _] => simp [StripPayloadHeader, Outcome.isError]
  | [_, _, _] => simp [StripPayloadHeader, Outcome.isError]
  | b0 :: b1 :: b2 :: b3 :: rest =>
    rw [StripPayloadHeader_cons4]
    have hlen : (b0 :: b1 :: b2 :: b3 :: rest).length - 4 = rest.length := by simp
    have htake : (b0 :: b1 :: b2 :: b3 :: rest).take 4 = [b0, b1, b2, b3] := by simp
    have hnot : ¬ (b0 :: b1 :: b2 :: b3 :: rest).length < 4 := by simp
    rw [hlen, htake, if_neg hnot]
    by_cases h : bigEndianValue [b0, b1, b2, b3] = rest.length
    · simp [h, Outcome.isError]
    · simp [h, Outcome.isError]

/-- C3: a payload shorter than 2^32 bytes, framed by the controller (in
`sendCustomSSHRequest` and, with the same bytes, in `deployerClient`), is accepted by
`StripPayloadHeader`, which returns the payload itself. -/
theorem framing_round_trip (p : List Byte) (h : p.length < 2 ^ 32) :
    StripPayloadHeader (sendCustomSSHRequest_requestPayload p) = .ok p ∧
    StripPayloadHeader (deployerClient_requestPayload p) = .ok p ∧
    deployerClient_requestPayload p = sendCustomSSHRequest_requestPayload p := by
  have hv := PutUint32_value p.length h
  have key : StripPayloadHeader (sendCustomSSHRequest_requestPayload p) = .ok p := by
    simp only [sendCustomSSHRequest_requestPayload, List.nil_append]
    simp only [PutUint32] at hv ⊢
    simp only [List.cons_append, List.nil_append]
    rw [StripPayloadHeader_cons4, hv]
    simp
  exact ⟨key, key, rfl⟩

theorem framing_round_trip_witness :
    ([5, 6, 7] : List Byte).length < 2 ^ 32 ∧
    StripPayloadHeader (sendCustomSSHRequest_requestPayload [5, 6, 7]) = .ok [5, 6, 7] :=
  ⟨by decide, (framing_round_trip [5, 6, 7] (by decide)).1⟩

/-! ## Theorems: vault encryption -/

theorem toyPrimitives_laws : toyPrimitives.Laws where
  deriveKey_length := by intro _ _; simp [toyPrimitives]
  open_seal := by
    intro _ _ plain
    simp [toyPrimitives]
  decode_encode := by intro _; rfl

theorem splitSaltNonce_append (salt nonce c : List Byte)
    (hs : salt.length = 16) (hn : nonce.length = 12) :
    splitSaltNonce (salt ++ (nonce ++ c)) = some (salt, nonce, c) := by
  have h28 : ¬ (salt ++ (nonce ++ c)).length < 28 := by
    simp only [List.length_append]; omega
  have h1 : (salt ++ (nonce ++ c)).take 16 = salt := by
    rw [← hs]; exact List.take_left' rfl
  have h2 : (salt ++ (nonce ++ c)).drop 16 = nonce ++ c := by
    rw [← hs]; exact List.drop_left' rfl
  have h3 : (nonce ++ c).take 12 = nonce := by
    rw [← hn]; exact List.take_left' rfl
  have h4 : (salt ++ (nonce ++ c)).drop 28 = c := by
    rw [← List.append_assoc]
    exact List.drop_left' (by simp only [List.length_append]; omega)
  simp only [splitSaltNonce, h28, if_false, h1, h2, h3, h4]

/-- C4: for every plaintext shorter than 2^20 bytes, every password and every 16-byte
salt and 12-byte nonce read from the random source, `encrypt` succeeds and `decrypt`
of its output under the same password returns the plaintext with no error (the
primitives obeying `CryptoPrimitives.Laws`). -/
theorem decrypt_encrypt_round_trip (P : CryptoPrimitives) (laws : P.Laws)
    (plaintext : List Byte) (password : Str) (salt nonce : List Byte)
    (_hplain : plaintext.length < 2 ^ 20)
    (hs : salt.length = 16) (hn : nonce.length = 12) :
    ∃ c, encrypt P (some salt) (some nonce) plaintext password = .ok c ∧
      decrypt P c password = .ok plaintext := by
  have hk : ∀ s, ¬ (P.deriveKey password s).length ≠ chacha20poly1305_KeySize := by
    intro s; simp [laws.deriveKey_length, chacha20poly1305_KeySize]
  refine ⟨P.b64encode (salt ++ (nonce ++ P.aeadSeal (P.deriveKey password salt) nonce plaintext)),
    ?_, ?_⟩
  · simp only [encrypt, hk, if_false]
  · simp only [decrypt, laws.decode_encode, splitSaltNonce_append _ _ _ hs hn, hk, if_false,
      laws.open_seal]

theorem decrypt_encrypt_round_trip_witness :
    ∃ c, encrypt toyPrimitives (some (List.replicate 16 7)) (some (List.replicate 12 9))
        [1, 2, 3] "vaultpass".toList = .ok c ∧
      decrypt toyPrimitives c "vaultpass".toList = .ok [1, 2, 3] :=
  decrypt_encrypt_round_trip toyPrimitives toyPrimitives_laws [1, 2, 3] "vaultpass".toList
    (List.replicate 16 7) (List.replicate 12 9) (by decide) (by decide) (by decide)

/-- C5 (the code departs from the claim): an input that is valid base64 and decodes
to fewer than 28 bytes does not make `decrypt` return an error; the slice expressions
run out of range and the call panics. -/
theorem decrypt_short_input_panics (P : CryptoPrimitives) (input decoded : List Byte)
    (password : Str) (hdec : P.b64decode input = some decoded) (hshort : decoded.length < 28) :
    decrypt P input password = .panic := by
  simp [decrypt, hdec, splitSaltNonce, hshort]

theorem decrypt_short_input_panics_witness :
    decrypt toyPrimitives [] "vaultpass".toList = .panic :=
  decrypt_short_input_panics toyPrimitives [] [] "vaultpass".toList rfl (by decide)

/-- Part of C5 that the code satisfies: an input that is not valid base64 is refused
with an error. -/
theorem decrypt_invalid_base64_error (P : CryptoPrimitives) (input : List Byte)
    (password : Str) (hdec : P.b64decode input = none) :
    (decrypt P input password).isError = true := by
  simp [decrypt, hdec, Outcome.isError]

/-- Part of C5 that the code satisfies: when the decoded input has at least 28 bytes and
the AEAD does not open it, `decrypt` returns an error. -/
theorem decrypt_open_failure_error (P : CryptoPrimitives) (input decoded : List Byte)
    (password : Str) (hdec : P.b64decode input = some decoded) (hlen : 28 ≤ decoded.length)
    (hopen : P.aeadOpen (P.deriveKey password (decoded.take 16)) ((decoded.drop 16).take 12)
      (decoded.drop 28) = none) :
    (decrypt P input password).isError = true := by
  have h28 : ¬ decoded.length < 28 := by omega
  simp only [decrypt, hdec, splitSaltNonce, h28, if_false]
  split
  · rfl
  · simp [hopen, Outcome.isError]

/-! ## Lemmas: host and file filter -/

theorem mem_mapSet {β : Type} (m : List (Str × β)) (k : Str) (v : β) (x : Str × β)
    (hx : x ∈ mapSet m k v) : x = (k, v) ∨ x ∈ m := by
  induction m with
  | nil => simpa [mapSet] using hx
  | cons p rest ih =>
    obtain ⟨k', v'⟩ := p
    by_cases hk : k' = k
    · simp only [mapSet, hk, if_true, List.mem_cons] at hx
      rcases hx with h | h
      · exact Or.inl h
      · exact Or.inr (List.mem_cons_of_mem _ h)
    · simp only [mapSet, hk, if_false, List.mem_cons] at hx
      rcases hx with h | h
      · exact Or.inr (h ▸ List.mem_cons_self _ _)
      · rcases ih h with h2 | h2
        · exact Or.inl h2
        · exact Or.inr (List.mem_cons_of_mem _ h2)

theorem ReplaceAll_same (s : Str) (c : Char) : ReplaceAll s c c = s := by
  induction s with
  | nil => rfl
  | cons a rest ih =>
    simp only [ReplaceAll, List.map_cons] at ih ⊢
    rw [ih]
    by_cases h : a = c <;> simp [h]

theorem filterCommitFilesLoop_snd {Tree Maps : Type} (env : FilterEnv Tree Maps)
    (endpointName : Str) (endpointInfo : DeployerEndpoints) (denied : List Str)
    (commitFiles all : List (Str × Str)) (filtered : List Str) :
    (filterCommitFilesLoop env endpointName endpointInfo denied commitFiles all filtered).2
      = filtered ++ commitFiles.filterMap
          (fun p => filterCommitFile env endpointName endpointInfo denied p.1) := by
  induction commitFiles generalizing all filtered with
  | nil => simp [filterCommitFilesLoop]
  | cons p rest ih =>
    obtain ⟨commitFile, action⟩ := p
    cases h : filterCommitFile env endpointName endpointInfo denied commitFile with
    | none => simp [filterCommitFilesLoop, h, ih]
    | some filePath => simp [filterCommitFilesLoop, h, ih]

/-- Every entry of the returned host map was written for a configured host that is
neither excluded by the host override nor offline, and lists the wire paths of the
committed files that the per-file filter selected for that host. -/
theorem filterHostsLoop_mem {Tree Maps : Type} (env : FilterEnv Tree Maps) (maps : Maps)
    (hostOverride : Str) (commitFiles : List (Str × Str))
    (endpoints : List (Str × DeployerEndpoints))
    (hosts hosts' : List (Str × EndpointInfo)) (all all' : List (Str × Str))
    (hres : filterHostsLoop env maps hostOverride commitFiles endpoints hosts all
      = .ok (hosts', all'))
    (name : Str) (info : EndpointInfo) (hmem : (name, info) ∈ hosts') :
    (name, info) ∈ hosts ∨
    ∃ cfg, (name, cfg) ∈ endpoints ∧ env.checkForOverride hostOverride name = false ∧
      cfg.HostState ≠ "offline".toList ∧ info.EndpointName = name ∧
      info.DeploymentFiles = commitFiles.filterMap
        (fun p => filterCommitFile env name cfg (env.findDeniedUniversalFiles name maps) p.1) := by
  induction endpoints generalizing hosts all with
  | nil =>
    simp only [filterHostsLoop, Outcome.ok.injEq, Prod.mk.injEq] at hres
    exact Or.inl (hres.1 ▸ hmem)
  | cons e rest ih =>
    obtain ⟨endpointName, endpointInfo⟩ := e
    have lift : ((name, info) ∈ hosts ∨
        ∃ cfg, (name, cfg) ∈ rest ∧ env.checkForOverride hostOverride name = false ∧
          cfg.HostState ≠ "offline".toList ∧ info.EndpointName = name ∧
          info.DeploymentFiles = commitFiles.filterMap
            (fun p => filterCommitFile env name cfg
              (env.findDeniedUniversalFiles name maps) p.1)) →
        ((name, info) ∈ hosts ∨
        ∃ cfg, (name, cfg) ∈ (endpointName, endpointInfo) :: rest ∧
          env.checkForOverride hostOverride name = false ∧
          cfg.HostState ≠ "offline".toList ∧ info.EndpointName = name ∧
          info.DeploymentFiles = commitFiles.filterMap
            (fun p => filterCommitFile env name cfg
              (env.findDeniedUniversalFiles name maps) p.1)) := by
      rintro (h | ⟨cfg, h1, h2⟩)
      · exact Or.inl h
      · exact Or.inr ⟨cfg, List.mem_cons_of_mem _ h1, h2⟩
    unfold filterHostsLoop at hres
    by_cases hskip : env.checkForOverride hostOverride endpointName = true
    · rw [if_pos hskip] at hres
      exact lift (ih hosts all hres)
    · rw [if_neg hskip] at hres
      by_cases hoff : endpointInfo.HostState = "offline".toList
      · rw [if_pos hoff] at hres
        exact lift (ih hosts all hres)
      · rw [if_neg hoff] at hres
        simp only at hres
        by_cases hlen : (filterCommitFilesLoop env endpointName endpointInfo
            (env.findDeniedUniversalFiles endpointName maps) commitFiles all []).2.length = 0
        · rw [if_pos hlen] at hres
          exact lift (ih hosts _ hres)
        · rw [if_neg hlen] at hres
          cases hret : env.retrieveEndpointInfo endpointInfo with
          | error msg => simp [hret] at hres
          | panic => simp [hret] at hres
          | ok newInfo =>
            simp only [hret] at hres
            rcases ih _ _ hres with h | h
            · rcases mem_mapSet _ _ _ _ h with h2 | h2
              · simp only [Prod.mk.injEq] at h2
                obtain ⟨hn, hi⟩ := h2
                subst hn
                refine Or.inr ⟨endpointInfo, List.mem_cons_self _ _, ?_, hoff, ?_, ?_⟩
                · simpa using hskip
                · rw [hi]
                · rw [hi]
                  simp [filterCommitFilesLoop_snd]
              · exact Or.inl h2
            · exact lift (Or.inr h)

theorem filterHostsAndFiles_mem {Tree Maps : Type} (env : FilterEnv Tree Maps) (tree : Tree)
    (commitFiles : List (Str × Str)) (commitHosts : List Str)
    (endpoints : List (Str × DeployerEndpoints)) (hostOverride : Str)
    (hosts : List (Str × EndpointInfo)) (all : List (Str × Str))
    (hres : filterHostsAndFiles env tree commitFiles commitHosts endpoints hostOverride
      = .ok (hosts, all))
    (name : Str) (info : EndpointInfo) (hmem : (name, info) ∈ hosts) :
    ∃ cfg denied, (name, cfg) ∈ endpoints ∧ env.checkForOverride hostOverride name = false ∧
      cfg.HostState ≠ "offline".toList ∧ info.EndpointName = name ∧
      info.DeploymentFiles = commitFiles.filterMap
        (fun p => filterCommitFile env name cfg denied p.1) := by
  unfold filterHostsAndFiles at hres
  cases hmaps : env.mapAllRepoFiles tree with
  | error msg => simp [hmaps] at hres
  | panic => simp [hmaps] at hres
  | ok maps =>
    simp only [hmaps] at hres
    rcases filterHostsLoop_mem env maps hostOverride commitFiles endpoints [] hosts [] all hres
      name info hmem with h | ⟨cfg, h⟩
    · simp at h
    · exact ⟨cfg, _, h⟩

/-- Keys of a Go map are unique: two entries for the same host coincide. -/
theorem nodup_keys_unique {β : Type} (m : List (Str × β)) (hkeys : (m.map Prod.fst).Nodup)
    (k : Str) (v w : β) (hv : (k, v) ∈ m) (hw : (k, w) ∈ m) : v = w := by
  induction m with
  | nil => simp at hv
  | cons p rest ih =>
    simp only [List.map_cons, List.nodup_cons, List.mem_map, not_exists, not_and] at hkeys
    simp only [List.mem_cons] at hv hw
    rcases hv with hv | hv <;> rcases hw with hw | hw
    · have heq : (k, v) = (k, w) := hv.trans hw.symm
      exact (Prod.mk.inj heq).2
    · exact absurd (by rw [← hv]) (hkeys.1 (k, w) hw)
    · exact absurd (by rw [← hw]) (hkeys.1 (k, v) hv)
    · exact ih hkeys.2 hv hw

/-- A selected file is recorded under its wire path and passed every test of the loop
body. -/
theorem filterCommitFile_some {Tree Maps : Type} (env : FilterEnv Tree Maps)
    (endpointName : Str) (endpointInfo : DeployerEndpoints) (denied : List Str)
    (commitFile filePath : Str)
    (h : filterCommitFile env endpointName endpointInfo denied commitFile = some filePath) :
    filePath = ReplaceAll commitFile env.OSPathSeparator '/' ∧
    ¬ (endpointInfo.IgnoreUniversalConfs = true ∧
        commitHostOf env.OSPathSeparator commitFile = env.UniversalDirectory) ∧
    commitFile ∉ denied := by
  unfold filterCommitFile at h
  simp only at h
  split at h
  · exact absurd h (by simp)
  · split at h
    · exact absurd h (by simp)
    · split at h
      · exact absurd h (by simp)
      · rename_i hign
        split at h
        · exact absurd h (by simp)
        · rename_i hden
          exact ⟨(Option.some.inj h).symm, hign, hden⟩

/-- For a universal group with at least one member, the search ends with
`hostIsNotInUniversalGroup` set exactly when the host is not a member. -/
theorem hostIsNotInUniversalGroupLoop_cons (endpointName host : Str) (rest : List Str)
    (flag : Bool) :
    hostIsNotInUniversalGroupLoop endpointName (host :: rest) flag
      = decide (endpointName ∉ host :: rest) := by
  induction rest generalizing host flag with
  | nil =>
    by_cases h : endpointName = host <;> simp [hostIsNotInUniversalGroupLoop, h]
  | cons r rs ih =>
    by_cases h : endpointName = host
    · simp [hostIsNotInUniversalGroupLoop, h]
    · rw [hostIsNotInUniversalGroupLoop, if_neg h, ih]
      simp [h]

/-- With an empty member list the search leaves `hostIsNotInUniversalGroup` unset. -/
theorem hostIsNotInUniversalGroupLoop_nil (endpointName : Str) :
    hostIsNotInUniversalGroupLoop endpointName [] false = false := rfl

/-- The part of C6 the code satisfies: a file under the directory of a universal group
that has at least one member is skipped for every host that is not a member. -/
theorem filterCommitFile_group_nonmember {Tree Maps : Type} (env : FilterEnv Tree Maps)
    (endpointName : Str) (endpointInfo : DeployerEndpoints) (denied : List Str)
    (commitFile : Str) (members : List Str)
    (hgroup : env.UniversalGroups.lookup (commitHostOf env.OSPathSeparator commitFile)
      = some members)
    (hne : members ≠ []) (hnot : endpointName ∉ members) :
    filterCommitFile env endpointName endpointInfo denied commitFile = none := by
  obtain ⟨host, rest, rfl⟩ := List.exists_cons_of_ne_nil hne
  unfold filterCommitFile
  simp only [hgroup, Option.isSome_some, Option.getD_some, hostIsNotInUniversalGroupLoop_cons]
  simp [hnot]

/-! ## Theorems: host and file filter -/

/-- C6 (the code departs from the claim): a universal group configured with an empty
member list has no member, yet a file under its directory is scheduled for `hostA`. -/
theorem filterHostsAndFiles_empty_group_file_scheduled :
    (sampleFilterEnv [("UniversalConfs_web".toList, [])]).UniversalGroups.lookup
        (commitHostOf '/' "UniversalConfs_web/etc/x".toList) = some [] ∧
    filterHostsAndFiles (sampleFilterEnv [("UniversalConfs_web".toList, [])]) ()
        [("UniversalConfs_web/etc/x".toList, "create".toList)] []
        [("hostA".toList, ⟨"10.0.0.1".toList, [], false⟩)] []
      = .ok ([("hostA".toList, ⟨["UniversalConfs_web/etc/x".toList], "hostA".toList,
            "10.0.0.1".toList, "deployer".toList, "ssh-ed25519".toList, "/tmp/buf".toList, []⟩)],
          [("UniversalConfs_web/etc/x".toList, "create".toList)]) := by
  decide

/-- C7: in the result of `filterHostsAndFiles`, the deployment files of a host whose
`IgnoreUniversalConfs` flag is set are wire paths of committed files whose host part is
not `UniversalDirectory`; when the path separator is `/` (wire path and committed path
coincide) no deployment file of that host has `UniversalDirectory` as its first path
component. -/
theorem filterHostsAndFiles_ignoreUniversalConfs {Tree Maps : Type}
    (env : FilterEnv Tree Maps) (tree : Tree)
    (commitFiles : List (Str × Str)) (commitHosts : List Str)
    (endpoints : List (Str × DeployerEndpoints)) (hostOverride : Str)
    (hosts : List (Str × EndpointInfo)) (all : List (Str × Str))
    (hres : filterHostsAndFiles env tree commitFiles commitHosts endpoints hostOverride
      = .ok (hosts, all))
    (hkeys : (endpoints.map Prod.fst).Nodup)
    (endpointName : Str) (cfg : DeployerEndpoints) (info : EndpointInfo)
    (hcfg : (endpointName, cfg) ∈ endpoints) (hign : cfg.IgnoreUniversalConfs = true)
    (hinfo : (endpointName, info) ∈ hosts) :
    (∀ f ∈ info.DeploymentFiles, ∃ c a, (c, a) ∈ commitFiles ∧
        f = ReplaceAll c env.OSPathSeparator '/' ∧
        commitHostOf env.OSPathSeparator c ≠ env.UniversalDirectory) ∧
    (env.OSPathSeparator = '/' →
      ∀ f ∈ info.DeploymentFiles, commitHostOf '/' f ≠ env.UniversalDirectory) := by
  obtain ⟨cfg', denied, hmem, -, -, -, hfiles⟩ :=
    filterHostsAndFiles_mem env tree commitFiles commitHosts endpoints hostOverride hosts all
      hres endpointName info hinfo
  have hcfgeq : cfg' = cfg := nodup_keys_unique endpoints hkeys endpointName cfg' cfg hmem hcfg
  subst hcfgeq
  have main : ∀ f ∈ info.DeploymentFiles, ∃ c a, (c, a) ∈ commitFiles ∧
      f = ReplaceAll c env.OSPathSeparator '/' ∧
      commitHostOf env.OSPathSeparator c ≠ env.UniversalDirectory := by
    intro f hf
    rw [hfiles, List.mem_filterMap] at hf
    obtain ⟨⟨c, a⟩, hca, hsel⟩ := hf
    obtain ⟨hpath, hnot, -⟩ := filterCommitFile_some env endpointName cfg' denied c f hsel
    exact ⟨c, a, hca, hpath, fun hu => hnot ⟨hign, hu⟩⟩
  refine ⟨main, ?_⟩
  intro hsep f hf
  obtain ⟨c, a, -, hpath, hne⟩ := main f hf
  rw [hsep] at hpath hne
  rw [ReplaceAll_same] at hpath
  rw [hpath]
  exact hne

theorem filterHostsAndFiles_ignoreUniversalConfs_witness :
    commitHostOf '/' "hostA/etc/motd".toList ≠ "UniversalConfs".toList :=
  (filterHostsAndFiles_ignoreUniversalConfs (sampleFilterEnv []) ()
    [("UniversalConfs/etc/issue".toList, "create".toList),
      ("hostA/etc/motd".toList, "create".toList)] []
    [("hostA".toList, ⟨"10.0.0.1".toList, [], true⟩)] []
    [("hostA".toList, ⟨["hostA/etc/motd".toList], "hostA".toList, "10.0.0.1".toList,
      "deployer".toList, "ssh-ed25519".toList, "/tmp/buf".toList, []⟩)]
    [("hostA/etc/motd".toList, "create".toList)]
    (by decide) (by decide) "hostA".toList ⟨"10.0.0.1".toList, [], true⟩
    ⟨["hostA/etc/motd".toList], "hostA".toList, "10.0.0.1".toList,
      "deployer".toList, "ssh-ed25519".toList, "/tmp/buf".toList, []⟩
    (by decide) rfl (by decide)).2 rfl "hostA/etc/motd".toList (by decide)

/-! ## Theorems: repository scanner -/

/-- The override loop sets `fileNotRequested` as soon as one entry equals neither path:
a patch is kept only when every entry of the override list matches it. -/
theorem fileNotRequestedLoop_eq (fromPath toPath : Str) (overrides : List Str) (flag : Bool) :
    fileNotRequestedLoop fromPath toPath overrides flag
      = (flag || overrides.any (fun o => !(decide (fromPath = o) || decide (toPath = o)))) := by
  induction overrides generalizing flag with
  | nil => simp [fileNotRequestedLoop]
  | cons o rest ih =>
    by_cases h : fromPath = o ∨ toPath = o
    · rw [fileNotRequestedLoop, if_pos h, ih]
      rcases h with h | h <;> simp [h]
    · rw [fileNotRequestedLoop, if_neg h, ih]
      have h1 : ¬ fromPath = o := fun e => h (Or.inl e)
      have h2 : ¬ toPath = o := fun e => h (Or.inr e)
      simp [h1, h2]

/-- For a patch with both sides present, different paths and a non-empty new path, the
rename branch records `create` at the new path and nothing else, whatever `os.Stat`
says of the old path. -/
theorem recordPatchAction_rename {File : Type} (env : CommitEnv File) (fromFile toFile : File)
    (fromPath toPath : Str) (commitFiles : List (Str × Str))
    (hdiff : fromPath ≠ toPath) (hto : toPath ≠ []) :
    recordPatchAction env (some fromFile) (some toFile) fromPath toPath commitFiles
      = mapSet commitFiles toPath "create".toList := by
  simp [recordPatchAction, hdiff, hto]

/-- C8 (the code departs from the claim): with the override list
`hostA/etc/a,hostA/etc/b`, a patch that edits `hostA/etc/a` matches the first entry and
is dropped all the same, because the second entry does not match it; with the
one-entry list `hostA/etc/a` the same patch is kept. -/
theorem getCommitFiles_override_drops_patch_matching_one_entry :
    Split "hostA/etc/a,hostA/etc/b".toList ',' = ["hostA/etc/a".toList, "hostA/etc/b".toList] ∧
    getCommitFiles (sampleCommitEnv (fun _ => true))
        (.filePatches
          [(some ⟨"hostA/etc/a".toList, false⟩, some ⟨"hostA/etc/a".toList, false⟩)])
        [("hostA".toList, ⟨"10.0.0.1".toList, [], false⟩)] "hostA/etc/a,hostA/etc/b".toList
      = .ok ([], ["hostA".toList]) ∧
    getCommitFiles (sampleCommitEnv (fun _ => true))
        (.filePatches
          [(some ⟨"hostA/etc/a".toList, false⟩, some ⟨"hostA/etc/a".toList, false⟩)])
        [("hostA".toList, ⟨"10.0.0.1".toList, [], false⟩)] "hostA/etc/a".toList
      = .ok ([("hostA/etc/a".toList, "create".toList)], ["hostA".toList]) := by
  decide

/-- C9 (the code departs from the claim): for the commit that adds `hostA/etc/c`,
deletes `hostA/etc/a` and renames `hostA/etc/b` to `hostA/etc/b2`, with none of the old
paths left in the working tree, `getCommitFiles` records `create` for `c`, `delete` for
`a` and `create` for `b2`, and records nothing for the old path `b`. -/
theorem getCommitFiles_rename_records_no_delete :
    getCommitFiles (sampleCommitEnv (fun _ => true))
        (.filePatches [(none, some ⟨"hostA/etc/c".toList, false⟩),
          (some ⟨"hostA/etc/a".toList, false⟩, none),
          (some ⟨"hostA/etc/b".toList, false⟩, some ⟨"hostA/etc/b2".toList, false⟩)])
        [("hostA".toList, ⟨"10.0.0.1".toList, [], false⟩)] []
      = .ok ([("hostA/etc/c".toList, "create".toList), ("hostA/etc/a".toList, "delete".toList),
          ("hostA/etc/b2".toList, "create".toList)], ["hostA".toList]) ∧
    List.lookup "hostA/etc/b".toList
        [("hostA/etc/c".toList, "create".toList), ("hostA/etc/a".toList, "delete".toList),
          ("hostA/etc/b2".toList, "create".toList)] = none := by
  decide

/-! ## Theorems: failure tracker -/

/-- C10: for a non-empty file list and an index between 0 and the length of the list,
`recordDeploymentFailure` does not panic and appends the marshalled record whose
`Files` is the whole list when the index is 0 and the single file at position
`index - 1`, which is in range, when the index is positive. -/
theorem recordDeploymentFailure_files (jsonMarshal : ErrorInfo → Option Str)
    (FailTracker endpointName : Str) (allFileArray : List Str) (index : Int)
    (errorMessage : Str)
    (_hne : allFileArray ≠ []) (h0 : 0 ≤ index) (hle : index ≤ allFileArray.length) :
    ∃ info : ErrorInfo,
      info.EndpointName = endpointName ∧
      (index = 0 → info.Files = allFileArray) ∧
      (0 < index → ∃ file, allFileArray[(index - 1).toNat]? = some file ∧
        info.Files = [file]) ∧
      recordDeploymentFailure jsonMarshal FailTracker endpointName allFileArray index
          errorMessage
        = .ok (match jsonMarshal info with
               | none => FailTracker
               | some FailedInfo => FailTracker ++ (FailedInfo ++ ['\n'])) := by
  by_cases hz : index = 0
  · refine ⟨⟨endpointName, allFileArray,
      ReplaceAll (ReplaceAll errorMessage '\n' ' ') '\r' ' '⟩, rfl, fun _ => rfl, ?_, ?_⟩
    · intro hpos; omega
    · simp only [recordDeploymentFailure, failedFileArray, hz, if_true]
      cases jsonMarshal _ <;> rfl
  · have hpos : 0 < index := by omega
    have hlt : (index - 1).toNat < allFileArray.length := by omega
    have hnn : ¬ index - 1 < 0 := by omega
    have hget : allFileArray[(index - 1).toNat]?
        = some (allFileArray.get ⟨(index - 1).toNat, hlt⟩) := by
      rw [List.getElem?_eq_getElem hlt]; rfl
    refine ⟨⟨endpointName, [allFileArray.get ⟨(index - 1).toNat, hlt⟩],
      ReplaceAll (ReplaceAll errorMessage '\n' ' ') '\r' ' '⟩, rfl, fun h => absurd h hz,
      fun _ => ⟨_, hget, rfl⟩, ?_⟩
    simp only [recordDeploymentFailure, failedFileArray, hz, if_false, hnn, hget,
      List.nil_append]
    cases jsonMarshal _ <;> rfl

theorem recordDeploymentFailure_files_witness :
    ∃ info : ErrorInfo,
      info.EndpointName = "hostA".toList ∧
      ((2 : Int) = 0 → info.Files = ["etc/first".toList, "etc/second".toList]) ∧
      ((0 : Int) < 2 → ∃ file,
        ["etc/first".toList, "etc/second".toList][((2 : Int) - 1).toNat]? = some file ∧
        info.Files = [file]) ∧
      recordDeploymentFailure (fun i => some i.EndpointName) []
          "hostA".toList ["etc/first".toList, "etc/second".toList] 2 "timeout".toList
        = .ok (match (fun i : ErrorInfo => some i.EndpointName) info with
               | none => []
               | some FailedInfo => [] ++ (FailedInfo ++ ['\n'])) :=
  recordDeploymentFailure_files (fun i => some i.EndpointName) []
    "hostA".toList ["etc/first".toList, "etc/second".toList] 2 "timeout".toList
    (by decide) (by decide) (by decide)

/-! ## Lemmas: failure tracker replay -/

theorem append_cons_unique {α : Type} (x : α) (a b c d : List α) (ha : x ∉ a) (hc : x ∉ c)
    (h : a ++ x :: b = c ++ x :: d) : a = c ∧ b = d := by
  induction a generalizing c with
  | nil =>
    cases c with
    | nil => simpa using h
    | cons y c' =>
      simp only [List.nil_append, List.cons_append, List.cons.injEq] at h
      exact absurd (h.1 ▸ List.mem_cons_self _ _) hc
  | cons y a' ih =>
    cases c with
    | nil =>
      simp only [List.nil_append, List.cons_append, List.cons.injEq] at h
      exact absurd (h.1 ▸ List.mem_cons_self _ _) ha
    | cons z c' =>
      simp only [List.cons_append, List.cons.injEq] at h
      have ha' : x ∉ a' := fun hm => ha (List.mem_cons_of_mem _ hm)
      have hc' : x ∉ c' := fun hm => hc (List.mem_cons_of_mem _ hm)
      obtain ⟨h1, h2⟩ := ih c' ha' hc' h.2
      exact ⟨by rw [h.1, h1], h2⟩

theorem dropLiteral_append (literal rest : Str) : dropLiteral literal (literal ++ rest) = some rest := by
  induction literal with
  | nil => cases rest <;> rfl
  | cons l ls ih => simp [dropLiteral, ih]

theorem dropLiteral_some (literal s rest : Str) (h : dropLiteral literal s = some rest) :
    s = literal ++ rest := by
  induction literal generalizing s with
  | nil =>
    cases s <;> simp_all [dropLiteral]
  | cons l ls ih =>
    cases s with
    | nil => simp [dropLiteral] at h
    | cons c cs =>
      by_cases hlc : l = c
      · simp only [dropLiteral, hlc, if_true] at h
        rw [hlc, ih cs h]; rfl
      · simp [dropLiteral, hlc] at h

theorem isHexDigit_newline : isHexDigit '\n' = false := by decide

/-- A match at the start of `s` spells `s` out: the literal, a non-empty run of hex
digits, a newline, and the rest. -/
theorem failCommitRegEx_matchAtStart_some (s hex tail : Str)
    (h : failCommitRegEx_matchAtStart s = some (hex, tail)) :
    s = "commitid:".toList ++ hex ++ '\n' :: tail ∧ hex ≠ [] ∧ ∀ c ∈ hex, isHexDigit c = true := by
  unfold failCommitRegEx_matchAtStart at h
  cases hd : dropLiteral "commitid:".toList s with
  | none =>
    rw [hd] at h
    exact absurd h (by simp)
  | some rest =>
    rw [hd] at h
    simp only at h
    by_cases hnil : rest.takeWhile isHexDigit = []
    · rw [if_pos hnil] at h
      exact absurd h (by simp)
    · rw [if_neg hnil] at h
      have hsplit := List.takeWhile_append_dropWhile isHexDigit rest
      cases hdw : rest.dropWhile isHexDigit with
      | nil => simp [hdw] at h
      | cons c tl =>
        rw [hdw] at h hsplit
        by_cases hc : c = '\n'
        · subst hc
          simp only [Option.some.injEq, Prod.mk.injEq] at h
          obtain ⟨h1, h2⟩ := h
          subst h1; subst h2
          refine ⟨?_, hnil, fun c hc => List.mem_takeWhile_imp hc⟩
          rw [dropLiteral_some _ _ _ hd, List.append_assoc, hsplit]
        · exfalso
          revert h
          split
          · rename_i heq
            simp only [List.cons.injEq] at heq
            exact absurd heq.1 hc
          · simp

/-- The commit line itself is matched, with the hash as submatch. -/
theorem failCommitRegEx_matchAtStart_commitLine (hash tail : Str) (hne : hash ≠ [])
    (hhex : ∀ c ∈ hash, isHexDigit c = true) :
    failCommitRegEx_matchAtStart ("commitid:".toList ++ hash ++ '\n' :: tail)
      = some (hash, tail) := by
  unfold failCommitRegEx_matchAtStart
  rw [List.append_assoc, dropLiteral_append]
  have htw : (hash ++ '\n' :: tail).takeWhile isHexDigit = hash := by
    rw [List.takeWhile_append_of_pos hhex]
    simp [List.takeWhile, isHexDigit_newline]
  have hdw : (hash ++ '\n' :: tail).dropWhile isHexDigit = '\n' :: tail := by
    rw [List.dropWhile_append_of_pos hhex]
    simp [List.dropWhile, isHexDigit_newline]
  simp only [htw, hdw, hne, if_false]

/-- Nothing is matched at a position inside a line that ends in a character other
than a hex digit. -/
theorem failCommitRegEx_matchAtStart_line (t rest : Str) (hnl : '\n' ∉ t)
    (hlast : ∀ z, t.getLast? = some z → isHexDigit z = false) :
    failCommitRegEx_matchAtStart (t ++ '\n' :: rest) = none := by
  cases hm : failCommitRegEx_matchAtStart (t ++ '\n' :: rest) with
  | none => rfl
  | some r =>
    obtain ⟨hex, tail⟩ := r
    exfalso
    obtain ⟨heq, hne, hhex⟩ := failCommitRegEx_matchAtStart_some _ _ _ hm
    have hnl2 : '\n' ∉ "commitid:".toList ++ hex := by
      intro hmem
      rcases List.mem_append.mp hmem with h1 | h1
      · revert h1; decide
      · have := hhex _ h1
        rw [isHexDigit_newline] at this
        exact absurd this (by decide)
    obtain ⟨ht, -⟩ := append_cons_unique '\n' _ _ _ _ hnl hnl2 heq
    obtain ⟨z, hz⟩ : ∃ z, hex.getLast? = some z := by
      cases hgl : hex.getLast? with
      | none => exact absurd (List.getLast?_eq_none_iff.mp hgl) hne
      | some z => exact ⟨z, rfl⟩
    have hzt : t.getLast? = some z := by
      rw [ht, List.getLast?_append_of_ne_nil _ hne, hz]
    have h1 := hlast z hzt
    have h2 := hhex z (List.mem_of_getLast?_eq_some hz)
    rw [h1] at h2
    exact absurd h2 (by decide)

theorem failCommitRegEx_removeAll_skip (xs ys : Str) :
    failCommitRegEx_removeAll xs.length (xs ++ ys) = failCommitRegEx_removeAll 0 ys := by
  induction xs with
  | nil => rfl
  | cons x xs ih =>
    simp only [List.length_cons, List.cons_append, failCommitRegEx_removeAll]
    exact ih

theorem failCommitRegEx_removeAll_zero_cons (c : Char) (cs : Str) :
    failCommitRegEx_removeAll 0 (c :: cs)
      = match failCommitRegEx_matchAtStart (c :: cs) with
        | some (hex, _) => failCommitRegEx_removeAll ("commitid:".length + hex.length) cs
        | none => c :: failCommitRegEx_removeAll 0 cs := by
  rw [failCommitRegEx_removeAll]

/-- A line that ends in a character other than a hex digit is left as it is. -/
theorem failCommitRegEx_removeAll_line (t rest : Str) (hnl : '\n' ∉ t)
    (hlast : ∀ z, t.getLast? = some z → isHexDigit z = false) :
    failCommitRegEx_removeAll 0 (t ++ '\n' :: rest)
      = t ++ '\n' :: failCommitRegEx_removeAll 0 rest := by
  induction t with
  | nil =>
    have hm := failCommitRegEx_matchAtStart_line [] rest (by simp) (by simp)
    simp only [List.nil_append] at hm ⊢
    rw [failCommitRegEx_removeAll_zero_cons, hm]
  | cons c t ih =>
    have hm := failCommitRegEx_matchAtStart_line (c :: t) rest hnl hlast
    simp only [List.cons_append] at hm ⊢
    rw [failCommitRegEx_removeAll_zero_cons, hm]
    have hnl' : '\n' ∉ t := fun h => hnl (List.mem_cons_of_mem _ h)
    have hlast' : ∀ z, t.getLast? = some z → isHexDigit z = false := by
      intro z hz
      cases t with
      | nil => simp at hz
      | cons d t' => exact hlast z (by rw [List.getLast?_cons_cons]; exact hz)
    simp only
    rw [ih hnl' hlast']

theorem failCommitRegEx_removeAll_linesText (lines : List Str)
    (h : ∀ l ∈ lines, '\n' ∉ l ∧ ∃ body z, l = body ++ [z] ∧ isHexDigit z = false) :
    failCommitRegEx_removeAll 0 (linesText lines) = linesText lines := by
  induction lines with
  | nil => rfl
  | cons l rest ih =>
    obtain ⟨hnl, body, z, hl, hz⟩ := h l (List.mem_cons_self _ _)
    have hlast : ∀ y, l.getLast? = some y → isHexDigit y = false := by
      intro y hy
      rw [hl, List.getLast?_concat] at hy
      rw [← Option.some.inj hy]; exact hz
    simp only [linesText]
    rw [failCommitRegEx_removeAll_line l _ hnl hlast,
      ih (fun x hx => h x (List.mem_cons_of_mem _ hx))]

theorem commitidLiteral_cons :
    "commitid:".toList = 'c' :: "ommitid:".toList := by decide

theorem failCommitRegEx_removeAll_commitLine (hash buffer : Str) (hne : hash ≠ [])
    (hhex : ∀ c ∈ hash, isHexDigit c = true) :
    failCommitRegEx_removeAll 0 ("commitid:".toList ++ hash ++ '\n' :: buffer)
      = failCommitRegEx_removeAll 0 buffer := by
  have hm := failCommitRegEx_matchAtStart_commitLine hash buffer hne hhex
  rw [commitidLiteral_cons] at hm ⊢
  simp only [List.cons_append] at hm ⊢
  rw [failCommitRegEx_removeAll_zero_cons, hm]
  simp only
  have hlen : "commitid:".length + hash.length = ("ommitid:".toList ++ hash ++ ['\n']).length := by
    simp only [List.length_append, List.length_singleton]
    have h1 : "commitid:".length = 9 := by decide
    have h2 : "ommitid:".toList.length = 8 := by decide
    omega
  have hcs : "ommitid:".toList ++ hash ++ '\n' :: buffer
      = ("ommitid:".toList ++ hash ++ ['\n']) ++ buffer := by simp
  rw [hlen, hcs, failCommitRegEx_removeAll_skip]

theorem failCommitRegEx_FindStringSubmatch_commitLine (hash buffer : Str) (hne : hash ≠ [])
    (hhex : ∀ c ∈ hash, isHexDigit c = true) :
    failCommitRegEx_FindStringSubmatch ("commitid:".toList ++ hash ++ '\n' :: buffer)
      = ["commitid:".toList ++ hash ++ ['\n'], hash] := by
  have hm := failCommitRegEx_matchAtStart_commitLine hash buffer hne hhex
  rw [commitidLiteral_cons] at hm ⊢
  simp only [List.cons_append] at hm ⊢
  rw [failCommitRegEx_FindStringSubmatch, hm]
  rfl

theorem cutAt_append_sep (sep : Char) (l rest : Str) (h : sep ∉ l) :
    cutAt sep (l ++ sep :: rest) = some (l, rest) := by
  induction l with
  | nil => simp [cutAt]
  | cons c l ih =>
    have hc : c ≠ sep := fun e => h (e ▸ List.mem_cons_self _ _)
    have hl : sep ∉ l := fun hm => h (List.mem_cons_of_mem _ hm)
    simp [cutAt, hc, ih hl]

theorem SplitN_linesText (lines : List Str) (h : ∀ l ∈ lines, '\n' ∉ l) (n : Nat)
    (hn : (linesText lines).length + 1 ≤ n) :
    SplitN (linesText lines) '\n' n = lines ++ [[]] := by
  induction lines generalizing n with
  | nil =>
    match n, hn with
    | 1, _ => rfl
    | m + 2, _ => simp [linesText, SplitN, cutAt]
  | cons l rest ih =>
    simp only [linesText, List.length_append, List.length_cons] at hn
    match n, hn with
    | m + 2, hn =>
      simp only [linesText, SplitN, cutAt_append_sep '\n' l _ (h l (List.mem_cons_self _ _))]
      rw [ih (fun x hx => h x (List.mem_cons_of_mem _ hx)) (m + 1) (by omega)]
      rfl

/-- Reading back a tracker text made of the commit line and one-line records gives the
hash and the record lines (followed by the empty text after the last newline). -/
theorem getFailTrackerCommit_tracker (failTrackerPath hash : Str) (lines : List Str)
    (hne : hash ≠ []) (hhex : ∀ c ∈ hash, isHexDigit c = true)
    (hlines : ∀ l ∈ lines, '\n' ∉ l ∧ ∃ body z, l = body ++ [z] ∧ isHexDigit z = false) :
    getFailTrackerCommit failTrackerPath
        (.ok ("commitid:".toList ++ hash ++ '\n' :: linesText lines))
      = .ok (hash, failTrackerPath, lines ++ [[]]) := by
  unfold getFailTrackerCommit
  simp only [failCommitRegEx_FindStringSubmatch_commitLine hash _ hne hhex,
    failCommitRegEx_removeAll_commitLine hash _ hne hhex,
    failCommitRegEx_removeAll_linesText lines hlines]
  have hs : Split (linesText lines) '\n' = lines ++ [[]] :=
    SplitN_linesText lines (fun l hl => (hlines l hl).1) _ (Nat.le_refl _)
  rw [hs]
  rfl

theorem failedFileArray_valid (allFileArray : List Str) (index : Int)
    (hne : allFileArray ≠ []) (h0 : 0 ≤ index) (hle : index ≤ allFileArray.length) :
    ∃ files, failedFileArray allFileArray index = some files ∧ files ≠ [] := by
  by_cases hz : index = 0
  · exact ⟨allFileArray, by simp [failedFileArray, hz], hne⟩
  · have hlt : (index - 1).toNat < allFileArray.length := by omega
    have hnn : ¬ index - 1 < 0 := by omega
    have hget : allFileArray[(index - 1).toNat]?
        = some (allFileArray.get ⟨(index - 1).toNat, hlt⟩) := by
      rw [List.getElem?_eq_getElem hlt]; rfl
    refine ⟨[allFileArray.get ⟨(index - 1).toNat, hlt⟩], ?_, by simp⟩
    simp only [failedFileArray, hz, if_false, hnn, hget, List.nil_append]

theorem failedFilesLoop_noOverride (checkForOverride : Str → Str → Bool)
    (hover : ∀ file, checkForOverride [] file = false) (files : List Str)
    (commitFiles : List (Str × Str)) :
    failedFilesLoop checkForOverride [] files commitFiles
      = failedFilesLoop (fun _ _ => false) [] files commitFiles := by
  induction files generalizing commitFiles with
  | nil => rfl
  | cons f rest ih => simp [failedFilesLoop, hover, ih]

/-- The calls write one line per record, and the replay loop consumes exactly these
lines, adding each record's host and files. -/
theorem replay_recorded_calls (jsonMarshal : ErrorInfo → Option Str)
    (jsonUnmarshal : Str → Outcome ErrorInfo) (checkForOverride : Str → Str → Bool)
    (hover : ∀ file, checkForOverride [] file = false) (calls : List FailureCall)
    (hcalls : ∀ call ∈ calls, call.endpointName ≠ [] ∧ call.allFileArray ≠ [] ∧
      0 ≤ call.index ∧ call.index ≤ call.allFileArray.length)
    (hjson : ∀ call ∈ calls, ∀ info, call.record = some info →
      ∃ line, JsonLine jsonMarshal jsonUnmarshal info line) :
    ∃ lines : List Str,
      (∀ l ∈ lines, '\n' ∉ l ∧ ∃ body z, l = body ++ [z] ∧ isHexDigit z = false) ∧
      (∀ tracker, recordDeploymentFailures jsonMarshal calls tracker
        = .ok (tracker ++ linesText lines)) ∧
      (∀ tail commitFiles commitHosts,
        getFailedFilesLoop jsonUnmarshal checkForOverride [] (lines ++ tail) commitFiles
            commitHosts
          = getFailedFilesLoop jsonUnmarshal checkForOverride [] tail
              (replayFiles calls commitFiles) (replayHosts calls commitHosts)) := by
  induction calls with
  | nil =>
    exact ⟨[], by simp, fun t => by simp [recordDeploymentFailures, linesText],
      fun _ _ _ => rfl⟩
  | cons c rest ih =>
    obtain ⟨hname, hfiles, h0, hle⟩ := hcalls c (List.mem_cons_self _ _)
    obtain ⟨files, hfa, hfne⟩ := failedFileArray_valid c.allFileArray c.index hfiles h0 hle
    have hrec : c.record = some ⟨c.endpointName, files,
        ReplaceAll (ReplaceAll c.errorMessage '\n' ' ') '\r' ' '⟩ := by
      simp [FailureCall.record, hfa]
    obtain ⟨line, hline⟩ := hjson c (List.mem_cons_self _ _) _ hrec
    obtain ⟨lines, hl1, hl2, hl3⟩ := ih
      (fun x hx => hcalls x (List.mem_cons_of_mem _ hx))
      (fun x hx => hjson x (List.mem_cons_of_mem _ hx))
    refine ⟨line :: lines, ?_, ?_, ?_⟩
    · intro l hl
      rcases List.mem_cons.mp hl with h | h
      · rw [h]; exact ⟨hline.oneLine, hline.lastChar⟩
      · exact hl1 l h
    · intro tracker
      simp only [recordDeploymentFailures, recordDeploymentFailure, hfa, hline.marshal]
      rw [hl2]
      simp [linesText]
    · intro tail commitFiles commitHosts
      have hlne : line ≠ [] := by
        obtain ⟨body, z, hb, -⟩ := hline.lastChar
        rw [hb]; simp
      have hlen : ¬ files.length = 0 := by
        intro h; exact hfne (List.length_eq_zero.mp h)
      have hcf : c.files = files := by simp [FailureCall.files, hfa]
      simp only [List.cons_append, getFailedFilesLoop, hlne, if_false, hline.unmarshal, hname,
        hlen, List.append_eq]
      rw [hl3, failedFilesLoop_noOverride checkForOverride hover]
      simp [replayFiles, replayHosts, hcf]

theorem mem_setAdd (set : List Str) (k h : Str) : h ∈ setAdd set k ↔ h = k ∨ h ∈ set := by
  unfold setAdd
  by_cases hk : k ∈ set
  · simp only [hk, if_true]
    constructor
    · exact Or.inr
    · rintro (h1 | h1)
      · rw [h1]; exact hk
      · exact h1
  · simp only [hk, if_false, List.mem_append, List.mem_singleton]
    constructor
    · rintro (h1 | h1)
      · exact Or.inr h1
      · exact Or.inl h1
    · rintro (h1 | h1)
      · exact Or.inr h1
      · exact Or.inl h1

theorem mem_replayHosts (calls : List FailureCall) (commitHosts : List Str) (h : Str) :
    h ∈ replayHosts calls commitHosts ↔
      h ∈ commitHosts ∨ ∃ call ∈ calls, call.endpointName = h := by
  induction calls generalizing commitHosts with
  | nil => simp [replayHosts]
  | cons c rest ih =>
    have hstep : replayHosts (c :: rest) commitHosts
        = replayHosts rest (setAdd commitHosts c.endpointName) := rfl
    rw [hstep, ih, mem_setAdd]
    constructor
    · rintro ((h1 | h1) | ⟨x, hx, hxe⟩)
      · exact Or.inr ⟨c, List.mem_cons_self _ _, h1.symm⟩
      · exact Or.inl h1
      · exact Or.inr ⟨x, List.mem_cons_of_mem _ hx, hxe⟩
    · rintro (h1 | ⟨x, hx, hxe⟩)
      · exact Or.inl (Or.inr h1)
      · rcases List.mem_cons.mp hx with h2 | h2
        · exact Or.inl (Or.inl (by rw [← hxe, h2]))
        · exact Or.inr ⟨x, h2, hxe⟩

theorem mapSet_self_mem {β : Type} (m : List (Str × β)) (k : Str) (v : β) :
    (k, v) ∈ mapSet m k v := by
  induction m with
  | nil => simp [mapSet]
  | cons p rest ih =>
    obtain ⟨k', v'⟩ := p
    by_cases hk : k' = k
    · simp [mapSet, hk]
    · simp only [mapSet, hk, if_false]
      exact List.mem_cons_of_mem _ ih

theorem mem_mapSet_of_mem {β : Type} (m : List (Str × β)) (k : Str) (v : β) (x : Str × β)
    (hx : x ∈ m) : x ∈ mapSet m k v ∨ x.1 = k := by
  induction m with
  | nil => simp at hx
  | cons p rest ih =>
    obtain ⟨k', v'⟩ := p
    by_cases hk : k' = k
    · simp only [mapSet, hk, if_true]
      rcases List.mem_cons.mp hx with h | h
      · exact Or.inr (by rw [h]; exact hk)
      · exact Or.inl (List.mem_cons_of_mem _ h)
    · simp only [mapSet, hk, if_false]
      rcases List.mem_cons.mp hx with h | h
      · exact Or.inl (h ▸ List.mem_cons_self _ _)
      · rcases ih h with h2 | h2
        · exact Or.inl (List.mem_cons_of_mem _ h2)
        · exact Or.inr h2

/-- On a map whose values are all `create`, assigning `create` to a key adds that
entry and keeps every other one. -/
theorem mem_mapSet_create (m : List (Str × Str)) (k : Str) (x : Str × Str)
    (hall : ∀ y ∈ m, y.2 = "create".toList) :
    x ∈ mapSet m k "create".toList ↔ x = (k, "create".toList) ∨ x ∈ m := by
  constructor
  · exact mem_mapSet m k _ x
  · rintro (h | h)
    · rw [h]; exact mapSet_self_mem m k _
    · rcases mem_mapSet_of_mem m k "create".toList x h with h2 | h2
      · exact h2
      · have hx : x = (k, "create".toList) := by
          rw [← h2, ← hall x h]
        rw [hx]; exact mapSet_self_mem m k _

theorem mem_failedFilesLoop (files : List Str) (commitFiles : List (Str × Str))
    (hall : ∀ y ∈ commitFiles, y.2 = "create".toList) :
    (∀ y ∈ failedFilesLoop (fun _ _ => false) [] files commitFiles, y.2 = "create".toList) ∧
    ∀ x, x ∈ failedFilesLoop (fun _ _ => false) [] files commitFiles ↔
      x ∈ commitFiles ∨ (x.2 = "create".toList ∧ x.1 ∈ files) := by
  induction files generalizing commitFiles with
  | nil => exact ⟨hall, fun x => by simp [failedFilesLoop]⟩
  | cons f rest ih =>
    have hall' : ∀ y ∈ mapSet commitFiles f "create".toList, y.2 = "create".toList := by
      intro y hy
      rcases (mem_mapSet_create commitFiles f y hall).mp hy with h | h
      · rw [h]
      · exact hall y h
    have hstep : failedFilesLoop (fun _ _ => false) [] (f :: rest) commitFiles
        = failedFilesLoop (fun _ _ => false) [] rest (mapSet commitFiles f "create".toList) := by
      simp [failedFilesLoop]
    rw [hstep]
    obtain ⟨h1, h2⟩ := ih _ hall'
    refine ⟨h1, fun x => ?_⟩
    rw [h2, mem_mapSet_create commitFiles f x hall]
    constructor
    · rintro ((h | h) | ⟨ha, hb⟩)
      · exact Or.inr ⟨by rw [h], by rw [h]; exact List.mem_cons_self _ _⟩
      · exact Or.inl h
      · exact Or.inr ⟨ha, List.mem_cons_of_mem _ hb⟩
    · rintro (h | ⟨ha, hb⟩)
      · exact Or.inl (Or.inr h)
      · rcases List.mem_cons.mp hb with h3 | h3
        · exact Or.inl (Or.inl (Prod.ext h3 ha))
        · exact Or.inr ⟨ha, h3⟩

theorem mem_replayFiles (calls : List FailureCall) (commitFiles : List (Str × Str))
    (hall : ∀ y ∈ commitFiles, y.2 = "create".toList) (x : Str × Str) :
    x ∈ replayFiles calls commitFiles ↔
      x ∈ commitFiles ∨ (x.2 = "create".toList ∧ ∃ call ∈ calls, x.1 ∈ call.files) := by
  induction calls generalizing commitFiles with
  | nil => simp [replayFiles]
  | cons c rest ih =>
    have hstep : replayFiles (c :: rest) commitFiles
        = replayFiles rest (failedFilesLoop (fun _ _ => false) [] c.files commitFiles) := rfl
    obtain ⟨h1, h2⟩ := mem_failedFilesLoop c.files commitFiles hall
    rw [hstep, ih _ h1, h2]
    constructor
    · rintro ((h | ⟨ha, hb⟩) | ⟨ha, y, hy, hb⟩)
      · exact Or.inl h
      · exact Or.inr ⟨ha, c, List.mem_cons_self _ _, hb⟩
      · exact Or.inr ⟨ha, y, List.mem_cons_of_mem _ hy, hb⟩
    · rintro (h | ⟨ha, y, hy, hb⟩)
      · exact Or.inl (Or.inl h)
      · rcases List.mem_cons.mp hy with h3 | h3
        · exact Or.inl (Or.inr ⟨ha, h3 ▸ hb⟩)
        · exact Or.inr ⟨ha, y, h3, hb⟩

/-! ## Theorems: failure tracker replay -/

/-- C11: for a non-empty hex commit hash and any sequence of recorded failures
(non-empty endpoint names and file lists, indices in range, any error messages), the
text made of `commitid:<hash>` and the accumulated buffer is read back by
`getFailTrackerCommit` as that hash and the record lines, and `getFailedFiles` with no
file override returns the recorded endpoint names as `commitHosts` and exactly the
recorded files, each mapped to `create`, as `commitFiles` (`json.Marshal` and
`json.Unmarshal` obeying `JsonLine` on the records). -/
theorem failTracker_round_trip (jsonMarshal : ErrorInfo → Option Str)
    (jsonUnmarshal : Str → Outcome ErrorInfo) (checkForOverride : Str → Str → Bool)
    (failTrackerPath hash : Str) (calls : List FailureCall)
    (hne : hash ≠ []) (hhex : ∀ c ∈ hash, isHexDigit c = true)
    (hcalls : ∀ call ∈ calls, call.endpointName ≠ [] ∧ call.allFileArray ≠ [] ∧
      0 ≤ call.index ∧ call.index ≤ call.allFileArray.length)
    (hjson : ∀ call ∈ calls, ∀ info, call.record = some info →
      ∃ line, JsonLine jsonMarshal jsonUnmarshal info line)
    (hover : ∀ file, checkForOverride [] file = false) :
    ∃ buffer lines commitFiles commitHosts,
      recordDeploymentFailures jsonMarshal calls [] = .ok buffer ∧
      buffer = linesText lines ∧
      getFailTrackerCommit failTrackerPath
          (.ok ("commitid:".toList ++ hash ++ '\n' :: buffer))
        = .ok (hash, failTrackerPath, lines ++ [[]]) ∧
      getFailedFiles jsonUnmarshal checkForOverride (lines ++ [[]]) []
        = .ok (commitFiles, commitHosts) ∧
      (∀ host, host ∈ commitHosts ↔ ∃ call ∈ calls, call.endpointName = host) ∧
      (∀ file action, (file, action) ∈ commitFiles ↔
        action = "create".toList ∧ ∃ call ∈ calls, file ∈ call.files) := by
  obtain ⟨lines, hl1, hl2, hl3⟩ :=
    replay_recorded_calls jsonMarshal jsonUnmarshal checkForOverride hover calls hcalls hjson
  refine ⟨linesText lines, lines, replayFiles calls [], replayHosts calls [], ?_, rfl, ?_, ?_,
    ?_, ?_⟩
  · simpa using hl2 []
  · exact getFailTrackerCommit_tracker failTrackerPath hash lines hne hhex hl1
  · unfold getFailedFiles
    rw [hl3]
    simp [getFailedFilesLoop]
  · intro host
    rw [mem_replayHosts]
    simp
  · intro file action
    rw [mem_replayFiles calls [] (by simp)]
    simp

theorem failTracker_round_trip_witness :
    ∃ buffer lines commitFiles commitHosts,
      recordDeploymentFailures sampleMarshal [sampleFailure] [] = .ok buffer ∧
      buffer = linesText lines ∧
      getFailTrackerCommit ".failtracker.json".toList
          (.ok ("commitid:".toList ++ "0aF9".toList ++ '\n' :: buffer))
        = .ok ("0aF9".toList, ".failtracker.json".toList, lines ++ [[]]) ∧
      getFailedFiles (sampleUnmarshal [sampleFailureInfo]) (fun _ _ => false) (lines ++ [[]]) []
        = .ok (commitFiles, commitHosts) ∧
      (∀ host, host ∈ commitHosts ↔ ∃ call ∈ [sampleFailure], call.endpointName = host) ∧
      (∀ file action, (file, action) ∈ commitFiles ↔
        action = "create".toList ∧ ∃ call ∈ [sampleFailure], file ∈ call.files) :=
  failTracker_round_trip sampleMarshal (sampleUnmarshal [sampleFailureInfo]) (fun _ _ => false)
    ".failtracker.json".toList "0aF9".toList [sampleFailure] (by decide) (by decide)
    (by
      intro call hc
      rw [List.mem_singleton.mp hc]
      decide)
    (by
      intro call hc info hinfo
      rw [List.mem_singleton.mp hc] at hinfo
      have hrec : sampleFailure.record = some sampleFailureInfo := by decide
      rw [hrec] at hinfo
      rw [← Option.some.inj hinfo]
      refine ⟨(sampleMarshal sampleFailureInfo).getD [], ⟨by decide, by decide, ?_, by decide⟩⟩
      exact ⟨((sampleMarshal sampleFailureInfo).getD []).dropLast, Char.ofNat 125, by decide,
        by decide⟩)
    (fun _ => rfl)

/-! ## Theorems: vault -/

theorem lockVault_decryptCalls (env : VaultEnv) (vaultPassword : Str) (st : VaultState) :
    (lockVault env vaultPassword st).2.decryptCalls = st.decryptCalls := by
  unfold lockVault
  split
  · rfl
  · split
    · rfl
    · rfl
    · split <;> rfl

theorem promptUser_decryptCalls (st : VaultState) :
    (promptUser st).2.decryptCalls = st.decryptCalls := by
  unfold promptUser
  split <;> rfl

theorem promptUser_vaultFile (st : VaultState) :
    (promptUser st).2.vaultFile = st.vaultFile := by
  unfold promptUser
  split <;> rfl

theorem modifyVault_entry_decryptCalls (env : VaultEnv) (endpointName vaultPassword : Str)
    (st : VaultState) :
    (modifyVault_entry env endpointName vaultPassword st).2.decryptCalls = st.decryptCalls := by
  unfold modifyVault_entry
  have h1 := promptUser_decryptCalls st
  cases hp : promptUser st with
  | mk r st1 =>
    rw [hp] at h1
    simp only at h1
    cases r with
    | error msg => exact h1
    | panic => exact h1
    | ok hostPassword =>
      simp only
      have h2 := promptUser_decryptCalls st1
      cases hp2 : promptUser st1 with
      | mk r2 st2 =>
        rw [hp2] at h2
        simp only at h2
        split
        · split
          · exact h1
          · cases r2 with
            | error msg => exact h2.trans h1
            | panic => exact h2.trans h1
            | ok userResponse =>
              simp only
              split
              · exact h2.trans h1
              · exact h2.trans h1
        · cases r2 with
          | error msg => exact h2.trans h1
          | panic => exact h2.trans h1
          | ok hostPasswordConfirm =>
            simp only
            split
            · exact h2.trans h1
            · rw [lockVault_decryptCalls]
              exact h2.trans h1

/-- The part of C14 the code satisfies: `modifyVault` does not call `decrypt` when the
vault file has 28 bytes or fewer or does not exist. -/
theorem modifyVault_small_file_no_decrypt (env : VaultEnv) (endpointName : Str)
    (st : VaultState) (hsmall : (st.vaultFile.getD []).length ≤ 28) :
    (modifyVault env endpointName st).2.decryptCalls = st.decryptCalls := by
  unfold modifyVault
  have hsize : ¬ ((match st.vaultFile with
      | none => { st with vaultFile := some [] }
      | some _ => st).vaultFile.getD []).length > 28 := by
    cases hf : st.vaultFile with
    | none => simp
    | some f =>
      rw [hf] at hsmall
      simp only [Option.getD_some] at hsmall
      simp only [hf, Option.getD_some]
      omega
  simp only [hsize, if_false]
  generalize hst0 : (match st.vaultFile with
      | none => { st with vaultFile := some [] }
      | some _ => st) = st0
  have h0 : st0.decryptCalls = st.decryptCalls := by
    rw [← hst0]; cases st.vaultFile <;> rfl
  have h1 := promptUser_decryptCalls { st0 with vaultPrompts := st0.vaultPrompts + 1 }
  cases hp : promptUser { st0 with vaultPrompts := st0.vaultPrompts + 1 } with
  | mk r st1 =>
    rw [hp] at h1
    simp only at h1
    cases r with
    | error msg => exact h1.trans h0
    | panic => exact h1.trans h0
    | ok vaultPassword =>
      simp only
      rw [modifyVault_entry_decryptCalls]
      exact h1.trans h0

/-- C12 (the code departs from the claim): when the vault file decrypts to an empty
map, the in-memory vault stays empty after the first `unlockVault`, so the second call
prompts for the vault password and decrypts the file again. -/
theorem unlockVault_empty_vault_prompts_again (env : VaultEnv) (endpoint1 endpoint2 : Str)
    (st : VaultState) (file : List Byte) (password1 password2 : Str) (rest : List Str)
    (plain1 plain2 : List Byte)
    (hvault : st.Vault = []) (hfile : st.vaultFile = some file)
    (hanswers : st.answers = password1 :: password2 :: rest)
    (hd1 : decrypt env.P file password1 = .ok plain1)
    (hu1 : env.jsonUnmarshalVault plain1 [] = .ok [])
    (hd2 : decrypt env.P file password2 = .ok plain2)
    (hu2 : env.jsonUnmarshalVault plain2 [] = .ok []) :
    (unlockVault env endpoint2 (unlockVault env endpoint1 st).2).2.vaultPrompts
      = st.vaultPrompts + 2 ∧
    (unlockVault env endpoint2 (unlockVault env endpoint1 st).2).2.decryptCalls
      = st.decryptCalls + 2 := by
  have h1 : unlockVault env endpoint1 st
      = (.error "host does not have an entry in the vault",
          { st with answers := password2 :: rest, vaultPrompts := st.vaultPrompts + 1,
                    decryptCalls := st.decryptCalls + 1, Vault := [] }) := by
    simp [unlockVault, unlockVault_open, promptUser, hvault, hfile, hanswers, hd1, hu1]
  rw [h1]
  simp [unlockVault, unlockVault_open, promptUser, hfile, hd2, hu2]

theorem unlockVault_empty_vault_prompts_again_witness :
    (unlockVault (sampleVaultEnv [[]]) "hostB".toList
        (unlockVault (sampleVaultEnv [[]]) "hostA".toList
          ⟨[], some (sampleVaultFile []), ["pw".toList, "pw".toList], 0, 0⟩).2).2.vaultPrompts
      = 0 + 2 ∧
    (unlockVault (sampleVaultEnv [[]]) "hostB".toList
        (unlockVault (sampleVaultEnv [[]]) "hostA".toList
          ⟨[], some (sampleVaultFile []), ["pw".toList, "pw".toList], 0, 0⟩).2).2.decryptCalls
      = 0 + 2 :=
  unlockVault_empty_vault_prompts_again (sampleVaultEnv [[]]) "hostA".toList "hostB".toList
    ⟨[], some (sampleVaultFile []), ["pw".toList, "pw".toList], 0, 0⟩ (sampleVaultFile [])
    "pw".toList "pw".toList [] [123, 125] [123, 125] rfl rfl rfl (by decide) (by decide)
    (by decide) (by decide)

/-- With an empty host password `modifyVault_entry` never writes the vault file,
whatever the operator answers afterwards. -/
theorem modifyVault_entry_empty_password_keeps_file (env : VaultEnv)
    (endpointName vaultPassword : Str) (st : VaultState) (rest : List Str)
    (hanswers : st.answers = [] :: rest) :
    (modifyVault_entry env endpointName vaultPassword st).2.vaultFile = st.vaultFile := by
  unfold modifyVault_entry
  simp only [promptUser, hanswers, if_true]
  split
  · rfl
  · cases rest with
    | nil => rfl
    | cons answer rest =>
      simp only
      split <;> rfl

/-- C13 (the code departs from the claim): the vault file holds entries for `hostA`
and `hostB`; the operator gives the vault password, an empty host password for `hostA`
and the confirmation `y`. `modifyVault` removes `hostA` from the vault in memory and
returns; the file is not rewritten and still decrypts to a vault with `hostA`. -/
theorem modifyVault_delete_not_written :
    modifyVault
        (sampleVaultEnv [[("hostA".toList, ⟨"s3".toList⟩), ("hostB".toList, ⟨"t4".toList⟩)]])
        "hostA".toList
        ⟨[], some (sampleVaultFile
            [("hostA".toList, ⟨"s3".toList⟩), ("hostB".toList, ⟨"t4".toList⟩)]),
          ["vaultpw".toList, [], "y".toList], 0, 0⟩
      = (.ok (),
          ⟨[("hostB".toList, ⟨"t4".toList⟩)],
            some (sampleVaultFile
              [("hostA".toList, ⟨"s3".toList⟩), ("hostB".toList, ⟨"t4".toList⟩)]),
            [], 1, 1⟩) ∧
    (match decrypt toyPrimitives
        (sampleVaultFile [("hostA".toList, ⟨"s3".toList⟩), ("hostB".toList, ⟨"t4".toList⟩)])
        "vaultpw".toList with
      | .ok text =>
        sampleVaultUnmarshal
          [[("hostA".toList, ⟨"s3".toList⟩), ("hostB".toList, ⟨"t4".toList⟩)]] text []
      | _ => .panic)
      = .ok [("hostA".toList, ⟨"s3".toList⟩), ("hostB".toList, ⟨"t4".toList⟩)] := by
  decide

/-- C14 (the code departs from the claim): `unlockVault` has no size test; with the
vault not yet in memory it calls `decrypt` on the contents of a vault file of 28 bytes
or fewer. -/
theorem unlockVault_small_file_decrypts (env : VaultEnv) (endpointName : Str)
    (st : VaultState) (file : List Byte) (password : Str) (rest : List Str)
    (hvault : st.Vault = []) (hfile : st.vaultFile = some file)
    (_hsmall : file.length ≤ 28) (hanswers : st.answers = password :: rest) :
    (unlockVault env endpointName st).2.decryptCalls = st.decryptCalls + 1 := by
  unfold unlockVault unlockVault_open
  simp only [hvault, List.length_nil, if_true, hfile, promptUser, hanswers]
  cases decrypt env.P file password with
  | error msg => rfl
  | panic => rfl
  | ok text =>
    simp only
    cases env.jsonUnmarshalVault text [] with
    | error msg => rfl
    | panic => rfl
    | ok vault =>
      simp only
      split <;> rfl

theorem unlockVault_small_file_decrypts_witness :
    (unlockVault (sampleVaultEnv []) "hostA".toList
      ⟨[], some [], ["pw".toList], 0, 0⟩).2.decryptCalls = 0 + 1 :=
  unlockVault_small_file_decrypts (sampleVaultEnv []) "hostA".toList
    ⟨[], some [], ["pw".toList], 0, 0⟩ [] "pw".toList [] rfl rfl (by decide) rfl

/-! ## Theorems: SSH transport -/

/-- An error other than `no route to host` ends `connectToSSH` at once. -/
theorem connectToSSH_other_error_returns {Client : Type} (dial : Nat → DialResult Client)
    (msg : String) (herr : (dial 0).err = some msg)
    (hother : errorContains msg "no route to host" = false) :
    connectToSSH dial = (dial 0, 1) := by
  simp [connectToSSH, connectToSSH_loop, herr, hother]

/-- A successful dial ends `connectToSSH` at once. -/
theorem connectToSSH_success_returns {Client : Type} (dial : Nat → DialResult Client)
    (herr : (dial 0).err = none) :
    connectToSSH dial = (dial 0, 1) := by
  simp [connectToSSH, connectToSSH_loop, herr]

/-- Whatever the dial outcomes, `connectToSSH` dials at least once and at most four
times. -/
theorem connectToSSH_dials_le_four {Client : Type} (dial : Nat → DialResult Client) :
    1 ≤ (connectToSSH dial).2 ∧ (connectToSSH dial).2 ≤ 4 := by
  simp only [connectToSSH, connectToSSH_loop]
  repeat' split
  all_goals omega

/-- C15 (the code departs from the claim): the loop runs while `attempts <= 3`
starting from 0, so when every dial fails with `no route to host` the function dials
four times, not three. -/
theorem connectToSSH_dials_four_times {Client : Type} (dial : Nat → DialResult Client)
    (hroute : ∀ n, n ≤ 3 → ∃ msg, (dial n).err = some msg ∧
      errorContains msg "no route to host" = true) :
    (connectToSSH dial).2 = 4 := by
  obtain ⟨m0, h0, c0⟩ := hroute 0 (by omega)
  obtain ⟨m1, h1, c1⟩ := hroute 1 (by omega)
  obtain ⟨m2, h2, c2⟩ := hroute 2 (by omega)
  obtain ⟨m3, h3, c3⟩ := hroute 3 (by omega)
  simp [connectToSSH, connectToSSH_loop, h0, c0, h1, c1, h2, c2, h3, c3]

theorem connectToSSH_dials_four_times_witness :
    (@connectToSSH Unit
      (fun _ => ⟨none, some "dial tcp 10.0.0.1:22: connect: no route to host"⟩)).2 = 4 :=
  connectToSSH_dials_four_times
    (fun _ => ⟨none, some "dial tcp 10.0.0.1:22: connect: no route to host"⟩)
    (fun _ _ => ⟨_, rfl, by decide⟩)

/-- C18 (the code departs from the claim): the second parse overwrites the first, so
an identity file that parses both as a private key and as a public key is classified
as public, and without the agent `SSHIdentityToKey` returns the error `unknown identity
file format` and no signer. -/
theorem SSHIdentityToKey_both_formats_rejected {Signer PubKey : Type}
    (env : IdentityEnv Signer PubKey) (identity : List Byte) (signer : Signer) (pub : PubKey)
    (hread : env.readFile = .ok identity)
    (_hprivate : env.ParsePrivateKey identity = .signer signer)
    (hpublic : env.ParseAuthorizedKey identity = .ok pub) :
    SSHIdentityToKey env false = ⟨none, [], some "unknown identity file format"⟩ := by
  have htype : identityKeyType env identity = "public".toList := by
    simp [identityKeyType, hpublic]
  have h1 : "public".toList ≠ "private".toList := by decide
  have h2 : "public".toList ≠ "encrypted".toList := by decide
  simp only [SSHIdentityToKey, hread, htype, Bool.false_eq_true, if_false, h1, h2]

theorem SSHIdentityToKey_both_formats_rejected_witness :
    SSHIdentityToKey (sampleIdentityEnv [3] []) false
      = ⟨none, [], some "unknown identity file format"⟩ :=
  SSHIdentityToKey_both_formats_rejected (sampleIdentityEnv [3] []) [3] 1 1 rfl rfl rfl

theorem findAgentSigner_none {Signer PubKey : Type} (env : IdentityEnv Signer PubKey)
    (pub : PubKey) (signers : List Signer)
    (h : ∀ s ∈ signers, env.Marshal (env.PublicKey s) ≠ env.Marshal pub) :
    findAgentSigner env pub signers = none := by
  induction signers with
  | nil => rfl
  | cons s rest ih =>
    have hs := h s (List.mem_cons_self _ _)
    simp only [findAgentSigner, hs, if_false]
    exact ih (fun x hx => h x (List.mem_cons_of_mem _ hx))

/-- C19 (the code departs from the claim): with the agent in use, a public-key identity
file and an agent that holds keys none of which is the identity's, the search leaves
`PrivateKey` nil and `SSHIdentityToKey` returns a nil error together with a nil
signer. -/
theorem SSHIdentityToKey_agent_key_missing_no_error {Signer PubKey : Type}
    (env : IdentityEnv Signer PubKey) (identity : List Byte) (pub : PubKey) (keys : Nat)
    (signers : List Signer)
    (hread : env.readFile = .ok identity)
    (hpublic : env.ParseAuthorizedKey identity = .ok pub)
    (hsock : env.SSH_AUTH_SOCK ≠ []) (hdial : env.agentDial = none)
    (hlist : env.agentList = .ok keys) (hkeys : keys ≠ 0)
    (hsigners : env.agentSigners = .ok signers)
    (hmissing : ∀ s ∈ signers, env.Marshal (env.PublicKey s) ≠ env.Marshal pub) :
    SSHIdentityToKey env true = ⟨none, env.keyType pub, none⟩ := by
  have htype : identityKeyType env identity = "public".toList := by
    simp [identityKeyType, hpublic]
  simp only [SSHIdentityToKey, hread, htype, if_true, ne_eq, not_true_eq_false, if_false, hsock,
    hdial, hlist, hkeys, hpublic, hsigners, findAgentSigner_none env pub signers hmissing]

theorem SSHIdentityToKey_agent_key_missing_no_error_witness :
    SSHIdentityToKey (sampleIdentityEnv [2] [5, 7]) true
      = ⟨none, "ssh-ed25519".toList, none⟩ :=
  SSHIdentityToKey_agent_key_missing_no_error (sampleIdentityEnv [2] [5, 7]) [2] 1 2 [5, 7]
    rfl rfl (by decide) rfl rfl (by decide) rfl (by decide)

/-! ## Theorems: command execution -/

/-- The part of C20 the code satisfies: once the child has been started and its input
written, the last thing sent is an `exit-status` request whose payload is the
big-endian code: 0 on success, the child's code for an exit error, 127 for another
error that says the executable was not found, and 126 for any other error. -/
theorem executeCommand_exit_status (env : ExecEnv) (receivedCommand binary : Str)
    (hfields : (Fields receivedCommand)[0]? = some binary)
    (hcopy : env.copyError = none) (hpipe : env.stdinPipeError = none)
    (hstart : env.startError = none) (hwrite : env.writeError = none) :
    ∃ err out err2,
      executeCommand env receivedCommand
        = .ok (err, [.stdout out, .stderr err2, .request "exit-status"
            (PutUint32 (uint32OfInt
              (match env.waitResult with
               | .success => 0
               | .exitError code _ => code
               | .otherError msg =>
                 if errorContains msg "executable file not found in " = true
                 then 127 else 126)))]) := by
  simp only [executeCommand, hfields, hcopy, hpipe, hstart, hwrite]
  cases env.waitResult with
  | success => exact ⟨_, _, _, rfl⟩
  | exitError code msg => exact ⟨_, _, _, rfl⟩
  | otherError msg =>
    by_cases hc : errorContains msg "executable file not found in " = true
    · simp only [hc, if_true]; exact ⟨_, _, _, rfl⟩
    · simp only [hc, if_false]; exact ⟨_, _, _, rfl⟩

/-- C20 (the code departs from the claim): when `cmd.Start` fails, as it does for an
executable that is not found, `executeCommand` returns the error before anything is
sent, so no `exit-status` request reaches the client. -/
theorem executeCommand_start_failure_sends_nothing (env : ExecEnv)
    (receivedCommand binary : Str) (msg : String)
    (hfields : (Fields receivedCommand)[0]? = some binary)
    (hcopy : env.copyError = none) (hpipe : env.stdinPipeError = none)
    (hstart : env.startError = some msg) :
    executeCommand env receivedCommand = .ok (some msg, []) := by
  simp only [executeCommand, hfields, hcopy, hpipe, hstart]

theorem executeCommand_start_failure_sends_nothing_witness :
    executeCommand
        ⟨none, none, some "exec: \"nosuch\": executable file not found in $PATH", none,
          .success, [], []⟩ "nosuch -x".toList
      = .ok (some "exec: \"nosuch\": executable file not found in $PATH", []) :=
  executeCommand_start_failure_sends_nothing
    ⟨none, none, some "exec: \"nosuch\": executable file not found in $PATH", none,
      .success, [], []⟩ "nosuch -x".toList "nosuch".toList _ (by decide) rfl rfl rfl

/-! ## Lemmas: known hosts -/

theorem cutAt_none (sep : Char) (s : Str) (h : sep ∉ s) : cutAt sep s = none := by
  induction s with
  | nil => rfl
  | cons c cs ih =>
    have hc : c ≠ sep := fun e => h (e ▸ List.mem_cons_self _ _)
    have hcs : sep ∉ cs := fun hm => h (List.mem_cons_of_mem _ hm)
    simp [cutAt, hc, ih hcs]

theorem SplitN_field (sep : Char) (a rest : Str) (n : Nat) (hn : 2 ≤ n) (h : sep ∉ a) :
    SplitN (a ++ sep :: rest) sep n = a :: SplitN rest sep (n - 1) := by
  match n, hn with
  | m + 2, _ =>
    simp only [SplitN, cutAt_append_sep sep a rest h]
    rfl

theorem SplitN_last (sep : Char) (a : Str) (n : Nat) (hn : 1 ≤ n) (h : sep ∉ a) :
    SplitN a sep n = [a] := by
  match n, hn with
  | 1, _ => rfl
  | m + 2, _ => simp only [SplitN, cutAt_none sep a h]

theorem Split_three (sep : Char) (a b c : Str) (ha : sep ∉ a) (hb : sep ∉ b) (hc : sep ∉ c) :
    Split (a ++ sep :: (b ++ sep :: c)) sep = [a, b, c] := by
  unfold Split
  rw [SplitN_field sep a _ _ (by simp only [List.length_append, List.length_cons]; omega) ha,
    SplitN_field sep b _ _ (by simp only [List.length_append, List.length_cons]; omega) hb,
    SplitN_last sep c _ (by simp only [List.length_append, List.length_cons]; omega) hc]

theorem fieldsScan_word (w rest word : Str) (hw : ∀ c ∈ w, isSpace c = false) :
    fieldsScan (w ++ rest) word = fieldsScan rest (word ++ w) := by
  induction w generalizing word with
  | nil => simp
  | cons c w ih =>
    have hc : isSpace c = false := hw c (List.mem_cons_self _ _)
    have hrest : ∀ x ∈ w, isSpace x = false := fun x hx => hw x (List.mem_cons_of_mem _ hx)
    simp only [List.cons_append, fieldsScan, hc, Bool.false_eq_true, if_false, List.append_eq]
    rw [ih _ hrest]
    simp

theorem Fields_two (t k : Str) (ht : t ≠ [] ∧ ∀ c ∈ t, isSpace c = false)
    (hk : k ≠ [] ∧ ∀ c ∈ k, isSpace c = false) :
    Fields (t ++ ' ' :: k) = [t, k] := by
  unfold Fields
  rw [fieldsScan_word t _ [] ht.2]
  have hsp : isSpace ' ' = true := by decide
  simp only [List.nil_append, fieldsScan, hsp, if_true, ht.1, if_false]
  have hk2 := fieldsScan_word k [] [] hk.2
  simp only [List.append_nil, List.nil_append] at hk2
  rw [hk2]
  simp [fieldsScan, hk.1]

/-- The line that `writeKnownHost` builds is read back field by field. -/
theorem parseKnownHost_newKnownHostLine (env : KnownHostsEnv) (salt : List Byte)
    (cleanHost pubKeyType remotePubKey : Str)
    (hsaltText : '|' ∉ env.b64encode salt ∧ ' ' ∉ env.b64encode salt)
    (hhashText : '|' ∉ env.b64encode (env.hmacSHA1 salt cleanHost) ∧
      ' ' ∉ env.b64encode (env.hmacSHA1 salt cleanHost))
    (htype : pubKeyType ≠ [] ∧ ∀ c ∈ pubKeyType, isSpace c = false)
    (hkey : remotePubKey ≠ [] ∧ ∀ c ∈ remotePubKey, isSpace c = false) :
    parseKnownHost (newKnownHostLine env salt cleanHost pubKeyType remotePubKey)
      = some (env.b64encode salt, env.b64encode (env.hmacSHA1 salt cleanHost),
          [pubKeyType, remotePubKey]) := by
  have hline : newKnownHostLine env salt cleanHost pubKeyType remotePubKey
      = '|' :: ((['1'] ++ '|' :: (env.b64encode salt ++ '|' ::
          env.b64encode (env.hmacSHA1 salt cleanHost))) ++ ' ' :: (pubKeyType ++ ' ' ::
            remotePubKey)) := by
    simp [newKnownHostLine]
  have hX : ' ' ∉ ['1'] ++ '|' :: (env.b64encode salt ++ '|' ::
      env.b64encode (env.hmacSHA1 salt cleanHost)) := by
    intro hm
    rcases List.mem_append.mp hm with h | h
    · revert h; decide
    · rcases List.mem_cons.mp h with h | h
      · exact absurd h (by decide)
      · rcases List.mem_append.mp h with h | h
        · exact hsaltText.2 h
        · rcases List.mem_cons.mp h with h | h
          · exact absurd h (by decide)
          · exact hhashText.2 h
  have hsplit : SplitN ((['1'] ++ '|' :: (env.b64encode salt ++ '|' ::
      env.b64encode (env.hmacSHA1 salt cleanHost))) ++ ' ' :: (pubKeyType ++ ' ' ::
        remotePubKey)) ' ' 2
      = [['1'] ++ '|' :: (env.b64encode salt ++ '|' ::
          env.b64encode (env.hmacSHA1 salt cleanHost)), pubKeyType ++ ' ' :: remotePubKey] := by
    rw [SplitN_field ' ' _ _ 2 (by omega) hX]
    rfl
  have hparts := Split_three '|' ['1'] (env.b64encode salt)
    (env.b64encode (env.hmacSHA1 salt cleanHost)) (by decide) hsaltText.1 hhashText.1
  have hfields := Fields_two pubKeyType remotePubKey htype hkey
  rw [hline]
  unfold parseKnownHost
  simp only [trimLeading, if_true, hsplit, List.length_cons, List.length_nil, List.getD_cons_zero,
    List.getD_cons_succ, hparts, hfields]
  simp

theorem knownHostsLoop_written_line (env : KnownHostsEnv) (salt : List Byte)
    (cleanHost pubKeyType remotePubKey : Str) (pre post : List Str)
    (hdecode : env.b64decode (env.b64encode salt) = some salt)
    (hsaltText : '|' ∉ env.b64encode salt ∧ ' ' ∉ env.b64encode salt)
    (hhashText : '|' ∉ env.b64encode (env.hmacSHA1 salt cleanHost) ∧
      ' ' ∉ env.b64encode (env.hmacSHA1 salt cleanHost))
    (htype : pubKeyType ≠ [] ∧ ∀ c ∈ pubKeyType, isSpace c = false)
    (hkey : remotePubKey ≠ [] ∧ ∀ c ∈ remotePubKey, isSpace c = false)
    (hpre : ∀ l ∈ pre, ∀ s h k, parseKnownHost l = some (s, h, k) →
      (env.b64decode s).isSome = true) :
    knownHostsLoop env cleanHost remotePubKey
      (pre ++ newKnownHostLine env salt cleanHost pubKeyType remotePubKey :: post)
      = .matched := by
  induction pre with
  | nil =>
    have hjoin : JoinSpace ([pubKeyType, remotePubKey].drop 1) = remotePubKey := by
      simp [JoinSpace, List.intercalate, List.intersperse]
    simp only [List.nil_append, knownHostsLoop,
      parseKnownHost_newKnownHostLine env salt cleanHost pubKeyType remotePubKey hsaltText
        hhashText htype hkey, hdecode, hjoin, if_true]
  | cons l rest ih =>
    have ih' := ih (fun x hx => hpre x (List.mem_cons_of_mem _ hx))
    simp only [List.cons_append, knownHostsLoop]
    cases hp : parseKnownHost l with
    | none => exact ih'
    | some r =>
      obtain ⟨s, h, k⟩ := r
      have hd := hpre l (List.mem_cons_self _ _) s h k hp
      obtain ⟨bytes, hbytes⟩ := Option.isSome_iff_exists.mp hd
      simp only [hbytes]
      split
      · split
        · rfl
        · exact ih'
      · exact ih'

/-! ## Theorems: known hosts -/

/-- C16: when no known-hosts line matches (and the known-hosts file can be written),
`hostKeyCallback` with `addAllUnknownHosts` set appends the entry and accepts without
a prompt; otherwise it prompts once and the trimmed, lower-cased answer decides: `all`
sets `addAllUnknownHosts`, appends the entry and accepts; `y` appends the entry and
accepts with `addAllUnknownHosts` unchanged; any other answer returns an error with the
file and `addAllUnknownHosts` unchanged. -/
theorem hostKeyCallback_unknown_host (env : KnownHostsEnv) (hostname host port : Str)
    (keyBytes : List Byte) (pubKeyType : Str) (st : KnownHostsState) (salt : List Byte)
    (hscan : knownHostsLoop env (cleanHostOf host) (env.b64encode keyBytes) env.knownhosts
      = .noMatch)
    (hsalt : env.saltRead = some salt) (hopen : env.openFileError = none)
    (hwrite : env.writeError = none) :
    (st.addAllUnknownHosts = true →
      hostKeyCallback env hostname (.ok (host, port)) keyBytes pubKeyType st
        = (none, { st with knownHostsFile := st.knownHostsFile ++
            (newKnownHostLine env salt (cleanHostOf host) pubKeyType (env.b64encode keyBytes)
              ++ ['\n']) })) ∧
    (st.addAllUnknownHosts = false → ∀ input, env.userInput = .ok input →
      (ToLower (TrimSpace input) = "all".toList →
        hostKeyCallback env hostname (.ok (host, port)) keyBytes pubKeyType st
          = (none, { addAllUnknownHosts := true,
                     knownHostsFile := st.knownHostsFile ++
                       (newKnownHostLine env salt (cleanHostOf host) pubKeyType
                         (env.b64encode keyBytes) ++ ['\n']),
                     prompts := st.prompts + 1 })) ∧
      (ToLower (TrimSpace input) = "y".toList →
        hostKeyCallback env hostname (.ok (host, port)) keyBytes pubKeyType st
          = (none, { addAllUnknownHosts := false,
                     knownHostsFile := st.knownHostsFile ++
                       (newKnownHostLine env salt (cleanHostOf host) pubKeyType
                         (env.b64encode keyBytes) ++ ['\n']),
                     prompts := st.prompts + 1 })) ∧
      (ToLower (TrimSpace input) ≠ "all".toList → ToLower (TrimSpace input) ≠ "y".toList →
        ∃ msg, hostKeyCallback env hostname (.ok (host, port)) keyBytes pubKeyType st
          = (some msg, { addAllUnknownHosts := false, knownHostsFile := st.knownHostsFile,
                         prompts := st.prompts + 1 }))) := by
  refine ⟨?_, ?_⟩
  · intro hall
    simp [hostKeyCallback, hscan, hall, writeKnownHost, hsalt, hopen, hwrite]
  · intro hall input hinput
    have hy : ToLower ['y'] = ['y'] := by decide
    have hne : ['y'] ≠ ['a', 'l', 'l'] := by decide
    refine ⟨?_, ?_, ?_⟩
    · intro hans
      simp [hostKeyCallback, hscan, hall, hinput, hans, hy, writeKnownHost, hsalt, hopen, hwrite]
    · intro hans
      simp [hostKeyCallback, hscan, hall, hinput, hans, hne, writeKnownHost, hsalt, hopen,
        hwrite]
    · intro hans1 hans2
      refine ⟨"not continuing with connection to " ++ String.mk (cleanHostOf host), ?_⟩
      simp only [hostKeyCallback, hscan, hall, Bool.false_eq_true, if_false, hinput, hans1,
        decide_False, hans2, ne_eq, not_false_eq_true, if_true]

theorem hostKeyCallback_unknown_host_witness :
    hostKeyCallback (sampleKnownHostsEnv [] (.ok " ALL \n".toList)) []
        (.ok ("10.0.0.1".toList, "22".toList)) [1, 2] "ssh-ed25519".toList ⟨false, [], 0⟩
      = (none, { addAllUnknownHosts := true,
                 knownHostsFile := [] ++
                   (newKnownHostLine (sampleKnownHostsEnv [] (.ok " ALL \n".toList))
                     (List.replicate 20 171) (cleanHostOf "10.0.0.1".toList)
                     "ssh-ed25519".toList
                     ((sampleKnownHostsEnv [] (.ok " ALL \n".toList)).b64encode [1, 2])
                     ++ ['\n']),
                 prompts := 0 + 1 }) :=
  ((hostKeyCallback_unknown_host (sampleKnownHostsEnv [] (.ok " ALL \n".toList)) []
    "10.0.0.1".toList "22".toList [1, 2] "ssh-ed25519".toList ⟨false, [], 0⟩
    (List.replicate 20 171) rfl rfl rfl rfl).2 rfl " ALL \n".toList rfl).1 (by decide)

/-- C17: `writeKnownHost`, when the salt is read and the file is opened and written,
appends to the known-hosts file the line made of the marker, the encoded salt, the
encoded keyed hash of the host, the key type and the encoded key, followed by a line
feed; that line (key type and key non-empty and free of white space, encodings free of
`|` and space, the salt decodable), standing in a snapshot after lines whose salts
decode, is parsed by `hostKeyCallback` into exactly its salt, hash and key fields and
makes it accept the same host and key: the error is nil and the state, known-hosts file
and prompt count included, is unchanged. -/
theorem hostKeyCallback_accepts_written_line (env : KnownHostsEnv) (hostname host port : Str)
    (keyBytes : List Byte) (pubKeyType : Str) (salt : List Byte) (pre post : List Str)
    (st : KnownHostsState)
    (_hsaltLength : salt.length = 20)
    (hdecode : env.b64decode (env.b64encode salt) = some salt)
    (hsaltText : '|' ∉ env.b64encode salt ∧ ' ' ∉ env.b64encode salt)
    (hhashText : '|' ∉ env.b64encode (env.hmacSHA1 salt (cleanHostOf host)) ∧
      ' ' ∉ env.b64encode (env.hmacSHA1 salt (cleanHostOf host)))
    (htype : pubKeyType ≠ [] ∧ ∀ c ∈ pubKeyType, isSpace c = false)
    (hkey : env.b64encode keyBytes ≠ [] ∧ ∀ c ∈ env.b64encode keyBytes, isSpace c = false)
    (hpre : ∀ l ∈ pre, ∀ s h k, parseKnownHost l = some (s, h, k) →
      (env.b64decode s).isSome = true)
    (hsnapshot : env.knownhosts = pre ++
      newKnownHostLine env salt (cleanHostOf host) pubKeyType (env.b64encode keyBytes) :: post) :
    (env.saltRead = some salt → env.openFileError = none → env.writeError = none →
      ∀ before : KnownHostsState,
        writeKnownHost env (cleanHostOf host) pubKeyType (env.b64encode keyBytes) before
          = (none, { before with knownHostsFile := before.knownHostsFile ++
              ("|1|".toList ++ env.b64encode salt ++ "|".toList ++
                env.b64encode (env.hmacSHA1 salt (cleanHostOf host)) ++ " ".toList ++
                pubKeyType ++ " ".toList ++ env.b64encode keyBytes ++ ['\n']) })) ∧
    newKnownHostLine env salt (cleanHostOf host) pubKeyType (env.b64encode keyBytes)
      = "|1|".toList ++ env.b64encode salt ++ "|".toList ++
          env.b64encode (env.hmacSHA1 salt (cleanHostOf host)) ++ " ".toList ++
          pubKeyType ++ " ".toList ++ env.b64encode keyBytes ∧
    parseKnownHost
        (newKnownHostLine env salt (cleanHostOf host) pubKeyType (env.b64encode keyBytes))
      = some (env.b64encode salt, env.b64encode (env.hmacSHA1 salt (cleanHostOf host)),
          [pubKeyType, env.b64encode keyBytes]) ∧
    hostKeyCallback env hostname (.ok (host, port)) keyBytes pubKeyType st = (none, st) := by
  refine ⟨?_, rfl, parseKnownHost_newKnownHostLine env salt _ pubKeyType _ hsaltText hhashText
    htype hkey, ?_⟩
  · intro hsalt hopen hwrite before
    simp only [writeKnownHost, hsalt, hopen, hwrite, newKnownHostLine, List.append_assoc]
  · have hloop := knownHostsLoop_written_line env salt (cleanHostOf host) pubKeyType
      (env.b64encode keyBytes) pre post hdecode hsaltText hhashText htype hkey hpre
    simp only [hostKeyCallback, hsnapshot, hloop]

theorem hostKeyCallback_accepts_written_line_witness :
    writeKnownHost (sampleKnownHostsEnv [] (.error "EOF")) "10.0.0.1".toList
        "ssh-ed25519".toList "0102".toList ⟨false, "# comment\n".toList, 0⟩
      = (none, ⟨false, "# comment\n".toList ++
          (newKnownHostLine (sampleKnownHostsEnv [] (.error "EOF")) (List.replicate 20 171)
            "10.0.0.1".toList "ssh-ed25519".toList "0102".toList ++ ['\n']), 0⟩) ∧
    hostKeyCallback
        (sampleKnownHostsEnv ["# comment".toList,
          newKnownHostLine (sampleKnownHostsEnv [] (.error "EOF")) (List.replicate 20 171)
            "10.0.0.1".toList "ssh-ed25519".toList "0102".toList] (.error "EOF")) []
        (.ok ("10.0.0.1".toList, "22".toList)) [1, 2] "ssh-ed25519".toList ⟨false, [], 0⟩
      = (none, ⟨false, [], 0⟩) :=
  (fun h => ⟨by decide, h.2.2.2⟩)
  (hostKeyCallback_accepts_written_line
    (sampleKnownHostsEnv ["# comment".toList,
      newKnownHostLine (sampleKnownHostsEnv [] (.error "EOF")) (List.replicate 20 171)
        "10.0.0.1".toList "ssh-ed25519".toList "0102".toList] (.error "EOF")) []
    "10.0.0.1".toList "22".toList [1, 2] "ssh-ed25519".toList (List.replicate 20 171)
    ["# comment".toList] [] ⟨false, [], 0⟩ (by decide) (by decide) (by decide) (by decide)
    (by decide) (by decide)
    (by
      intro l hl s h k hp
      rw [List.mem_singleton.mp hl] at hp
      have hnone : parseKnownHost "# comment".toList = none := by decide
      rw [hnone] at hp
      cases hp)
    (by decide))

/-! ## Theorems: repository seeding -/

/-- C21: for every 9-character permission text whose positions hold their letter or
`-`, `permissionsSymbolicToNumeric` returns `100*u + 10*g + o` with `u`, `g`, `o` the
values of the three triplets, each at most 7; `rwxr-xr-x` gives 755 and `rw-------`
gives 600. -/
theorem permissionsSymbolicToNumeric_wellformed (r1 w1 x1 r2 w2 x2 r3 w3 x3 : Bool) :
    permissionsSymbolicToNumeric
        [permissionLetter 'r' r1, permissionLetter 'w' w1, permissionLetter 'x' x1,
         permissionLetter 'r' r2, permissionLetter 'w' w2, permissionLetter 'x' x2,
         permissionLetter 'r' r3, permissionLetter 'w' w3, permissionLetter 'x' x3]
      = .ok ((100 * tripletValue r1 w1 x1 + 10 * tripletValue r2 w2 x2
          + tripletValue r3 w3 x3 : Nat) : Int) ∧
    tripletValue r1 w1 x1 ≤ 7 ∧ tripletValue r2 w2 x2 ≤ 7 ∧ tripletValue r3 w3 x3 ≤ 7 ∧
    permissionsSymbolicToNumeric "rwxr-xr-x".toList = .ok 755 ∧
    permissionsSymbolicToNumeric "rw-------".toList = .ok 600 := by
  cases r1 <;> cases w1 <;> cases x1 <;> cases r2 <;> cases w2 <;> cases x2 <;>
    cases r3 <;> cases w3 <;> cases x3 <;> decide

/-- C22: `permissionsSymbolicToNumeric` does not keep the execute bit of a triplet
whose execute position holds `s` or `t`: `rwsr-xr-x` is read as 655, not as the 755 of
`rwxr-xr-x`, `rwxr-sr-x` as 745 and `rwxrwxrwt` as 776; `S` and `T` read as `-`. -/
theorem permissionsSymbolicToNumeric_setuid_loses_execute :
    permissionsSymbolicToNumeric "rwsr-xr-x".toList = .ok 655 ∧
    permissionsSymbolicToNumeric "rwxr-xr-x".toList = .ok 755 ∧
    permissionsSymbolicToNumeric "rwxr-sr-x".toList = .ok 745 ∧
    permissionsSymbolicToNumeric "rwxrwxrwt".toList = .ok 776 ∧
    permissionsSymbolicToNumeric "rwSr-xr-x".toList
      = permissionsSymbolicToNumeric "rw-r-xr-x".toList ∧
    permissionsSymbolicToNumeric "rwxrwxrwT".toList
      = permissionsSymbolicToNumeric "rwxrwxrw-".toList := by
  decide

/-! ## Theorems: host and file filter, second part -/

/-- C23: a configured host whose `HostState` is `offline` has no entry in the
`hostsAndEndpointInfo` that `filterHostsAndFiles` returns. -/
theorem filterHostsAndFiles_offline_host_absent {Tree Maps : Type}
    (env : FilterEnv Tree Maps) (tree : Tree)
    (commitFiles : List (Str × Str)) (commitHosts : List Str)
    (endpoints : List (Str × DeployerEndpoints)) (hostOverride : Str)
    (hosts : List (Str × EndpointInfo)) (all : List (Str × Str))
    (hres : filterHostsAndFiles env tree commitFiles commitHosts endpoints hostOverride
      = .ok (hosts, all))
    (hkeys : (endpoints.map Prod.fst).Nodup)
    (endpointName : Str) (cfg : DeployerEndpoints)
    (hcfg : (endpointName, cfg) ∈ endpoints) (hoff : cfg.HostState = "offline".toList)
    (info : EndpointInfo) :
    (endpointName, info) ∉ hosts := by
  intro hinfo
  obtain ⟨cfg', denied, hmem, -, hstate, -, -⟩ :=
    filterHostsAndFiles_mem env tree commitFiles commitHosts endpoints hostOverride hosts all
      hres endpointName info hinfo
  have hcfgeq : cfg' = cfg := nodup_keys_unique endpoints hkeys endpointName cfg' cfg hmem hcfg
  subst hcfgeq
  exact hstate hoff

theorem filterHostsAndFiles_offline_host_absent_witness :
    (("hostB".toList, (⟨["hostB/etc/motd".toList], "hostB".toList, "10.0.0.2".toList,
      "deployer".toList, "ssh-ed25519".toList, "/tmp/buf".toList, []⟩ : EndpointInfo)) ∉
    [("hostA".toList, (⟨["hostA/etc/motd".toList], "hostA".toList, "10.0.0.1".toList,
      "deployer".toList, "ssh-ed25519".toList, "/tmp/buf".toList, []⟩ : EndpointInfo))]) :=
  filterHostsAndFiles_offline_host_absent (sampleFilterEnv []) ()
    [("hostA/etc/motd".toList, "create".toList), ("hostB/etc/motd".toList, "create".toList)] []
    [("hostA".toList, ⟨"10.0.0.1".toList, [], false⟩),
      ("hostB".toList, ⟨"10.0.0.2".toList, "offline".toList, false⟩)] []
    [("hostA".toList, ⟨["hostA/etc/motd".toList], "hostA".toList, "10.0.0.1".toList,
      "deployer".toList, "ssh-ed25519".toList, "/tmp/buf".toList, []⟩)]
    [("hostA/etc/motd".toList, "create".toList)]
    (by decide) (by decide) "hostB".toList ⟨"10.0.0.2".toList, "offline".toList, false⟩
    (by decide) rfl
    ⟨["hostB/etc/motd".toList], "hostB".toList, "10.0.0.2".toList,
      "deployer".toList, "ssh-ed25519".toList, "/tmp/buf".toList, []⟩

/-- C25: for every request, `handleChannel` answers a `subsystem` request whose
stripped payload is not `sftp`, and a request whose type is none of `exec`,
`subsystem`, `update`, with `Reply(false)` and nothing else; and for an `exec`,
`subsystem` or `update` request whose payload fails the header validation it replies
nothing and starts nothing. -/
theorem handleRequest_rejects_other_requests (env : ExecEnv) (UpdaterProgram : Str)
    (request : Request) :
    (request.ReqType = "subsystem".toList →
      ∀ subsystem, StripPayloadHeader request.Payload = .ok subsystem →
        bytesToStr subsystem ≠ "sftp".toList →
        (handleRequest env UpdaterProgram request).events = [.reply false] ∧
        (handleRequest env UpdaterProgram request).panicked = false) ∧
    (request.ReqType ≠ "exec".toList → request.ReqType ≠ "subsystem".toList →
      request.ReqType ≠ "update".toList →
        (handleRequest env UpdaterProgram request).events = [.reply false] ∧
        (handleRequest env UpdaterProgram request).panicked = false) ∧
    ((request.ReqType = "exec".toList ∨ request.ReqType = "subsystem".toList ∨
        request.ReqType = "update".toList) →
      (StripPayloadHeader request.Payload).isError = true →
        (handleRequest env UpdaterProgram request).events = [] ∧
        (handleRequest env UpdaterProgram request).panicked = false) := by
  refine ⟨?_, ?_, ?_⟩
  · intro htype subsystem hstrip hsub
    have hne : request.ReqType ≠ "exec".toList := by
      rw [htype]
      decide
    unfold handleRequest
    rw [if_neg hne, if_pos htype, hstrip]
    simp only [hsub, ne_eq, not_false_eq_true, if_true, and_self]
  · intro h1 h2 h3
    unfold handleRequest
    rw [if_neg h1, if_neg h2, if_neg h3]
    exact ⟨rfl, rfl⟩
  · intro htype herr
    cases hstrip : StripPayloadHeader request.Payload with
    | ok payload => simp [hstrip, Outcome.isError] at herr
    | panic => simp [hstrip, Outcome.isError] at herr
    | error msg =>
      rcases htype with h | h | h
      · unfold handleRequest
        rw [if_pos h, hstrip]
        exact ⟨rfl, rfl⟩
      · have hne : request.ReqType ≠ "exec".toList := by
          rw [h]
          decide
        unfold handleRequest
        rw [if_neg hne, if_pos h, hstrip]
        exact ⟨rfl, rfl⟩
      · have hne : request.ReqType ≠ "exec".toList := by
          rw [h]
          decide
        have hne2 : request.ReqType ≠ "subsystem".toList := by
          rw [h]
          decide
        unfold handleRequest
        rw [if_neg hne, if_neg hne2, if_pos h]
        unfold HandleUpdate
        rw [hstrip]
        exact ⟨rfl, rfl⟩

theorem handleRequest_rejects_other_requests_witness :
    (handleRequest ⟨none, none, none, none, .success, [], []⟩ "/usr/bin/updater".toList
        ⟨"subsystem".toList, true, [0, 0, 0, 5, 115, 104, 101, 108, 108]⟩).events
      = [.reply false] ∧
    (handleRequest ⟨none, none, none, none, .success, [], []⟩ "/usr/bin/updater".toList
        ⟨"subsystem".toList, true, [0, 0, 0, 5, 115, 104, 101, 108, 108]⟩).panicked
      = false :=
  (handleRequest_rejects_other_requests ⟨none, none, none, none, .success, [], []⟩
    "/usr/bin/updater".toList
    ⟨"subsystem".toList, true, [0, 0, 0, 5, 115, 104, 101, 108, 108]⟩).1 rfl
    [115, 104, 101, 108, 108] (by decide) (by decide)

/-- The ASCII white-space bytes are white space for `strings.Fields`. -/
theorem isSpace_ascii (n : Nat) (h : n = 32 ∨ (9 ≤ n ∧ n ≤ 13)) :
    isSpace (Char.ofNat n) = true := by
  rcases h with h | ⟨h1, h2⟩
  · subst h
    decide
  · interval_cases n <;> decide

/-- A text of ASCII white space has no field. -/
theorem Fields_blank (command : List Byte)
    (hblank : ∀ b ∈ command, b.val = 32 ∨ (9 ≤ b.val ∧ b.val ≤ 13)) :
    Fields (bytesToStr command) = [] := by
  unfold Fields
  induction command with
  | nil => rfl
  | cons b rest ih =>
    have hb : isSpace (Char.ofNat b.val) = true :=
      isSpace_ascii b.val (hblank b (List.mem_cons_self _ _))
    have hrest := ih (fun c hc => hblank c (List.mem_cons_of_mem _ hc))
    simp only [bytesToStr, List.map_cons] at hrest ⊢
    simp only [fieldsScan, hb, if_true]
    exact hrest

/-- C29: an `exec` request whose payload passes the header validation and holds no
character other than ASCII white space (the empty command included) makes
`executeCommand` index `commandArray[0]` out of range: the call panics and
`handleChannel` ends in its recovery. -/
theorem executeCommand_blank_command_panics (env : ExecEnv) (UpdaterProgram : Str)
    (WantReply : Bool) (payload command : List Byte)
    (hstrip : StripPayloadHeader payload = .ok command)
    (hblank : ∀ b ∈ command, b.val = 32 ∨ (9 ≤ b.val ∧ b.val ≤ 13)) :
    Fields (bytesToStr command) = [] ∧
    executeCommand env (bytesToStr command) = .panic ∧
    (handleRequest env UpdaterProgram ⟨"exec".toList, WantReply, payload⟩).panicked = true := by
  have hfields : Fields (bytesToStr command) = [] := Fields_blank command hblank
  have hexec : executeCommand env (bytesToStr command) = .panic := by
    simp only [executeCommand, hfields, List.getElem?_nil]
  refine ⟨hfields, hexec, ?_⟩
  unfold handleRequest
  simp only [if_true, hstrip, hexec]

theorem executeCommand_blank_command_panics_witness :
    Fields (bytesToStr []) = [] ∧
    executeCommand ⟨none, none, none, none, .success, [], []⟩ (bytesToStr []) = .panic ∧
    (handleRequest ⟨none, none, none, none, .success, [], []⟩ "/usr/bin/updater".toList
      ⟨"exec".toList, true, [0, 0, 0, 0]⟩).panicked = true :=
  executeCommand_blank_command_panics ⟨none, none, none, none, .success, [], []⟩
    "/usr/bin/updater".toList true [0, 0, 0, 0] [] (by decide) (by simp)

/-! ## Theorems: key check, second part -/

/-- An authorized-keys line without a space makes the key check index `AuthPubKey[1]`
out of range, wherever the line stands in the list. -/
theorem authorizedKeysLoop_spaceless_line (ClientKey : Str) (keys : List Str) (flag : Bool)
    (line : Str) (hline : line ∈ keys) (hspace : ' ' ∉ line) :
    authorizedKeysLoop ClientKey keys flag = none := by
  induction keys generalizing flag with
  | nil => simp at hline
  | cons k rest ih =>
    unfold authorizedKeysLoop
    simp only
    cases hk : (SplitN k ' ' 3)[1]? with
    | none => rfl
    | some AuthKey =>
      simp only
      rcases List.mem_cons.mp hline with h | h
      · rw [← h, SplitN_last ' ' line 3 (by omega) hspace] at hk
        simp at hk
      · exact ih _ h

/-- C28: when `AuthorizedKeys` holds a line without a space character, the key check
of `PublicKeyCallback` for a connection of the authorized user indexes `AuthPubKey[1]`
out of range and panics instead of returning an authorization or a denial. -/
theorem PublicKeyCallback_spaceless_line_panics (b64 : List Byte → Str)
    (config : SSHServerConfig) (user : Str) (key : List Byte) (line : Str)
    (huser : user = config.AuthorizedUser)
    (hline : line ∈ config.AuthorizedKeys) (hspace : ' ' ∉ line) :
    PublicKeyCallback b64 config user key = .panic := by
  unfold PublicKeyCallback
  rw [if_neg (by simpa using huser)]
  simp only [authorizedKeysLoop_spaceless_line (b64 key) config.AuthorizedKeys false line
    hline hspace]

theorem PublicKeyCallback_spaceless_line_panics_witness :
    PublicKeyCallback sampleEncode
        ⟨"deployer".toList, ["ssh-ed25519 0102 controller".toList, "0102".toList]⟩
        "deployer".toList [1, 2] = .panic :=
  PublicKeyCallback_spaceless_line_panics sampleEncode
    ⟨"deployer".toList, ["ssh-ed25519 0102 controller".toList, "0102".toList]⟩
    "deployer".toList [1, 2] "0102".toList rfl (by decide) (by decide)

/-! ## Theorems: known hosts, second part -/

/-- Lines that the loop passes without a match or an error do not change how the loop
ends. -/
theorem knownHostsLoop_append_noMatch (env : KnownHostsEnv) (cleanHost remotePubKey : Str)
    (pre rest : List Str) (hpre : knownHostsLoop env cleanHost remotePubKey pre = .noMatch) :
    knownHostsLoop env cleanHost remotePubKey (pre ++ rest)
      = knownHostsLoop env cleanHost remotePubKey rest := by
  induction pre with
  | nil => rfl
  | cons l tail ih =>
    rw [List.cons_append]
    simp only [knownHostsLoop] at hpre ⊢
    cases hparse : parseKnownHost l with
    | none =>
      simp only [hparse] at hpre ⊢
      exact ih hpre
    | some parsed =>
      obtain ⟨salt, hashedKnownHost, knownkeysPart⟩ := parsed
      simp only [hparse] at hpre ⊢
      cases hdec : env.b64decode salt with
      | none => simp [hdec] at hpre
      | some saltBytes =>
        simp only [hdec] at hpre ⊢
        split
        · rename_i hhost
          rw [if_pos hhost] at hpre
          split
          · rename_i hkey
            rw [if_pos hkey] at hpre
            cases hpre
          · rename_i hkey
            rw [if_neg hkey] at hpre
            exact ih hpre
        · rename_i hhost
          rw [if_neg hhost] at hpre
          exact ih hpre

/-- C30: when the loop over the known-hosts snapshot reaches, before any matching
line, a hashed line (marker `1`, salt, hash and at least two key fields) whose salt
does not decode, `hostKeyCallback` returns an error and leaves the state as it was: no
acceptance, no prompt, no write, whatever follows the line. -/
theorem hostKeyCallback_bad_salt_errors (env : KnownHostsEnv) (hostname host port : Str)
    (keyBytes : List Byte) (pubKeyType : Str) (pre post : List Str) (bad : Str)
    (salt hashedKnownHost : Str) (knownkeysPart : List Str) (st : KnownHostsState)
    (hsnapshot : env.knownhosts = pre ++ bad :: post)
    (hpre : knownHostsLoop env (cleanHostOf host) (env.b64encode keyBytes) pre = .noMatch)
    (hparse : parseKnownHost bad = some (salt, hashedKnownHost, knownkeysPart))
    (hsalt : env.b64decode salt = none) :
    hostKeyCallback env hostname (.ok (host, port)) keyBytes pubKeyType st
      = (some "error decoding salt", st) := by
  have hloop : knownHostsLoop env (cleanHostOf host) (env.b64encode keyBytes) env.knownhosts
      = .saltError := by
    rw [hsnapshot, knownHostsLoop_append_noMatch env _ _ pre _ hpre]
    simp only [knownHostsLoop, hparse, hsalt]
  simp only [hostKeyCallback, hloop]

theorem hostKeyCallback_bad_salt_errors_witness :
    hostKeyCallback
        (sampleKnownHostsEnv ["# comment".toList, "|1|zz|abcd ssh-ed25519 0102".toList,
          newKnownHostLine (sampleKnownHostsEnv [] (.error "EOF")) (List.replicate 20 171)
            "10.0.0.1".toList "ssh-ed25519".toList "0102".toList] (.ok "y".toList)) []
        (.ok ("10.0.0.1".toList, "22".toList)) [1, 2] "ssh-ed25519".toList ⟨true, [], 0⟩
      = (some "error decoding salt", ⟨true, [], 0⟩) :=
  hostKeyCallback_bad_salt_errors
    (sampleKnownHostsEnv ["# comment".toList, "|1|zz|abcd ssh-ed25519 0102".toList,
      newKnownHostLine (sampleKnownHostsEnv [] (.error "EOF")) (List.replicate 20 171)
        "10.0.0.1".toList "ssh-ed25519".toList "0102".toList] (.ok "y".toList)) []
    "10.0.0.1".toList "22".toList [1, 2] "ssh-ed25519".toList
    ["# comment".toList]
    [newKnownHostLine (sampleKnownHostsEnv [] (.error "EOF")) (List.replicate 20 171)
      "10.0.0.1".toList "ssh-ed25519".toList "0102".toList]
    "|1|zz|abcd ssh-ed25519 0102".toList "zz".toList "abcd".toList
    ["ssh-ed25519".toList, "0102".toList] ⟨true, [], 0⟩
    (by decide) (by decide) (by decide) (by decide)

/-! ## Theorems: repository scanner, second part -/

/-- The actions that the scanner stores: `create`, `delete`, or `symlinkcreate to
target` followed by the target path. -/
theorem recordPatchAction_actions {File : Type} (env : CommitEnv File)
    (fromFile toFile : Option File) (fromPath toPath : Str) (commitFiles : List (Str × Str))
    (hall : ∀ x ∈ commitFiles, x.2 = "create".toList ∨ x.2 = "delete".toList ∨
      ∃ target, x.2 = "symlinkcreate to target ".toList ++ target)
    (x : Str × Str)
    (hx : x ∈ recordPatchAction env fromFile toFile fromPath toPath commitFiles) :
    x.2 = "create".toList ∨ x.2 = "delete".toList ∨
      ∃ target, x.2 = "symlinkcreate to target ".toList ++ target := by
  have hcreate : ∀ (m : List (Str × Str)) (k : Str),
      (∀ y ∈ m, y.2 = "create".toList ∨ y.2 = "delete".toList ∨
        ∃ target, y.2 = "symlinkcreate to target ".toList ++ target) →
      ∀ y ∈ mapSet m k "create".toList, y.2 = "create".toList ∨ y.2 = "delete".toList ∨
        ∃ target, y.2 = "symlinkcreate to target ".toList ++ target := by
    intro m k hm y hy
    rcases mem_mapSet m k _ y hy with h | h
    · exact Or.inl (by rw [h])
    · exact hm y h
  have hdelete : ∀ (m : List (Str × Str)) (k : Str),
      (∀ y ∈ m, y.2 = "create".toList ∨ y.2 = "delete".toList ∨
        ∃ target, y.2 = "symlinkcreate to target ".toList ++ target) →
      ∀ y ∈ mapSet m k "delete".toList, y.2 = "create".toList ∨ y.2 = "delete".toList ∨
        ∃ target, y.2 = "symlinkcreate to target ".toList ++ target := by
    intro m k hm y hy
    rcases mem_mapSet m k _ y hy with h | h
    · exact Or.inr (Or.inl (by rw [h]))
    · exact hm y h
  unfold recordPatchAction at hx
  split at hx
  · exact hcreate _ _ hall x hx
  · split at hx
    · exact hdelete _ _ hall x hx
    · split at hx
      · simp only at hx
        split at hx
        · exact hcreate _ _ (hdelete _ _ hall) x hx
        · exact hcreate _ _ hall x hx
      · rename_i hsame
        split at hx
        · exact hcreate _ _ hall x hx
        · rename_i hdiff
          exact absurd (not_not.mp hsame) hdiff

theorem getCommitFilesPatch_actions {File : Type} (env : CommitEnv File)
    (endpoints : List (Str × DeployerEndpoints)) (fileOverrides : List Str)
    (fromFile toFile : Option File) (commitFiles commitFiles' : List (Str × Str))
    (commitHosts commitHosts' : List Str)
    (hres : getCommitFilesPatch env endpoints fileOverrides fromFile toFile commitFiles
      commitHosts = .ok (commitFiles', commitHosts'))
    (hall : ∀ x ∈ commitFiles, x.2 = "create".toList ∨ x.2 = "delete".toList ∨
      ∃ target, x.2 = "symlinkcreate to target ".toList ++ target)
    (x : Str × Str) (hx : x ∈ commitFiles') :
    x.2 = "create".toList ∨ x.2 = "delete".toList ∨
      ∃ target, x.2 = "symlinkcreate to target ".toList ++ target := by
  unfold getCommitFilesPatch at hres
  cases hfrom : env.validateCommittedFiles commitHosts endpoints fromFile with
  | error msg => simp [hfrom] at hres
  | panic => simp [hfrom] at hres
  | ok validFrom =>
    simp only [hfrom] at hres
    cases hto : env.validateCommittedFiles validFrom.commitHosts endpoints toFile with
    | error msg => simp [hto] at hres
    | panic => simp [hto] at hres
    | ok validTo =>
      simp only [hto] at hres
      split at hres
      · simp only [Outcome.ok.injEq, Prod.mk.injEq] at hres
        exact hall x (hres.1 ▸ hx)
      · split at hres
        · simp only [Outcome.ok.injEq, Prod.mk.injEq] at hres
          exact hall x (hres.1 ▸ hx)
        · have hrec := recordPatchAction_actions env fromFile toFile validFrom.path
            validTo.path commitFiles hall
          split at hres
          · cases hlink : env.ResolveLinkToTarget validTo.path with
            | error msg => simp [hlink] at hres
            | panic => simp [hlink] at hres
            | ok targetPath =>
              simp only [hlink, Outcome.ok.injEq, Prod.mk.injEq] at hres
              rw [← hres.1] at hx
              rcases mem_mapSet _ _ _ x hx with h | h
              · exact Or.inr (Or.inr ⟨targetPath, by rw [h]⟩)
              · exact hrec x h
          · simp only [Outcome.ok.injEq, Prod.mk.injEq] at hres
            exact hrec x (hres.1 ▸ hx)

theorem getCommitFilesLoop_actions {File : Type} (env : CommitEnv File)
    (endpoints : List (Str × DeployerEndpoints)) (fileOverrides : List Str)
    (patches : List (Option File × Option File)) (commitFiles commitFiles' : List (Str × Str))
    (commitHosts commitHosts' : List Str)
    (hres : getCommitFilesLoop env endpoints fileOverrides patches commitFiles commitHosts
      = .ok (commitFiles', commitHosts'))
    (hall : ∀ x ∈ commitFiles, x.2 = "create".toList ∨ x.2 = "delete".toList ∨
      ∃ target, x.2 = "symlinkcreate to target ".toList ++ target)
    (x : Str × Str) (hx : x ∈ commitFiles') :
    x.2 = "create".toList ∨ x.2 = "delete".toList ∨
      ∃ target, x.2 = "symlinkcreate to target ".toList ++ target := by
  induction patches generalizing commitFiles commitHosts with
  | nil =>
    simp only [getCommitFilesLoop, Outcome.ok.injEq, Prod.mk.injEq] at hres
    exact hall x (hres.1 ▸ hx)
  | cons p rest ih =>
    obtain ⟨fromFile, toFile⟩ := p
    unfold getCommitFilesLoop at hres
    cases hstep : getCommitFilesPatch env endpoints fileOverrides fromFile toFile commitFiles
        commitHosts with
    | error msg => simp [hstep] at hres
    | panic => simp [hstep] at hres
    | ok next =>
      obtain ⟨nextFiles, nextHosts⟩ := next
      simp only [hstep] at hres
      exact ih nextFiles nextHosts hres
        (getCommitFilesPatch_actions env endpoints fileOverrides fromFile toFile commitFiles
          nextFiles commitHosts nextHosts hstep hall)

/-- C27: every action that `getCommitFiles` stores in `commitFiles` is `create`,
`delete` or `symlinkcreate to target` followed by a path, and none is `unsupported`:
the branch that stores it follows the tests `fromPath != toPath` and
`fromPath == toPath`, one of which holds. -/
theorem getCommitFiles_actions {File : Type} (env : CommitEnv File) (diff : CommitDiff File)
    (endpoints : List (Str × DeployerEndpoints)) (fileOverride : Str)
    (commitFiles : List (Str × Str)) (commitHosts : List Str)
    (hres : getCommitFiles env diff endpoints fileOverride = .ok (commitFiles, commitHosts))
    (path action : Str) (hmem : (path, action) ∈ commitFiles) :
    (action = "create".toList ∨ action = "delete".toList ∨
      ∃ target, action = "symlinkcreate to target ".toList ++ target) ∧
    action ≠ "unsupported".toList := by
  have hallowed : action = "create".toList ∨ action = "delete".toList ∨
      ∃ target, action = "symlinkcreate to target ".toList ++ target := by
    unfold getCommitFiles at hres
    cases diff with
    | noParent msg => simp at hres
    | patchFailed msg => simp at hres
    | filePatches patches =>
      simp only at hres
      exact getCommitFilesLoop_actions env endpoints _ patches [] commitFiles [] commitHosts
        hres (fun y hy => by simp at hy) (path, action) hmem
  refine ⟨hallowed, ?_⟩
  rcases hallowed with h | h | ⟨target, h⟩
  · rw [h]
    decide
  · rw [h]
    decide
  · rw [h]
    intro hbad
    have hhead := congrArg List.head? hbad
    simp at hhead

theorem getCommitFiles_actions_witness :
    ("symlinkcreate to target /etc/motd".toList = "create".toList ∨
      "symlinkcreate to target /etc/motd".toList = "delete".toList ∨
      ∃ target, "symlinkcreate to target /etc/motd".toList
        = "symlinkcreate to target ".toList ++ target) ∧
    "symlinkcreate to target /etc/motd".toList ≠ "unsupported".toList :=
  getCommitFiles_actions
    { sampleCommitEnv (fun _ => true) with
      ResolveLinkToTarget := fun _ => .ok "/etc/motd".toList }
    (.filePatches [(none, some ⟨"hostA/etc/link".toList, true⟩),
      (some ⟨"hostA/etc/a".toList, false⟩, none),
      (some ⟨"hostA/etc/b".toList, false⟩, some ⟨"hostA/etc/b2".toList, false⟩)])
    [("hostA".toList, ⟨"10.0.0.1".toList, [], false⟩)] []
    [("hostA/etc/link".toList, "symlinkcreate to target /etc/motd".toList),
      ("hostA/etc/a".toList, "delete".toList), ("hostA/etc/b2".toList, "create".toList)]
    ["hostA".toList] (by decide) "hostA/etc/link".toList
    "symlinkcreate to target /etc/motd".toList (by decide)

/-! ## Theorems: file loader -/

end SCMPusher
